import Mathlib

/-!
# enum-generator: a verification development

Shallow embedding of `main.go` of wimark/enum-generator.

* Go strings are modelled as lists of characters (`Str`).  The schema comes out
  of a TOML parser and the templates are ASCII, so substring search and the
  byte-wise order of Go agree with their character-level counterparts.
* A Go `map[string]T` is an association list with distinct keys; the order of
  the list is the order in which `range` visits the entries.
* The order in which `range` visits a `ReplaceMap` literal built inside the
  program is chosen by the runtime; it is the parameter `ord` of `replacer`.
-/

namespace EnumGenerator

/-- Go `string`. -/
abbrev Str := List Char

/-- Go `type EnumVariantMap map[string]string`, entries in iteration order. -/
abbrev EnumVariantMap := List (Str × Str)

/-- Go `type EnumInfo struct`; the two pointer fields are `none` when nil. -/
structure EnumInfo where
  Constraint : Option Str
  Default : Option Str
  Variants : EnumVariantMap
deriving DecidableEq

/-- Go `type EnumTypeMap map[string]EnumInfo`, entries in iteration order. -/
abbrev EnumTypeMap := List (Str × EnumInfo)

/-- Go `type ReplaceMap map[string]string`. -/
abbrev ReplaceMap := List (Str × Str)

/-- Go `type TemplateMap map[string]string`. -/
abbrev TemplateMap := List (Str × Str)

/-- Map index expression `m[k]` on a `map[string]string`: the value stored under `k`,
the zero value `""` when the key is absent. -/
def mapGet : List (Str × Str) → Str → Str
  | [], _ => []
  | (k, v) :: rest, key => if k = key then v else mapGet rest key

/-- Zero value of `EnumInfo`. -/
def EnumInfo.zero : EnumInfo := ⟨none, none, []⟩

/-- Map index expression `m[k]` on an `EnumTypeMap`. -/
def enumGet : EnumTypeMap → Str → EnumInfo
  | [], _ => EnumInfo.zero
  | (k, v) :: rest, key => if k = key then v else enumGet rest key

/-- Keys of a map in iteration order. -/
def mapKeys {β : Type} (m : List (Str × β)) : List Str := m.map Prod.fst

/-- Scanning loop of `strings.Replace(s, old, new, -1)` for a non-empty `old`: the first
argument counts the characters of a match that are still to be skipped. -/
def replaceScan (old new : Str) : Nat → Str → Str
  | _, [] => []
  | k + 1, _ :: cs => replaceScan old new k cs
  | 0, c :: cs =>
    if old.isPrefixOf (c :: cs) then new ++ replaceScan old new (old.length - 1) cs
    else c :: replaceScan old new 0 cs

/-- Go `strings.Replace(s, old, new, -1)`: every non-overlapping occurrence of `old`,
found left to right, is replaced by `new`; an empty `old` matches before every character
and at the end. -/
def stringsReplace (s old new : Str) : Str :=
  match old with
  | [] => new ++ s.foldr (fun c acc => c :: (new ++ acc)) []
  | _ :: _ => replaceScan old new 0 s

/-- Go `strings.Join(elems, sep)`. -/
def stringsJoin : List Str → Str → Str
  | [], _ => []
  | [a], _ => a
  | a :: b :: rest, sep => a ++ sep ++ stringsJoin (b :: rest) sep

/-- Go string comparison `a < b` (lexicographic). -/
def strLess : Str → Str → Bool
  | [], [] => false
  | [], _ :: _ => true
  | _ :: _, [] => false
  | a :: as, b :: bs =>
    if a.toNat < b.toNat then true
    else if b.toNat < a.toNat then false
    else strLess as bs

/-- Go string comparison `a <= b`, that is `!(b < a)`. -/
def strLe (a b : Str) : Prop := strLess b a = false

instance strLe.decidable : DecidableRel strLe := fun a b =>
  inferInstanceAs (Decidable (strLess b a = false))

/-- Go `sort.StringSlice.Sort`: the slice rearranged in ascending order. -/
def sortStrings (l : List Str) : List Str := l.insertionSort strLe

/-- Text of a Go raw string literal, given line by line. -/
def goText (lines : List String) : Str := (lines.map String.toList).flatten

/-- Go template constant `HEADER`. -/
def HEADER : Str :=
  goText
    ["\n",
     "package %pkgname\n",
     "import (\n",
     "\t%packages\n",
     "\t\"errors\"\n",
     ")"]

/-- Go template constant `ENUM_TYPENAME`. -/
def ENUM_TYPENAME : Str :=
  goText
    ["\n",
     "type %type string"]

/-- Go template constant `ENUM_VALUES`. -/
def ENUM_VALUES : Str :=
  goText
    ["\n",
     "const %type%name %type = \"%value\""]

/-- Go template constant `ENUM_GETPTR`. -/
def ENUM_GETPTR : Str :=
  goText
    ["\n",
     "func (self %type) GetPtr() *%type \x7b var v = self; return &v; \x7d"]

/-- Go template constant `ENUM_STRING_HEADER`. -/
def ENUM_STRING_HEADER : Str :=
  goText
    ["\n",
     "func (self *%type) String() string \x7b\n",
     "\tswitch *self \x7b"]

/-- Go template constant `ENUM_STRING_CASE`. -/
def ENUM_STRING_CASE : Str :=
  goText
    ["\n",
     "\tcase %type%name:\n",
     "\t\treturn \"%value\""]

/-- Go template constant `ENUM_STRING_DEFAULT`. -/
def ENUM_STRING_DEFAULT : Str :=
  goText
    ["\n",
     "\tif len(*self) == 0 \x7b return \"%value\" \x7d"]

/-- Go template constant `ENUM_STRING_FOOTER`. -/
def ENUM_STRING_FOOTER : Str :=
  goText
    ["\n",
     "\t\x7d%defaultcode\n",
     "\tpanic(errors.New(\"Invalid value of %type\"))\n",
     "\x7d"]

/-- Go template constant `ENUM_MARSHAL_HEADER`. -/
def ENUM_MARSHAL_HEADER : Str :=
  goText
    ["\n",
     "func (self *%type) MarshalJSON() ([]byte, error) \x7b\n",
     "\tswitch *self \x7b"]

/-- Go template constant `ENUM_MARSHAL_CASE`. -/
def ENUM_MARSHAL_CASE : Str :=
  goText
    ["\n",
     "\tcase %type%name:\n",
     "\t\treturn json.Marshal(\"%value\")"]

/-- Go template constant `ENUM_MARSHAL_DEFAULT`. -/
def ENUM_MARSHAL_DEFAULT : Str :=
  goText
    ["\n",
     "\tif len(*self) == 0 \x7b return json.Marshal(\"%value\") \x7d"]

/-- Go template constant `ENUM_GETTER_FOOTER`. -/
def ENUM_GETTER_FOOTER : Str :=
  goText
    ["\n",
     "\t\x7d%defaultcode\n",
     "\treturn nil, errors.New(\"Invalid value of %type\")\n",
     "\x7d"]

/-- Go template constant `ENUM_GETBSON_HEADER`. -/
def ENUM_GETBSON_HEADER : Str :=
  goText
    ["\n",
     "func (self *%type) GetBSON() (interface\x7b\x7d, error) \x7b\n",
     "\tswitch *self \x7b"]

/-- Go template constant `ENUM_GETBSON_CASE`. -/
def ENUM_GETBSON_CASE : Str :=
  goText
    ["\n",
     "\tcase %type%name:\n",
     "\t\treturn \"%value\", nil"]

/-- Go template constant `ENUM_GETBSON_DEFAULT`. -/
def ENUM_GETBSON_DEFAULT : Str :=
  goText
    ["\n",
     "\tif len(*self) == 0 \x7b return \"%value\", nil \x7d"]

/-- Go template constant `ENUM_UNMARSHAL_HEADER`. -/
def ENUM_UNMARSHAL_HEADER : Str :=
  goText
    ["\n",
     "func (self *%type) UnmarshalJSON(b []byte) error \x7b\n",
     "\tvar s string\n",
     "\tif err := json.Unmarshal(b, &s); err != nil \x7b\n",
     "\t\treturn err\n",
     "\t\x7d\n",
     "\tswitch s \x7b"]

/-- Go template constant `ENUM_SETTER_CASE`. -/
def ENUM_SETTER_CASE : Str :=
  goText
    ["\n",
     "\tcase \"%value\":\n",
     "\t\t*self = %type%name\n",
     "\t\treturn nil"]

/-- Go template constant `ENUM_SETTER_DEFAULT`. -/
def ENUM_SETTER_DEFAULT : Str :=
  goText
    ["\n",
     "\tif len(s) == 0 \x7b\n",
     "\t\t*self = %type%name\n",
     "\t\treturn nil\n",
     "\t\x7d"]

/-- Go template constant `ENUM_SETTER_FOOTER`. -/
def ENUM_SETTER_FOOTER : Str :=
  goText
    ["\n",
     "\t\x7d%defaultcode\n",
     "\treturn errors.New(\"Unknown %type\")\n",
     "\x7d"]

/-- Go template constant `ENUM_SETBSON_HEADER`. -/
def ENUM_SETBSON_HEADER : Str :=
  goText
    ["\n",
     "func (self *%type) SetBSON(v bson.Raw) error \x7b\n",
     "\tvar s string\n",
     "\tif err := v.Unmarshal(&s); err != nil \x7b\n",
     "\t\treturn err\n",
     "\t\x7d\n",
     "\tswitch s \x7b"]

/-- Go template constant `ASSOC_TYPE`. -/
def ASSOC_TYPE : Str :=
  goText
    ["\n",
     "type %type struct \x7b\n",
     "\tType %constr \"json:\\\"type\\\"\"\n",
     "\tData interface\x7b\x7d \"json:\\\"data\\\"\"\n",
     "\x7d"]

/-- Go template constant `ASSOC_UNMARSHAL_HEADER`. -/
def ASSOC_UNMARSHAL_HEADER : Str :=
  goText
    ["\n",
     "func (self *%type) UnmarshalJSON(b []byte) error \x7b\n",
     "\tvar doc map[string]json.RawMessage\n",
     "\tif err := json.Unmarshal(b, &doc); err != nil \x7b\n",
     "\t\treturn err\n",
     "\t\x7d\n",
     "\tif doc == nil \x7b\n",
     "\t\treturn nil\n",
     "\t\x7d\n",
     "\tvar t_raw, t_found = doc[\"type\"]\n",
     "\tif !t_found \x7b\n",
     "\t\treturn nil\n",
     "\t\x7d\n",
     "\tvar data_raw, data_found = doc[\"data\"]\n",
     "\tif bytes.Equal(data_raw, []byte(\"null\")) \x7b\n",
     "\t\tdata_found = false\n",
     "\t\x7d\n",
     "\tvar t %constr\n",
     "\tif t_err := json.Unmarshal(t_raw, &t); t_err != nil \x7b\n",
     "\t\treturn t_err\n",
     "\t\x7d\n",
     "\tswitch t \x7b"]

/-- Go template constant `ASSOC_UNMARSHAL_CASE`. -/
def ASSOC_UNMARSHAL_CASE : Str :=
  goText
    ["\n",
     "\tcase %constr%name:\n",
     "\t\tif !data_found \x7b\n",
     "\t\t\treturn errors.New(\"No associated data found for enum %type\")\n",
     "\t\t\x7d\n",
     "\t\tvar d %value\n",
     "\t\tvar data_err = json.Unmarshal(data_raw, &d)\n",
     "\t\tif data_err != nil \x7b\n",
     "\t\t\treturn data_err\n",
     "\t\t\x7d\n",
     "\t\tself.Data = &d"]

/-- Go template constant `ASSOC_SETTER_CASE_NULL`. -/
def ASSOC_SETTER_CASE_NULL : Str :=
  goText
    ["\n",
     "\tcase %constr%name:\n",
     "\t\tbreak"]

/-- Go template constant `ASSOC_SETTER_FOOTER`. -/
def ASSOC_SETTER_FOOTER : Str :=
  goText
    ["\n",
     "\t\x7d\n",
     "\tself.Type = t\n",
     "\treturn nil\n",
     "\x7d"]

/-- Go template constant `ASSOC_SETBSON_HEADER`. -/
def ASSOC_SETBSON_HEADER : Str :=
  goText
    ["\n",
     "func (self *%type) SetBSON(v bson.Raw) error \x7b\n",
     "\tvar in = map[string]bson.Raw\x7b\x7d\n",
     "\tif err := v.Unmarshal(&in); err != nil \x7b\n",
     "\t\treturn err\n",
     "\t\x7d\n",
     "\tif in == nil \x7b\n",
     "\t\treturn nil\n",
     "\t\x7d\n",
     "\tvar t_raw, t_found = in[\"type\"]\n",
     "\tif !t_found \x7b\n",
     "\t\treturn nil\n",
     "\t\x7d\n",
     "\tvar data_raw, data_found = in[\"data\"]\n",
     "\tif bytes.Equal(data_raw.Data, []byte(\"null\")) \x7b\n",
     "\t\tdata_found = false\n",
     "\t\x7d\n",
     "\tvar t %constr\n",
     "\tif t_err := t_raw.Unmarshal(&t); t_err != nil \x7b\n",
     "\t\treturn t_err\n",
     "\t\x7d\n",
     "\tswitch t \x7b"]

/-- Go template constant `ASSOC_SETBSON_CASE`. -/
def ASSOC_SETBSON_CASE : Str :=
  goText
    ["\n",
     "\tcase %constr%name:\n",
     "\t\tif !data_found \x7b\n",
     "\t\t\treturn errors.New(\"No associated data found for enum %type\")\n",
     "\t\t\x7d\n",
     "\t\tvar d %value\n",
     "\t\tvar data_err = data_raw.Unmarshal(&d)\n",
     "\t\tif data_err != nil \x7b\n",
     "\t\t\treturn data_err\n",
     "\t\t\x7d\n",
     "\t\tself.Data = &d"]

/-- Go `func replacer`: the entries of `replaces` are visited in the order `ord replaces`
picked by the runtime, and each visit rewrites the whole current result. -/
def replacer (ord : ReplaceMap → ReplaceMap) (origin : Str) (replaces : ReplaceMap) : Str :=
  (ord replaces).foldl (fun result kv => stringsReplace result kv.1 kv.2) origin

/-- An iteration order only rearranges the entries of the map it is given. -/
def IsOrder (ord : ReplaceMap → ReplaceMap) : Prop := ∀ m, (ord m).Perm m

/-- Go `func generateHeader`. -/
def generateHeader (ord : ReplaceMap → ReplaceMap) (pkgname : Str)
    (enable_json enable_bson has_assoc : Bool) : Str :=
  let packages : List Str := []
  let packages := if enable_json then packages ++ [String.toList "\"encoding/json\""] else packages
  let packages :=
    if enable_bson then packages ++ [String.toList "\"gopkg.in/mgo.v2/bson\""] else packages
  let packages :=
    if has_assoc && (enable_bson || enable_json) then packages ++ [String.toList "\"bytes\""]
    else packages
  replacer ord HEADER
    [(String.toList "%packages", stringsJoin packages (String.toList "\n")),
     (String.toList "%pkgname", pkgname)]

/-- Go `func generateEnumTypeName`. -/
def generateEnumTypeName (ord : ReplaceMap → ReplaceMap) (name : Str) : Str :=
  replacer ord ENUM_TYPENAME [(String.toList "%type", name)]

/-- Go `func generateEnumValues`. -/
def generateEnumValues (ord : ReplaceMap → ReplaceMap) (etype name value : Str) : Str :=
  replacer ord ENUM_VALUES
    [(String.toList "%name", name), (String.toList "%type", etype),
     (String.toList "%value", value)]

/-- Go `func generateEnumGetPtr`. -/
def generateEnumGetPtr (ord : ReplaceMap → ReplaceMap) (name : Str) : Str :=
  replacer ord ENUM_GETPTR [(String.toList "%type", name)]

/-- Go `func generateEnumFunction`. -/
def generateEnumFunction (ord : ReplaceMap → ReplaceMap) (name : Str) (values : List Str)
    (enum_info : EnumInfo) (templates : TemplateMap) : Str :=
  let code : Str := []
  let code := code ++ replacer ord (mapGet templates (String.toList "header"))
    [(String.toList "%type", name)]
  let code := values.foldl (fun code var_name =>
    let value := mapGet enum_info.Variants var_name
    code ++ replacer ord (mapGet templates (String.toList "case"))
      [(String.toList "%name", var_name), (String.toList "%type", name),
       (String.toList "%value", value)]) code
  let defaultCode : Str :=
    match enum_info.Default with
    | some d =>
      replacer ord (mapGet templates (String.toList "default"))
        [(String.toList "%name", d), (String.toList "%type", name),
         (String.toList "%value", mapGet enum_info.Variants d)]
    | none => []
  code ++ replacer ord (mapGet templates (String.toList "footer"))
    [(String.toList "%type", name), (String.toList "%defaultcode", defaultCode)]

/-- Template map of the `String` function. -/
def stringTemplates : TemplateMap :=
  [(String.toList "header", ENUM_STRING_HEADER), (String.toList "footer", ENUM_STRING_FOOTER),
   (String.toList "default", ENUM_STRING_DEFAULT), (String.toList "case", ENUM_STRING_CASE)]

/-- Template map of `MarshalJSON`. -/
def marshalTemplates : TemplateMap :=
  [(String.toList "header", ENUM_MARSHAL_HEADER), (String.toList "footer", ENUM_GETTER_FOOTER),
   (String.toList "default", ENUM_MARSHAL_DEFAULT), (String.toList "case", ENUM_MARSHAL_CASE)]

/-- Template map of `GetBSON`. -/
def getbsonTemplates : TemplateMap :=
  [(String.toList "header", ENUM_GETBSON_HEADER), (String.toList "footer", ENUM_GETTER_FOOTER),
   (String.toList "default", ENUM_GETBSON_DEFAULT), (String.toList "case", ENUM_GETBSON_CASE)]

/-- Template map of `UnmarshalJSON`. -/
def unmarshalTemplates : TemplateMap :=
  [(String.toList "header", ENUM_UNMARSHAL_HEADER), (String.toList "footer", ENUM_SETTER_FOOTER),
   (String.toList "default", ENUM_SETTER_DEFAULT), (String.toList "case", ENUM_SETTER_CASE)]

/-- Template map of `SetBSON`. -/
def setbsonTemplates : TemplateMap :=
  [(String.toList "header", ENUM_SETBSON_HEADER), (String.toList "footer", ENUM_SETTER_FOOTER),
   (String.toList "default", ENUM_SETTER_DEFAULT), (String.toList "case", ENUM_SETTER_CASE)]

/-- Go `func generateEnumType`. -/
def generateEnumType (ord : ReplaceMap → ReplaceMap) (enum_name : Str) (enum_info : EnumInfo)
    (enable_json enable_bson : Bool) : Str :=
  let code : Str := []
  let sorted_var_list : List Str :=
    enum_info.Variants.foldl (fun sorted_var_list kv => sorted_var_list ++ [kv.1]) []
  let sorted_var_list := sortStrings sorted_var_list
  let code := code ++ generateEnumTypeName ord enum_name
  let code := sorted_var_list.foldl (fun code var_name =>
    code ++ generateEnumValues ord enum_name var_name (mapGet enum_info.Variants var_name)) code
  let code := code ++ generateEnumGetPtr ord enum_name
  let code := code ++
    generateEnumFunction ord enum_name sorted_var_list enum_info stringTemplates
  let code :=
    if enable_json then
      code ++ generateEnumFunction ord enum_name sorted_var_list enum_info marshalTemplates
    else code
  let code :=
    if enable_bson then
      code ++ generateEnumFunction ord enum_name sorted_var_list enum_info getbsonTemplates
    else code
  let code :=
    if enable_json then
      code ++ generateEnumFunction ord enum_name sorted_var_list enum_info unmarshalTemplates
    else code
  let code :=
    if enable_bson then
      code ++ generateEnumFunction ord enum_name sorted_var_list enum_info setbsonTemplates
    else code
  code

/-- Go `func generateAssocEnumTypeName`. -/
def generateAssocEnumTypeName (ord : ReplaceMap → ReplaceMap) (name constr : Str) : Str :=
  replacer ord ASSOC_TYPE [(String.toList "%type", name), (String.toList "%constr", constr)]

/-- Go `func generateAssocEnumFunction`; `none` is the nil dereference of
`*enum_info.Constraint`. -/
def generateAssocEnumFunction (ord : ReplaceMap → ReplaceMap) (name : Str) (values : List Str)
    (enum_info : EnumInfo) (templates : TemplateMap) : Option Str :=
  match enum_info.Constraint with
  | none => none
  | some constr =>
    let code : Str := []
    let code := code ++ replacer ord (mapGet templates (String.toList "header"))
      [(String.toList "%type", name), (String.toList "%constr", constr)]
    let code := values.foldl (fun code var_name =>
      let value := mapGet enum_info.Variants var_name
      if value = String.toList "null" then
        code ++ replacer ord (mapGet templates (String.toList "case_null"))
          [(String.toList "%name", var_name), (String.toList "%type", name),
           (String.toList "%value", value), (String.toList "%constr", constr)]
      else
        code ++ replacer ord (mapGet templates (String.toList "case"))
          [(String.toList "%name", var_name), (String.toList "%type", name),
           (String.toList "%value", value), (String.toList "%constr", constr)]) code
    some (code ++ replacer ord (mapGet templates (String.toList "footer"))
      [(String.toList "%type", name)])

/-- Template map of the tagged-union `UnmarshalJSON`. -/
def assocUnmarshalTemplates : TemplateMap :=
  [(String.toList "header", ASSOC_UNMARSHAL_HEADER),
   (String.toList "footer", ASSOC_SETTER_FOOTER),
   (String.toList "case_null", ASSOC_SETTER_CASE_NULL),
   (String.toList "case", ASSOC_UNMARSHAL_CASE)]

/-- Template map of the tagged-union `SetBSON`. -/
def assocSetbsonTemplates : TemplateMap :=
  [(String.toList "header", ASSOC_SETBSON_HEADER),
   (String.toList "footer", ASSOC_SETTER_FOOTER),
   (String.toList "case_null", ASSOC_SETTER_CASE_NULL),
   (String.toList "case", ASSOC_SETBSON_CASE)]

/-- Go `func generateAssocEnumType`; `none` is the nil dereference of
`*enum_info.Constraint`. -/
def generateAssocEnumType (ord : ReplaceMap → ReplaceMap) (enum_name : Str)
    (enum_info : EnumInfo) (enable_json enable_bson : Bool) : Option Str :=
  let sorted_var_list : List Str :=
    enum_info.Variants.foldl (fun sorted_var_list kv => sorted_var_list ++ [kv.1]) []
  let sorted_var_list := sortStrings sorted_var_list
  let code : Str := []
  match enum_info.Constraint with
  | none => none
  | some constr =>
    let code := code ++ generateAssocEnumTypeName ord enum_name constr
    let code : Option Str :=
      if enable_json then
        (generateAssocEnumFunction ord enum_name sorted_var_list enum_info
          assocUnmarshalTemplates).map (fun f => code ++ f)
      else some code
    let code : Option Str :=
      if enable_bson then
        code.bind (fun code =>
          (generateAssocEnumFunction ord enum_name sorted_var_list enum_info
            assocSetbsonTemplates).map (fun f => code ++ f))
      else code
    code

/-- Go `func generateEnumCode`; `none` would be a run-time panic of the generator. -/
def generateEnumCode (ord : ReplaceMap → ReplaceMap) (m : EnumTypeMap) (pkg : Str)
    (enable_json enable_bson : Bool) : Option Str :=
  let code : Str := []
  let scan : List Str × Bool :=
    m.foldl (fun acc kv =>
      (acc.1 ++ [kv.1], if kv.2.Constraint ≠ none then true else acc.2)) ([], false)
  let has_assoc := scan.2
  let sorted_list := sortStrings scan.1
  let code := code ++ generateHeader ord pkg enable_json enable_bson has_assoc
  sorted_list.foldl (fun code enum_name =>
    code.bind (fun code =>
      if (enumGet m enum_name).Constraint = none then
        some (code ++ generateEnumType ord enum_name (enumGet m enum_name)
          enable_json enable_bson)
      else
        (generateAssocEnumType ord enum_name (enumGet m enum_name)
          enable_json enable_bson).map (fun b => code ++ b))) (some code)

/-- Formatting pass of Go `func main` ("beautify a bit"). -/
def beautify (result : Str) : Str :=
  let result := stringsReplace result (String.toList "\ntype") (String.toList "\n\ntype")
  let result := stringsReplace result (String.toList "\nfunc") (String.toList "\n\nfunc")
  result

/-! ## The emitted Go code

The templates are Go source with placeholders.  What follows is the Go meaning of the
functions that the generators instantiate from them: a plain enum is a `string` type, its
variants are the constants declared by `ENUM_VALUES`, and the encoders and decoders are
`switch` statements whose cases are the instances of the case templates, in emission
order.  A Go `switch` runs the first case that matches.  The placeholders of an instance
are taken at the values of its replacement map.  The literal of a variant is pasted
between double quotes (`"%value"`), so what the emitted code compares and returns is the
string that Go reads from that interpreted string literal, given by `goStringLit`: the
text `a\n` of three characters denotes `a` followed by a line feed.  A text that is not
the body of a string literal (an unescaped quote, a line feed, a bad escape) makes the
emitted text something else than the functions described here; the results about emitted
functions are stated for enums whose literals are all bodies of string literals
(`LiteralsOk`). -/

/-- Value of a digit in base 8 or 16; `none` for a character that is no digit of the
base. -/
def digitValue (base : Nat) (c : Char) : Option Nat :=
  let n := c.toNat
  if 48 ≤ n ∧ n ≤ 55 then some (n - 48)
  else if base = 16 ∧ 56 ≤ n ∧ n ≤ 57 then some (n - 48)
  else if base = 16 ∧ 97 ≤ n ∧ n ≤ 102 then some (n - 87)
  else if base = 16 ∧ 65 ≤ n ∧ n ≤ 70 then some (n - 55)
  else none

/-- Character denoted by a single-character escape of a Go string literal: `\a \b \f \n
\r \t \v`, the backslash and the double quote (an escaped single quote is not legal in a
string). -/
def escapedChar (c : Char) : Option Char :=
  if c = 'a' then some (Char.ofNat 7)
  else if c = 'b' then some (Char.ofNat 8)
  else if c = 'f' then some (Char.ofNat 12)
  else if c = 'n' then some '\n'
  else if c = 'r' then some '\r'
  else if c = 't' then some '\t'
  else if c = 'v' then some (Char.ofNat 11)
  else if c = '\\' then some '\\'
  else if c = '"' then some '"'
  else none

/-- Character denoted by a completed numeric escape.  A byte escape (`\x..`, octal) below
0x80 is that character; a byte escape from 0x80 on denotes a byte that is no text by
itself and has no value here.  A `\u` or `\U` escape must be a valid code point: no
surrogate half and at most 0x10FFFF. -/
def escapeValue (byte : Bool) (n : Nat) : Option Char :=
  if byte then (if n < 128 then some (Char.ofNat n) else none)
  else if n < 0xD800 ∨ (0xDFFF < n ∧ n < 0x110000) then some (Char.ofNat n)
  else none

/-- Position of the reader inside the body of a Go interpreted string literal: between
two elements, right after a backslash, or inside a numeric escape of base `base` with
`left` digits still to read and `acc` the digits read so far (`byte` for `\x..` and octal
escapes, which denote a byte, as opposed to `\u....` and `\U........`). -/
inductive LitState where
  | text
  | escape
  | digits (base left acc : Nat) (byte : Bool)
deriving DecidableEq

/-- Reading of the body of a Go interpreted string literal, element by element, after the
Go language specification: a character other than the double quote, the backslash and the
line feed denotes itself (NUL and the byte order mark are refused by the Go compiler); a
backslash starts a single-character escape, `\x` with two hexadecimal digits, three octal
digits, `\u` with four or `\U` with eight hexadecimal digits.  `none` when the text is not
the body of a literal. -/
def goLitScan : LitState → Str → Option Str
  | LitState.text, [] => some []
  | LitState.escape, [] => none
  | LitState.digits _ _ _ _, [] => none
  | LitState.text, c :: cs =>
    if c = '"' ∨ c = '\n' ∨ c.toNat = 0 ∨ c.toNat = 0xFEFF then none
    else if c = '\\' then goLitScan LitState.escape cs
    else (goLitScan LitState.text cs).map (fun v => c :: v)
  | LitState.escape, c :: cs =>
    if c = 'x' then goLitScan (LitState.digits 16 2 0 true) cs
    else if c = 'u' then goLitScan (LitState.digits 16 4 0 false) cs
    else if c = 'U' then goLitScan (LitState.digits 16 8 0 false) cs
    else
      match digitValue 8 c with
      | some d => goLitScan (LitState.digits 8 2 d true) cs
      | none =>
        match escapedChar c with
        | some e => (goLitScan LitState.text cs).map (fun v => e :: v)
        | none => none
  | LitState.digits base left acc byte, c :: cs =>
    match digitValue base c with
    | none => none
    | some d =>
      if left ≤ 1 then
        match escapeValue byte (acc * base + d) with
        | some e => (goLitScan LitState.text cs).map (fun v => e :: v)
        | none => none
      else goLitScan (LitState.digits base (left - 1) (acc * base + d) byte) cs

/-- String that Go reads from the interpreted string literal whose body (the text between
the double quotes) is `body`; `none` when `body` is not the body of a string literal, or
when its value is not text. -/
def goStringLit (body : Str) : Option Str := goLitScan LitState.text body

/-- Every literal of the enum is the body of a Go string literal, so that each pasted
`"%value"` is one string literal of the emitted code. -/
def LiteralsOk (enum_info : EnumInfo) : Prop :=
  ∀ n ∈ mapKeys enum_info.Variants,
    (goStringLit (mapGet enum_info.Variants n)).isSome = true

instance LiteralsOk.decidable (enum_info : EnumInfo) : Decidable (LiteralsOk enum_info) := by
  unfold LiteralsOk
  infer_instance

/-- Result of an emitted function that returns `(string, error)` or assigns `*self` and
returns `error`. -/
inductive Outcome where
  | ok (v : Str)
  | err (msg : Str)
deriving DecidableEq

/-- Replacement map of one instance of a case or default template of a plain enum:
`%name`, `%type` and `%value`. -/
structure Arm where
  name : Str
  type : Str
  value : Str
deriving DecidableEq

/-- Instances of the case template made by the loop of `generateEnumFunction`, in emission
order. -/
def enumArms (name : Str) (values : List Str) (enum_info : EnumInfo) : List Arm :=
  values.map (fun var_name => ⟨var_name, name, mapGet enum_info.Variants var_name⟩)

/-- Instance of the default template made by `generateEnumFunction`, present when
`enum_info.Default != nil`. -/
def enumDefaultArm (name : Str) (enum_info : EnumInfo) : Option Arm :=
  match enum_info.Default with
  | some d => some ⟨d, name, mapGet enum_info.Variants d⟩
  | none => none

/-- Constants declared by the instances of `ENUM_VALUES` that `generateEnumType` emits:
`const %type%name %type = "%value"`, as pairs of identifier and value, the value being the
string that the literal `"%value"` denotes.  An instance whose `%value` is not the body of
a string literal declares no such constant. -/
def enumConsts (enum_name : Str) (sorted_var_list : List Str) (enum_info : EnumInfo) :
    List (Str × Str) :=
  sorted_var_list.filterMap (fun var_name =>
    (goStringLit (mapGet enum_info.Variants var_name)).map (fun v =>
      (enum_name ++ var_name, v)))

/-- Value of a declared constant; `none` for an identifier that is not declared. -/
def constValue : List (Str × Str) → Str → Option Str
  | [], _ => none
  | (id, v) :: rest, ident => if id = ident then some v else constValue rest ident

/-- Decoder body emitted from `ENUM_UNMARSHAL_HEADER` or `ENUM_SETBSON_HEADER`,
`ENUM_SETTER_CASE`, `ENUM_SETTER_DEFAULT` and `ENUM_SETTER_FOOTER`, run on the decoded
string `s`: `switch s` over the cases `case "%value": *self = %type%name; return nil`, then
the default block `if len(s) == 0` when present, then `errors.New("Unknown %type")`.
A case matches when the string that its literal `"%value"` denotes equals `s`.
`ok ident` means that `*self` was assigned the constant `ident`. -/
def runSetter (type : Str) (arms : List Arm) (defaultcode : Option Arm) (s : Str) : Outcome :=
  match arms.find? (fun a => decide (goStringLit a.value = some s)) with
  | some a => Outcome.ok (a.type ++ a.name)
  | none =>
    match defaultcode with
    | some d =>
      if s.length = 0 then Outcome.ok (d.type ++ d.name)
      else Outcome.err (String.toList "Unknown " ++ type)
    | none => Outcome.err (String.toList "Unknown " ++ type)

/-- Statement `return "%value"` of an encoder case or default block: the string that the
literal denotes is returned.  For a `%value` that is not the body of a string literal the
statement is not Go; it is given the error below, which no result relies on. -/
def returnLiteral (value : Str) : Outcome :=
  match goStringLit value with
  | some v => Outcome.ok v
  | none => Outcome.err (String.toList "invalid string literal")

/-- Encoder body emitted from `ENUM_MARSHAL_*` or `ENUM_GETBSON_*` (and the `String`
function from `ENUM_STRING_*`), run on the value `self` of the receiver: `switch *self` over
the cases `case %type%name: return "%value"`, then the default block
`if len(*self) == 0` when present, then the error `Invalid value of %type`.
`consts` are the constants in scope. -/
def runGetter (consts : List (Str × Str)) (type : Str) (arms : List Arm)
    (defaultcode : Option Arm) (self : Str) : Outcome :=
  match arms.find? (fun a => decide (constValue consts (a.type ++ a.name) = some self)) with
  | some a => returnLiteral a.value
  | none =>
    match defaultcode with
    | some d =>
      if self.length = 0 then returnLiteral d.value
      else Outcome.err (String.toList "Invalid value of " ++ type)
    | none => Outcome.err (String.toList "Invalid value of " ++ type)

/-- The two serialisation backends. -/
inductive Backend where
  | json
  | bson
deriving DecidableEq

/-- Template map that `generateAssocEnumType` passes for a backend. -/
def assocTemplates : Backend → TemplateMap
  | Backend.json => assocUnmarshalTemplates
  | Backend.bson => assocSetbsonTemplates

/-- Decoder of a plain enum for a backend, as emitted by `generateEnumType`: both backends
instantiate the same case, default and footer templates over `sorted_var_list`. -/
def emittedDecoder (_backend : Backend) (enum_name : Str) (enum_info : EnumInfo) (s : Str) :
    Outcome :=
  let sorted_var_list := sortStrings (mapKeys enum_info.Variants)
  runSetter enum_name (enumArms enum_name sorted_var_list enum_info)
    (enumDefaultArm enum_name enum_info) s

/-- Encoder of a plain enum for a backend, as emitted by `generateEnumType`, returning the
literal handed to `json.Marshal` (JSON) or returned as the document value (BSON). -/
def emittedEncoder (_backend : Backend) (enum_name : Str) (enum_info : EnumInfo) (self : Str) :
    Outcome :=
  let sorted_var_list := sortStrings (mapKeys enum_info.Variants)
  runGetter (enumConsts enum_name sorted_var_list enum_info) enum_name
    (enumArms enum_name sorted_var_list enum_info) (enumDefaultArm enum_name enum_info) self

/-- Raw sub-value of a document: `bson.Raw` with its `Kind` and `Data`; for a
`json.RawMessage` only the bytes `Data` are meaningful. -/
structure Raw where
  Kind : Nat
  Data : Str
deriving DecidableEq

/-- Document handed to a tagged-union decoder after the outer `Unmarshal` into a map:
the entries `"type"` and `"data"`, each `none` when the key is absent. -/
structure AssocDoc where
  type : Option Raw
  data : Option Raw
deriving DecidableEq

/-- Value of the emitted struct of a tagged union: the fields `Type` (here `Type_`) and
`Data` (`none` is the nil interface). -/
structure AssocSelf where
  Type_ : Str
  Data : Option Str
deriving DecidableEq

/-- Result of an emitted tagged-union decoder: the receiver after a `nil` return, or the
error returned. -/
inductive AssocOutcome where
  | ok (self : AssocSelf)
  | err (msg : Str)
deriving DecidableEq

/-- Replacement map of one case emitted by `generateAssocEnumFunction`, with the template
chosen for it: `null` is the test `value == "null"`. -/
structure AssocArm where
  name : Str
  type : Str
  value : Str
  constr : Str
  null : Bool
deriving DecidableEq

/-- Instances of the case templates made by the loop of `generateAssocEnumFunction`, in
emission order. -/
def assocArms (name : Str) (values : List Str) (enum_info : EnumInfo) (constr : Str) :
    List AssocArm :=
  values.map (fun var_name =>
    let value := mapGet enum_info.Variants var_name
    ⟨var_name, name, value, constr, decide (value = String.toList "null")⟩)

/-- Go `switch t` over the emitted cases `case %constr%name:`: the first case whose
constant equals the decoded discriminant `t`, `none` when no case matches. -/
def assocDispatch (consts : List (Str × Str)) (arms : List AssocArm) (t : Str) :
    Option AssocArm :=
  arms.find? (fun a => decide (constValue consts (a.constr ++ a.name) = some t))

/-- Decoder body emitted from `ASSOC_UNMARSHAL_HEADER` or `ASSOC_SETBSON_HEADER`, the case
templates and `ASSOC_SETTER_FOOTER`.  `doc` is the map produced by the outer `Unmarshal`
(`none` when it is nil), `decodeT` decodes the `"type"` entry into the constraint type and
`decodeData` decodes the `"data"` entry into the payload type named by its first
argument; `consts` are the constants in scope. -/
def runAssocSetter (consts : List (Str × Str)) (decodeT : Raw → Outcome)
    (decodeData : Str → Raw → Outcome) (arms : List AssocArm) (self : AssocSelf)
    (doc : Option AssocDoc) : AssocOutcome :=
  match doc with
  | none => AssocOutcome.ok self
  | some doc =>
    match doc.type with
    | none => AssocOutcome.ok self
    | some t_raw =>
      let data_raw : Raw := doc.data.getD ⟨0, []⟩
      let data_found : Bool := doc.data.isSome
      let data_found : Bool :=
        if data_raw.Data = String.toList "null" then false else data_found
      match decodeT t_raw with
      | Outcome.err t_err => AssocOutcome.err t_err
      | Outcome.ok t =>
        match assocDispatch consts arms t with
        | some a =>
          if a.null then AssocOutcome.ok ⟨t, self.Data⟩
          else if !data_found then
            AssocOutcome.err (String.toList "No associated data found for enum " ++ a.type)
          else
            match decodeData a.value data_raw with
            | Outcome.err data_err => AssocOutcome.err data_err
            | Outcome.ok d => AssocOutcome.ok ⟨t, some d⟩
        | none => AssocOutcome.ok ⟨t, self.Data⟩

/-- Decoder of a tagged union for a backend, as emitted by `generateAssocEnumType`. -/
def emittedAssocDecoder (_backend : Backend) (consts : List (Str × Str))
    (decodeT : Raw → Outcome) (decodeData : Str → Raw → Outcome) (enum_name : Str)
    (enum_info : EnumInfo) (constr : Str) (self : AssocSelf) (doc : Option AssocDoc) :
    AssocOutcome :=
  let sorted_var_list := sortStrings (mapKeys enum_info.Variants)
  runAssocSetter consts decodeT decodeData
    (assocArms enum_name sorted_var_list enum_info constr) self doc

/-- One-pass simultaneous substitution: at each position the first entry of `replaces`
whose token starts there is replaced by its value and scanning resumes after the token;
where no token starts, the character is copied.  The first argument counts the characters
of a token that are still to be skipped. -/
def substScan (replaces : ReplaceMap) : Nat → Str → Str
  | _, [] => []
  | k + 1, _ :: cs => substScan replaces k cs
  | 0, c :: cs =>
    match replaces.find? (fun kv => decide (kv.1 ≠ []) && kv.1.isPrefixOf (c :: cs)) with
    | some kv => kv.2 ++ substScan replaces (kv.1.length - 1) cs
    | none => c :: substScan replaces 0 cs

/-- Simultaneous substitution of a template, the reading of "literal, non-recursive"
replacement: replaced text is never scanned again. -/
def simultaneousSubst (origin : Str) (replaces : ReplaceMap) : Str :=
  substScan replaces 0 origin

/-- A piece of a template: literal text, or a placeholder token. -/
inductive Seg where
  | lit (s : Str)
  | tok (k : Str)
deriving DecidableEq

/-- Text of a piece as it stands in the template. -/
def Seg.text : Seg → Str
  | Seg.lit s => s
  | Seg.tok k => k

/-- Template text spelled by a list of pieces. -/
def render (segs : List Seg) : Str := (segs.map Seg.text).flatten

/-- Text of a piece once its token is replaced by the value the map holds for it. -/
def Seg.value (replaces : ReplaceMap) : Seg → Str
  | Seg.lit s => s
  | Seg.tok k => mapGet replaces k

/-- Pieces of a template with every token replaced by its value, literal text kept. -/
def instantiate (replaces : ReplaceMap) (segs : List Seg) : Str :=
  (segs.map (Seg.value replaces)).flatten

/-- Effect of one visit of `replacer` on a piece: the token of the visited entry becomes
the entry's value, everything else stays. -/
def applyEntry (kv : Str × Str) : Seg → Seg
  | Seg.lit s => Seg.lit s
  | Seg.tok k => if k = kv.1 then Seg.lit kv.2 else Seg.tok k

/-- A template is well formed for a map when its literal text has no `%` and its tokens
are keys of the map. -/
def SegOk (replaces : ReplaceMap) : Seg → Prop
  | Seg.lit s => '%' ∉ s
  | Seg.tok k => k ∈ mapKeys replaces

/-- A replacement map is clean when each key is a `%` followed by text without `%`, no
key is a prefix of the key of another entry, and no value contains `%`. -/
def CleanMap (replaces : ReplaceMap) : Prop :=
  (∀ e ∈ replaces, e.1.head? = some '%' ∧ '%' ∉ e.1.tail) ∧
  (∀ e₁ ∈ replaces, ∀ e₂ ∈ replaces, e₁.1 <+: e₂.1 → e₁ = e₂) ∧
  (∀ e ∈ replaces, '%' ∉ e.2)

instance CleanMap.decidable (replaces : ReplaceMap) : Decidable (CleanMap replaces) := by
  unfold CleanMap
  infer_instance

instance SegOk.decidable (replaces : ReplaceMap) (seg : Seg) : Decidable (SegOk replaces seg) := by
  cases seg <;> unfold SegOk <;> infer_instance

/-- Replacement map that `generateEnumValues` builds for the variant `Red` of `Color`. -/
def redValuesMap : ReplaceMap :=
  [(String.toList "%name", String.toList "Red"), (String.toList "%type", String.toList "Color"),
   (String.toList "%value", String.toList "red")]

/-- Pieces of the template `ENUM_VALUES`. -/
def enumValuesSegs : List Seg :=
  [Seg.lit (String.toList "\nconst "), Seg.tok (String.toList "%type"),
   Seg.tok (String.toList "%name"), Seg.lit (String.toList " "),
   Seg.tok (String.toList "%type"), Seg.lit (String.toList " = \""),
   Seg.tok (String.toList "%value"), Seg.lit (String.toList "\"")]

/-- Replacement map with the two entries `%a ↦ %b` and `%b ↦ %a`. -/
def swapMap : ReplaceMap :=
  [(String.toList "%a", String.toList "%b"), (String.toList "%b", String.toList "%a")]

/-- Iteration order that visits the entries as written. -/
def ordId : ReplaceMap → ReplaceMap := fun m => m

/-- Iteration order that visits the entries in reverse. -/
def ordRev : ReplaceMap → ReplaceMap := fun m => m.reverse

/-- Schema of the scenario `Color`. -/
def colorInfo : EnumInfo :=
  ⟨none, none, [(String.toList "Red", String.toList "red"),
    (String.toList "Green", String.toList "green")]⟩


/-- Schema of the scenario `Shape`, a tagged union over `ShapeKind`. -/
def shapeInfo : EnumInfo :=
  ⟨some (String.toList "ShapeKind"), none,
    [(String.toList "Circle", String.toList "CircleData"),
     (String.toList "None", String.toList "null")]⟩

/-- Schema with a plain enum and a tagged union. -/
def sampleSchema : EnumTypeMap :=
  [(String.toList "Shape", shapeInfo), (String.toList "Color", colorInfo)]

/-- Schema of an enum of format verbs: the literal of its variant is the text `%name`. -/
def formatInfo : EnumInfo :=
  ⟨none, none, [(String.toList "Name", String.toList "%name")]⟩

/-- Schema holding the enum `Format` only. -/
def formatSchema : EnumTypeMap := [(String.toList "Format", formatInfo)]

/-- Schema of an enum with a variant whose literal is the empty string and a default that
names another variant. -/
def emptyLiteralInfo : EnumInfo :=
  ⟨none, some (String.toList "A"),
    [(String.toList "None", String.toList ""), (String.toList "A", String.toList "a")]⟩

/-- Schema of an enum whose variant `A` has the literal `a\n`: the three characters `a`,
backslash, `n`. -/
def escInfo : EnumInfo :=
  ⟨none, none, [(String.toList "A", String.toList "a\\n")]⟩

/-- Schema of the scenario `Status`, with default `Pending`. -/
def statusInfo : EnumInfo :=
  ⟨none, some (String.toList "Pending"),
    [(String.toList "Pending", String.toList "pending"),
     (String.toList "Done", String.toList "done")]⟩

/-- Constants declared by the plain enum `ShapeKind` with variants `Circle` and `None`. -/
def shapeKindConsts : List (Str × Str) :=
  [(String.toList "ShapeKindCircle", String.toList "Circle"),
   (String.toList "ShapeKindNone", String.toList "None")]

/-- Raw `"data"` entry of a document whose data sub-value is an explicit null.  In
`encoding/json` the `json.RawMessage` of a JSON `null` holds the four bytes `null`; in
`mgo.v2/bson` the `bson.Raw` of a null element has `Kind` 0x0A and no `Data` bytes. -/
def explicitNull : Backend → Raw
  | Backend.json => ⟨0, String.toList "null"⟩
  | Backend.bson => ⟨10, []⟩

/-- Result of the emitted `String` function: the string returned, or the value it panics
with. -/
inductive StringOutcome where
  | ret (v : Str)
  | panic (msg : Str)
deriving DecidableEq

/-- Emitted `String` function of a plain enum (`ENUM_STRING_HEADER`, `ENUM_STRING_CASE`,
`ENUM_STRING_DEFAULT`, `ENUM_STRING_FOOTER`): the templates have the shape of the encoder
templates, each case returning its literal, and the footer panics with the error
`Invalid value of %type` where the encoders return it. -/
def emittedString (enum_name : Str) (enum_info : EnumInfo) (self : Str) : StringOutcome :=
  let sorted_var_list := sortStrings (mapKeys enum_info.Variants)
  match runGetter (enumConsts enum_name sorted_var_list enum_info) enum_name
      (enumArms enum_name sorted_var_list enum_info) (enumDefaultArm enum_name enum_info)
      self with
  | Outcome.ok v => StringOutcome.ret v
  | Outcome.err msg => StringOutcome.panic msg

/-- Decoding of the `"type"` entry into the constraint type (`json.Unmarshal(t_raw, &t)`,
`t_raw.Unmarshal(&t)`): the emitted decoder of the constraint enum runs on the string the
raw value carries, and `t` is the value of the constant it assigns. -/
def decodeConstraint (backend : Backend) (constr : Str) (constr_info : EnumInfo)
    (t_raw : Raw) : Outcome :=
  match emittedDecoder backend constr constr_info t_raw.Data with
  | Outcome.err t_err => Outcome.err t_err
  | Outcome.ok ident =>
    match constValue
        (enumConsts constr (sortStrings (mapKeys constr_info.Variants)) constr_info) ident with
    | some t => Outcome.ok t
    | none => Outcome.err (String.toList "undefined: " ++ ident)

/-- Schema of the plain enum `ShapeKind`, the constraint of `Shape`, with one variant more
than `Shape` has cases. -/
def shapeKindInfo : EnumInfo :=
  ⟨none, none,
    [(String.toList "Circle", String.toList "Circle"),
     (String.toList "Square", String.toList "Square"),
     (String.toList "None", String.toList "None")]⟩

/-- Constants declared by the block of `ShapeKind`. -/
def shapeKindAllConsts : List (Str × Str) :=
  enumConsts (String.toList "ShapeKind") (sortStrings (mapKeys shapeKindInfo.Variants))
    shapeKindInfo

/-- Scan of a text for the occurrences of `pat`: every occurrence is immediately preceded
by a line feed, `prev` being the character that stands before the text. -/
def guardedFrom (pat : Str) : Option Char → Str → Bool
  | _, [] => true
  | prev, c :: cs =>
    (!(pat.isPrefixOf (c :: cs)) || prev == some '\n') && guardedFrom pat (some c) cs

/-! ## The generators over an arbitrary substitution primitive

The definitions below repeat the generators with a parameter `subst` where the source calls
`replacer`; with `subst := replacer ord` they are the generators themselves, and with
`subst := simultaneousSubst` they are the generators in which every call of `replacer` is
a one-pass simultaneous substitution. -/

/-- Generator `generateHeader` with the substitution primitive `subst` in place of `replacer`. -/
def generateHeaderBy (subst : Str → ReplaceMap → Str) (pkgname : Str)
    (enable_json enable_bson has_assoc : Bool) : Str :=
  let packages : List Str := []
  let packages := if enable_json then packages ++ [String.toList "\"encoding/json\""] else packages
  let packages :=
    if enable_bson then packages ++ [String.toList "\"gopkg.in/mgo.v2/bson\""] else packages
  let packages :=
    if has_assoc && (enable_bson || enable_json) then packages ++ [String.toList "\"bytes\""]
    else packages
  subst HEADER
    [(String.toList "%packages", stringsJoin packages (String.toList "\n")),
     (String.toList "%pkgname", pkgname)]

/-- Generator `generateEnumTypeName` with the substitution primitive `subst` in place of `replacer`. -/
def generateEnumTypeNameBy (subst : Str → ReplaceMap → Str) (name : Str) : Str :=
  subst ENUM_TYPENAME [(String.toList "%type", name)]

/-- Generator `generateEnumValues` with the substitution primitive `subst` in place of `replacer`. -/
def generateEnumValuesBy (subst : Str → ReplaceMap → Str) (etype name value : Str) : Str :=
  subst ENUM_VALUES
    [(String.toList "%name", name), (String.toList "%type", etype),
     (String.toList "%value", value)]

/-- Generator `generateEnumGetPtr` with the substitution primitive `subst` in place of `replacer`. -/
def generateEnumGetPtrBy (subst : Str → ReplaceMap → Str) (name : Str) : Str :=
  subst ENUM_GETPTR [(String.toList "%type", name)]

/-- Generator `generateEnumFunction` with the substitution primitive `subst` in place of `replacer`. -/
def generateEnumFunctionBy (subst : Str → ReplaceMap → Str) (name : Str) (values : List Str)
    (enum_info : EnumInfo) (templates : TemplateMap) : Str :=
  let code : Str := []
  let code := code ++ subst (mapGet templates (String.toList "header"))
    [(String.toList "%type", name)]
  let code := values.foldl (fun code var_name =>
    let value := mapGet enum_info.Variants var_name
    code ++ subst (mapGet templates (String.toList "case"))
      [(String.toList "%name", var_name), (String.toList "%type", name),
       (String.toList "%value", value)]) code
  let defaultCode : Str :=
    match enum_info.Default with
    | some d =>
      subst (mapGet templates (String.toList "default"))
        [(String.toList "%name", d), (String.toList "%type", name),
         (String.toList "%value", mapGet enum_info.Variants d)]
    | none => []
  code ++ subst (mapGet templates (String.toList "footer"))
    [(String.toList "%type", name), (String.toList "%defaultcode", defaultCode)]

/-- Generator `generateEnumType` with the substitution primitive `subst` in place of `replacer`. -/
def generateEnumTypeBy (subst : Str → ReplaceMap → Str) (enum_name : Str) (enum_info : EnumInfo)
    (enable_json enable_bson : Bool) : Str :=
  let code : Str := []
  let sorted_var_list : List Str :=
    enum_info.Variants.foldl (fun sorted_var_list kv => sorted_var_list ++ [kv.1]) []
  let sorted_var_list := sortStrings sorted_var_list
  let code := code ++ generateEnumTypeNameBy subst enum_name
  let code := sorted_var_list.foldl (fun code var_name =>
    code ++ generateEnumValuesBy subst enum_name var_name (mapGet enum_info.Variants var_name)) code
  let code := code ++ generateEnumGetPtrBy subst enum_name
  let code := code ++
    generateEnumFunctionBy subst enum_name sorted_var_list enum_info stringTemplates
  let code :=
    if enable_json then
      code ++ generateEnumFunctionBy subst enum_name sorted_var_list enum_info marshalTemplates
    else code
  let code :=
    if enable_bson then
      code ++ generateEnumFunctionBy subst enum_name sorted_var_list enum_info getbsonTemplates
    else code
  let code :=
    if enable_json then
      code ++ generateEnumFunctionBy subst enum_name sorted_var_list enum_info unmarshalTemplates
    else code
  let code :=
    if enable_bson then
      code ++ generateEnumFunctionBy subst enum_name sorted_var_list enum_info setbsonTemplates
    else code
  code

/-- Generator `generateAssocEnumTypeName` with the substitution primitive `subst` in place of `replacer`. -/
def generateAssocEnumTypeNameBy (subst : Str → ReplaceMap → Str) (name constr : Str) : Str :=
  subst ASSOC_TYPE [(String.toList "%type", name), (String.toList "%constr", constr)]

/-- Generator `generateAssocEnumFunction` with the substitution primitive `subst` in place of `replacer`. -/
def generateAssocEnumFunctionBy (subst : Str → ReplaceMap → Str) (name : Str) (values : List Str)
    (enum_info : EnumInfo) (templates : TemplateMap) : Option Str :=
  match enum_info.Constraint with
  | none => none
  | some constr =>
    let code : Str := []
    let code := code ++ subst (mapGet templates (String.toList "header"))
      [(String.toList "%type", name), (String.toList "%constr", constr)]
    let code := values.foldl (fun code var_name =>
      let value := mapGet enum_info.Variants var_name
      if value = String.toList "null" then
        code ++ subst (mapGet templates (String.toList "case_null"))
          [(String.toList "%name", var_name), (String.toList "%type", name),
           (String.toList "%value", value), (String.toList "%constr", constr)]
      else
        code ++ subst (mapGet templates (String.toList "case"))
          [(String.toList "%name", var_name), (String.toList "%type", name),
           (String.toList "%value", value), (String.toList "%constr", constr)]) code
    some (code ++ subst (mapGet templates (String.toList "footer"))
      [(String.toList "%type", name)])

/-- Generator `generateAssocEnumType` with the substitution primitive `subst` in place of `replacer`. -/
def generateAssocEnumTypeBy (subst : Str → ReplaceMap → Str) (enum_name : Str)
    (enum_info : EnumInfo) (enable_json enable_bson : Bool) : Option Str :=
  let sorted_var_list : List Str :=
    enum_info.Variants.foldl (fun sorted_var_list kv => sorted_var_list ++ [kv.1]) []
  let sorted_var_list := sortStrings sorted_var_list
  let code : Str := []
  match enum_info.Constraint with
  | none => none
  | some constr =>
    let code := code ++ generateAssocEnumTypeNameBy subst enum_name constr
    let code : Option Str :=
      if enable_json then
        (generateAssocEnumFunctionBy subst enum_name sorted_var_list enum_info
          assocUnmarshalTemplates).map (fun f => code ++ f)
      else some code
    let code : Option Str :=
      if enable_bson then
        code.bind (fun code =>
          (generateAssocEnumFunctionBy subst enum_name sorted_var_list enum_info
            assocSetbsonTemplates).map (fun f => code ++ f))
      else code
    code

/-- Generator `generateEnumCode` with the substitution primitive `subst` in place of `replacer`. -/
def generateEnumCodeBy (subst : Str → ReplaceMap → Str) (m : EnumTypeMap) (pkg : Str)
    (enable_json enable_bson : Bool) : Option Str :=
  let code : Str := []
  let scan : List Str × Bool :=
    m.foldl (fun acc kv =>
      (acc.1 ++ [kv.1], if kv.2.Constraint ≠ none then true else acc.2)) ([], false)
  let has_assoc := scan.2
  let sorted_list := sortStrings scan.1
  let code := code ++ generateHeaderBy subst pkg enable_json enable_bson has_assoc
  sorted_list.foldl (fun code enum_name =>
    code.bind (fun code =>
      if (enumGet m enum_name).Constraint = none then
        some (code ++ generateEnumTypeBy subst enum_name (enumGet m enum_name)
          enable_json enable_bson)
      else
        (generateAssocEnumTypeBy subst enum_name (enumGet m enum_name)
          enable_json enable_bson).map (fun b => code ++ b))) (some code)

/-- A character put in front of the pieces of a template: it joins a leading literal. -/
def consLit (c : Char) : List Seg → List Seg
  | [] => [Seg.lit [c]]
  | Seg.lit s :: rest => Seg.lit (c :: s) :: rest
  | Seg.tok k :: rest => Seg.lit [c] :: Seg.tok k :: rest

/-- Pieces of a template for a list of tokens: at each position the first token that
starts there, and maximal runs of literal text in between.  The first argument counts the
characters of a token that are still to be skipped. -/
def parseSegs (keys : List Str) : Nat → Str → List Seg
  | _, [] => []
  | k + 1, _ :: cs => parseSegs keys k cs
  | 0, c :: cs =>
    match keys.find? (fun key => decide (key ≠ []) && key.isPrefixOf (c :: cs)) with
    | some key => Seg.tok key :: parseSegs keys (key.length - 1) cs
    | none => consLit c (parseSegs keys 0 cs)

/-- Tokens of a replacement map are well formed: distinct, each a `%` followed by text
without `%`, none a prefix of another. -/
def KeysOk (keys : List Str) : Prop :=
  keys.Nodup ∧ (∀ k ∈ keys, k.head? = some '%' ∧ '%' ∉ k.tail) ∧
  (∀ k₁ ∈ keys, ∀ k₂ ∈ keys, k₁ <+: k₂ → k₁ = k₂)

instance KeysOk.decidable (keys : List Str) : Decidable (KeysOk keys) := by
  unfold KeysOk
  infer_instance

/-- A piece fits a list of tokens: literal text has no `%`, a token is in the list. -/
def SegOkKeys (keys : List Str) : Seg → Prop
  | Seg.lit s => '%' ∉ s
  | Seg.tok k => k ∈ keys

instance SegOkKeys.decidable (keys : List Str) (seg : Seg) : Decidable (SegOkKeys keys seg) := by
  cases seg <;> unfold SegOkKeys <;> infer_instance

/-- A template fits a list of tokens: the tokens are well formed, the template is spelled
by its pieces, and every `%` of the template starts one of the tokens. -/
def TemplateOk (keys : List Str) (template : Str) : Prop :=
  KeysOk keys ∧ render (parseSegs keys 0 template) = template ∧
  ∀ seg ∈ parseSegs keys 0 template, SegOkKeys keys seg

instance TemplateOk.decidable (keys : List Str) (template : Str) :
    Decidable (TemplateOk keys template) := by
  unfold TemplateOk
  infer_instance

/-- A property holds of the literal text of a piece. -/
def LitOk (P : Str → Prop) : Seg → Prop
  | Seg.lit s => P s
  | Seg.tok _ => True

instance LitOk.decidable (P : Str → Prop) [DecidablePred P] (seg : Seg) :
    Decidable (LitOk P seg) := by
  cases seg <;> unfold LitOk <;> infer_instance

/-- A property holds of every run of literal text of a template. -/
def TemplateLits (P : Str → Prop) (keys : List Str) (template : Str) : Prop :=
  ∀ seg ∈ parseSegs keys 0 template, LitOk P seg

instance TemplateLits.decidable (P : Str → Prop) [DecidablePred P] (keys : List Str)
    (template : Str) : Decidable (TemplateLits P keys template) := by
  unfold TemplateLits
  infer_instance

/-- A property of texts that holds of the empty text and is kept by concatenation. -/
def Closed (P : Str → Prop) : Prop := P [] ∧ ∀ a b, P a → P b → P (a ++ b)

/-- Substitution of a template by its pieces: every token of the map that occurs in the
template is replaced by its value, nothing else changes. -/
def cleanSubst (template : Str) (replaces : ReplaceMap) : Str :=
  instantiate replaces (parseSegs (mapKeys replaces) 0 template)

/-- A call of the substitution primitive is clean: the template fits the tokens of the map
and no value contains `%`. -/
def CallOk (template : Str) (replaces : ReplaceMap) : Prop :=
  TemplateOk (mapKeys replaces) template ∧ ∀ e ∈ replaces, '%' ∉ e.2

/-- A substitution primitive that performs the substitution of every clean call. -/
def Good (subst : Str → ReplaceMap → Str) : Prop :=
  ∀ template replaces, CallOk template replaces →
    subst template replaces = cleanSubst template replaces

/-- Tokens of the calls that pass `%type` only. -/
def keysType : List Str := [String.toList "%type"]

/-- Tokens of the call of `generateHeader`. -/
def keysHeader : List Str := [String.toList "%packages", String.toList "%pkgname"]

/-- Tokens of the calls for a constant, a case or a default block of a plain enum. -/
def keysCase : List Str :=
  [String.toList "%name", String.toList "%type", String.toList "%value"]

/-- Tokens of the call for the footer of a function of a plain enum. -/
def keysFooter : List Str := [String.toList "%type", String.toList "%defaultcode"]

/-- Tokens of the calls for the type and the decoder header of a tagged union. -/
def keysAssoc : List Str := [String.toList "%type", String.toList "%constr"]

/-- Tokens of the calls for a case of a tagged union. -/
def keysAssocCase : List Str :=
  [String.toList "%name", String.toList "%type", String.toList "%value",
   String.toList "%constr"]

/-- The four templates of a function of a plain enum fit the tokens passed to them. -/
def PlainOk (templates : TemplateMap) : Prop :=
  TemplateOk keysType (mapGet templates (String.toList "header")) ∧
  TemplateOk keysCase (mapGet templates (String.toList "case")) ∧
  TemplateOk keysCase (mapGet templates (String.toList "default")) ∧
  TemplateOk keysFooter (mapGet templates (String.toList "footer"))

instance PlainOk.decidable (templates : TemplateMap) : Decidable (PlainOk templates) := by
  unfold PlainOk
  infer_instance

/-- A property holds of the literal text of the four templates of a plain-enum function. -/
def PlainLits (P : Str → Prop) (templates : TemplateMap) : Prop :=
  TemplateLits P keysType (mapGet templates (String.toList "header")) ∧
  TemplateLits P keysCase (mapGet templates (String.toList "case")) ∧
  TemplateLits P keysCase (mapGet templates (String.toList "default")) ∧
  TemplateLits P keysFooter (mapGet templates (String.toList "footer"))

instance PlainLits.decidable (P : Str → Prop) [DecidablePred P] (templates : TemplateMap) :
    Decidable (PlainLits P templates) := by
  unfold PlainLits
  infer_instance

/-- The four templates of a decoder of a tagged union fit the tokens passed to them. -/
def AssocOk (templates : TemplateMap) : Prop :=
  TemplateOk keysAssoc (mapGet templates (String.toList "header")) ∧
  TemplateOk keysAssocCase (mapGet templates (String.toList "case_null")) ∧
  TemplateOk keysAssocCase (mapGet templates (String.toList "case")) ∧
  TemplateOk keysType (mapGet templates (String.toList "footer"))

instance AssocOk.decidable (templates : TemplateMap) : Decidable (AssocOk templates) := by
  unfold AssocOk
  infer_instance

/-- A property holds of the literal text of the four templates of a tagged-union decoder. -/
def AssocLits (P : Str → Prop) (templates : TemplateMap) : Prop :=
  TemplateLits P keysAssoc (mapGet templates (String.toList "header")) ∧
  TemplateLits P keysAssocCase (mapGet templates (String.toList "case_null")) ∧
  TemplateLits P keysAssocCase (mapGet templates (String.toList "case")) ∧
  TemplateLits P keysType (mapGet templates (String.toList "footer"))

instance AssocLits.decidable (P : Str → Prop) [DecidablePred P] (templates : TemplateMap) :
    Decidable (AssocLits P templates) := by
  unfold AssocLits
  infer_instance

/-- A property holds of every string of an enum definition: variant names and literals,
constraint and default. -/
def InfoOk (P : Str → Prop) (enum_info : EnumInfo) : Prop :=
  (∀ e ∈ enum_info.Variants, P e.1 ∧ P e.2) ∧
  (∀ c, enum_info.Constraint = some c → P c) ∧
  (∀ d, enum_info.Default = some d → P d)

instance optionForall.decidable (P : Str → Prop) [DecidablePred P] (o : Option Str) :
    Decidable (∀ c, o = some c → P c) :=
  match o with
  | none => isTrue (fun _ h => Option.noConfusion h)
  | some c =>
    if hp : P c then isTrue (fun _ h => (Option.some.inj h) ▸ hp)
    else isFalse (fun h => hp (h c rfl))

instance InfoOk.decidable (P : Str → Prop) [DecidablePred P] (enum_info : EnumInfo) :
    Decidable (InfoOk P enum_info) := by
  unfold InfoOk
  infer_instance

/-- A property holds of every string of a schema: enum names and the strings of their
definitions. -/
def SchemaOk (P : Str → Prop) (m : EnumTypeMap) : Prop :=
  ∀ e ∈ m, P e.1 ∧ InfoOk P e.2

/-- A property holds of the literal text of every template of the block of a plain
enum. -/
def PlainBlockLits (P : Str → Prop) : Prop :=
  TemplateLits P keysType ENUM_TYPENAME ∧ TemplateLits P keysCase ENUM_VALUES ∧
  TemplateLits P keysType ENUM_GETPTR ∧ PlainLits P stringTemplates ∧
  PlainLits P marshalTemplates ∧ PlainLits P getbsonTemplates ∧
  PlainLits P unmarshalTemplates ∧ PlainLits P setbsonTemplates

instance PlainBlockLits.decidable (P : Str → Prop) [DecidablePred P] :
    Decidable (PlainBlockLits P) := by
  unfold PlainBlockLits
  infer_instance

/-- A property holds of the literal text of every template of the block of a tagged
union. -/
def AssocBlockLits (P : Str → Prop) : Prop :=
  TemplateLits P keysAssoc ASSOC_TYPE ∧ AssocLits P assocUnmarshalTemplates ∧
  AssocLits P assocSetbsonTemplates

instance AssocBlockLits.decidable (P : Str → Prop) [DecidablePred P] :
    Decidable (AssocBlockLits P) := by
  unfold AssocBlockLits
  infer_instance

/-- A property holds of the literal text of the header template and of the import lines
that `generateHeader` joins. -/
def HeaderLits (P : Str → Prop) : Prop :=
  TemplateLits P keysHeader HEADER ∧ P (String.toList "\"encoding/json\"") ∧
  P (String.toList "\"gopkg.in/mgo.v2/bson\"") ∧ P (String.toList "\"bytes\"") ∧
  P (String.toList "\n")

instance HeaderLits.decidable (P : Str → Prop) [DecidablePred P] :
    Decidable (HeaderLits P) := by
  unfold HeaderLits
  infer_instance

instance SchemaOk.decidable (P : Str → Prop) [DecidablePred P] (m : EnumTypeMap) :
    Decidable (SchemaOk P m) := by
  unfold SchemaOk
  infer_instance

/-- The text has no `%`. -/
def NoPercent (t : Str) : Prop := '%' ∉ t

instance NoPercent.decidable : DecidablePred NoPercent := fun t =>
  inferInstanceAs (Decidable ('%' ∉ t))

/-- Text that `generateAssocEnumFunction` returns when the constraint is `constr`: the
header, one case per variant from the null or the payload template, and the footer. -/
def assocFunctionText (subst : Str → ReplaceMap → Str) (name : Str) (values : List Str)
    (enum_info : EnumInfo) (constr : Str) (templates : TemplateMap) : Str :=
  subst (mapGet templates (String.toList "header"))
      [(String.toList "%type", name), (String.toList "%constr", constr)] ++
    (values.map (fun var_name =>
      subst
        (mapGet templates
          (if mapGet enum_info.Variants var_name = String.toList "null"
            then String.toList "case_null" else String.toList "case"))
        [(String.toList "%name", var_name), (String.toList "%type", name),
         (String.toList "%value", mapGet enum_info.Variants var_name),
         (String.toList "%constr", constr)])).flatten ++
    subst (mapGet templates (String.toList "footer")) [(String.toList "%type", name)]

/-- The text does not contain the text `bytes`. -/
def NoBytes (t : Str) : Prop := ¬ String.toList "bytes" <:+: t

instance NoBytes.decidable : DecidablePred NoBytes := fun t =>
  inferInstanceAs (Decidable (¬ String.toList "bytes" <:+: t))

/-- Text of a call of the byte comparison. -/
def callText : Str := String.toList "bytes.Equal("

/-- The text contains no call of the byte comparison. -/
def NoCall (t : Str) : Prop := ¬ callText <:+: t

instance NoCall.decidable : DecidablePred NoCall := fun t =>
  inferInstanceAs (Decidable (¬ callText <:+: t))

/-- A text that holds no call and cannot complete a call begun before it: its first
character is none of the characters that continue `bytes.Equal(`. -/
def Fenced (t : Str) : Prop := NoCall t ∧ t.head? ∉ callText.tail.map some

instance Fenced.decidable : DecidablePred Fenced := fun t => by
  unfold Fenced
  infer_instance

/-- A non-empty fenced text that cannot begin a call completed after it either: its last
character is none of the characters of `bytes.Equal`. -/
def Barrier (t : Str) : Prop :=
  t ≠ [] ∧ Fenced t ∧ t.getLast? ∉ callText.dropLast.map some

instance Barrier.decidable : DecidablePred Barrier := fun t => by
  unfold Barrier
  infer_instance

/-- Check of the pieces that follow a literal of a template: every run of consecutive
tokens (`pend` is the run read so far) is one of `allowed` and is followed by a literal,
which is a barrier, or fenced when it ends the template. -/
def sealedFrom (allowed : List (List Str)) : List Str → List Seg → Bool
  | pend, [] => decide (pend = [])
  | pend, Seg.lit l :: rest =>
    decide (pend ∈ allowed) &&
      (if rest.isEmpty then decide (Fenced l) else decide (Barrier l)) &&
      sealedFrom allowed [] rest
  | pend, Seg.tok k :: rest => sealedFrom allowed (pend ++ [k]) rest

/-- A template starts with a barrier literal, ends with a literal, and between two
literals stands one of the runs of tokens `allowed`. -/
def Sealed (allowed : List (List Str)) (keys : List Str) (template : Str) : Prop :=
  (match parseSegs keys 0 template with
   | Seg.lit l :: rest => decide (Barrier l) && sealedFrom allowed [] rest
   | _ => false) = true

instance Sealed.decidable (allowed : List (List Str)) (keys : List Str) (template : Str) :
    Decidable (Sealed allowed keys template) := by
  unfold Sealed
  infer_instance

/-- Runs of tokens in the templates that are passed `%type` only. -/
def runsType : List (List Str) := [[], [String.toList "%type"]]

/-- Runs of tokens in the templates of a constant, a case or a default block of a plain
enum: `%type%name` is the only place where two tokens stand side by side. -/
def runsCase : List (List Str) :=
  [[], [String.toList "%type"], [String.toList "%type", String.toList "%name"],
   [String.toList "%value"]]

/-- Runs of tokens in the footer templates of a plain enum. -/
def runsFooter : List (List Str) :=
  [[], [String.toList "%type"], [String.toList "%defaultcode"]]

/-- Runs of tokens in the type declaration of a tagged union. -/
def runsAssoc : List (List Str) := [[], [String.toList "%type"], [String.toList "%constr"]]

/-- The four templates of a function of a plain enum are sealed. -/
def PlainSealed (templates : TemplateMap) : Prop :=
  Sealed runsType keysType (mapGet templates (String.toList "header")) ∧
  Sealed runsCase keysCase (mapGet templates (String.toList "case")) ∧
  Sealed runsCase keysCase (mapGet templates (String.toList "default")) ∧
  Sealed runsFooter keysFooter (mapGet templates (String.toList "footer"))

instance PlainSealed.decidable (templates : TemplateMap) : Decidable (PlainSealed templates) := by
  unfold PlainSealed
  infer_instance

/-- Every template of the block of a plain enum is sealed. -/
def PlainBlockSealed : Prop :=
  Sealed runsType keysType ENUM_TYPENAME ∧ Sealed runsCase keysCase ENUM_VALUES ∧
  Sealed runsType keysType ENUM_GETPTR ∧ PlainSealed stringTemplates ∧
  PlainSealed marshalTemplates ∧ PlainSealed getbsonTemplates ∧
  PlainSealed unmarshalTemplates ∧ PlainSealed setbsonTemplates

instance PlainBlockSealed.decidable : Decidable PlainBlockSealed := by
  unfold PlainBlockSealed
  infer_instance

/-- Seam condition of an enum: its name directly followed by one of its variant names, or
by the name it declares as default, does not spell a call `bytes.Equal(`.  These are the
texts that the templates write as `%type%name`. -/
def SeamOk (enum_name : Str) (enum_info : EnumInfo) : Prop :=
  (∀ e ∈ enum_info.Variants, NoCall (enum_name ++ e.1)) ∧
  (∀ d, enum_info.Default = some d → NoCall (enum_name ++ d))

instance SeamOk.decidable (enum_name : Str) (enum_info : EnumInfo) :
    Decidable (SeamOk enum_name enum_info) := by
  unfold SeamOk
  infer_instance

/-- Seam condition of every enum of a schema. -/
def SchemaSeamOk (m : EnumTypeMap) : Prop := ∀ e ∈ m, SeamOk e.1 e.2

instance SchemaSeamOk.decidable (m : EnumTypeMap) : Decidable (SchemaSeamOk m) := by
  unfold SchemaSeamOk
  infer_instance

/-- Scan of a text for an occurrence of `pat`. -/
def occurs (pat : Str) : Str → Bool
  | [] => pat.isPrefixOf []
  | c :: cs => pat.isPrefixOf (c :: cs) || occurs pat cs

/-- The literal text of a piece contains `pat`. -/
def LitHas (pat : Str) : Seg → Prop
  | Seg.lit s => pat <:+: s
  | Seg.tok _ => False

instance LitHas.decidable (pat : Str) (seg : Seg) : Decidable (LitHas pat seg) := by
  cases seg <;> unfold LitHas <;> infer_instance

/-- Schema with the tagged union `Shape` and a plain enum whose literal holds a `.`. -/
def versionSchema : EnumTypeMap :=
  [(String.toList "Shape", shapeInfo),
   (String.toList "Version", ⟨none, none, [(String.toList "V1", String.toList "v1.0")]⟩)]

/-- Schema whose enum name and variant name spell `bytes.Equal(` when concatenated. -/
def spellSchema : EnumTypeMap :=
  [(String.toList "by", ⟨none, none, [(String.toList "tes.Equal(", String.toList "x")]⟩)]

/-! ## Strings, maps and sorting -/

theorem strLess_irrefl (a : Str) : strLess a a = false := by
  induction a with
  | nil => rfl
  | cons c cs ih => simp [strLess, ih]

theorem strLess_asymm : ∀ a b : Str, strLess a b = true → strLess b a = false
  | [], [] => by simp [strLess]
  | [], _ :: _ => by simp [strLess]
  | _ :: _, [] => by simp [strLess]
  | a :: as, b :: bs => by
    intro h
    simp only [strLess] at h ⊢
    by_cases h1 : a.toNat < b.toNat
    · have h2 : ¬ b.toNat < a.toNat := by omega
      simp [h2, h1]
    · by_cases h2 : b.toNat < a.toNat
      · simp [h1, h2] at h
      · simp only [h1, h2, if_false] at h ⊢
        exact strLess_asymm as bs h

theorem strLess_trichotomy : ∀ a b : Str, strLess a b = false → strLess b a = false → a = b
  | [], [] => by simp
  | [], _ :: _ => by simp [strLess]
  | _ :: _, [] => by simp [strLess]
  | a :: as, b :: bs => by
    intro h h'
    simp only [strLess] at h h'
    by_cases h1 : a.toNat < b.toNat
    · simp [h1] at h
    · by_cases h2 : b.toNat < a.toNat
      · simp [h2] at h'
      · simp only [h1, h2, if_false] at h h'
        have hab : a = b :=
          Char.ext (UInt32.ext (Nat.le_antisymm (Nat.le_of_not_lt h2) (Nat.le_of_not_lt h1)))
        rw [hab, strLess_trichotomy as bs h h']

theorem strLess_trans : ∀ a b c : Str, strLess a b = true → strLess b c = true →
    strLess a c = true
  | [], [], _ => by simp [strLess]
  | [], _ :: _, [] => by simp [strLess]
  | [], _ :: _, _ :: _ => by simp [strLess]
  | _ :: _, [], _ => by simp [strLess]
  | _ :: _, _ :: _, [] => by simp [strLess]
  | a :: as, b :: bs, c :: cs => by
    intro h h'
    simp only [strLess] at h h' ⊢
    by_cases h1 : a.toNat < b.toNat
    · by_cases h2 : b.toNat < c.toNat
      · have : a.toNat < c.toNat := by omega
        simp [this]
      · by_cases h3 : c.toNat < b.toNat
        · simp [h2, h3] at h'
        · have : a.toNat < c.toNat := by omega
          simp [this]
    · by_cases h1' : b.toNat < a.toNat
      · simp [h1, h1'] at h
      · simp only [h1, h1', if_false] at h
        by_cases h2 : b.toNat < c.toNat
        · have : a.toNat < c.toNat := by omega
          simp [this]
        · by_cases h3 : c.toNat < b.toNat
          · simp [h2, h3] at h'
          · simp only [h2, h3, if_false] at h'
            have e1 : ¬ a.toNat < c.toNat := by omega
            have e2 : ¬ c.toNat < a.toNat := by omega
            simp only [e1, e2, if_false]
            exact strLess_trans as bs cs h h'

theorem strLe_total (a b : Str) : strLe a b ∨ strLe b a := by
  unfold strLe
  cases h : strLess b a with
  | false => exact Or.inl rfl
  | true => exact Or.inr (strLess_asymm b a h)

theorem strLe_trans (a b c : Str) (h1 : strLe a b) (h2 : strLe b c) : strLe a c := by
  unfold strLe at *
  cases h : strLess c a with
  | false => rfl
  | true =>
    cases hab : strLess a b with
    | true =>
      have := strLess_trans c a b h hab
      rw [h2] at this
      exact absurd this (by simp)
    | false =>
      have e : b = a := strLess_trichotomy b a h1 hab
      subst e
      rw [h2] at h
      exact absurd h (by simp)

theorem strLe_antisymm (a b : Str) (h1 : strLe a b) (h2 : strLe b a) : a = b :=
  strLess_trichotomy a b h2 h1

instance strLe.isTotal : IsTotal Str strLe := ⟨strLe_total⟩

instance strLe.isTrans : IsTrans Str strLe := ⟨strLe_trans⟩

instance strLe.isAntisymm : IsAntisymm Str strLe := ⟨strLe_antisymm⟩

theorem sortStrings_perm (l : List Str) : (sortStrings l).Perm l :=
  List.perm_insertionSort strLe l

theorem sortStrings_sorted (l : List Str) : (sortStrings l).Sorted strLe :=
  List.sorted_insertionSort strLe l

theorem sortStrings_eq_of_perm {l₁ l₂ : List Str} (h : l₁.Perm l₂) :
    sortStrings l₁ = sortStrings l₂ :=
  List.eq_of_perm_of_sorted
    ((sortStrings_perm l₁).trans (h.trans (sortStrings_perm l₂).symm))
    (sortStrings_sorted l₁) (sortStrings_sorted l₂)

theorem sortStrings_strict (l : List Str) (h : l.Nodup) :
    (sortStrings l).Pairwise (fun a b => strLess a b = true) := by
  have hs : (sortStrings l).Pairwise strLe := sortStrings_sorted l
  have hn : (sortStrings l).Nodup := (sortStrings_perm l).nodup_iff.mpr h
  have hboth := hs.and hn
  refine hboth.imp ?_
  intro a b hab
  cases hlt : strLess a b with
  | true => rfl
  | false => exact absurd (strLess_trichotomy a b hlt hab.1) hab.2

theorem foldl_append_eq {α : Type} (f : α → Str) (l : List α) (init : Str) :
    l.foldl (fun code x => code ++ f x) init = init ++ (l.map f).flatten := by
  induction l generalizing init with
  | nil => simp
  | cons x xs ih => simp [ih, List.append_assoc]

theorem foldl_keys_eq {β : Type} (m : List (Str × β)) (init : List Str) :
    m.foldl (fun acc kv => acc ++ [kv.1]) init = init ++ mapKeys m := by
  induction m generalizing init with
  | nil => simp [mapKeys]
  | cons x xs ih => simp [ih, mapKeys, List.append_assoc]

theorem mapGet_of_mem {m : List (Str × Str)} (h : (mapKeys m).Nodup) {k v : Str}
    (hmem : (k, v) ∈ m) : mapGet m k = v := by
  induction m with
  | nil => simp at hmem
  | cons x xs ih =>
    obtain ⟨k', v'⟩ := x
    simp only [mapKeys, List.map_cons, List.nodup_cons] at h
    simp only [mapGet]
    rcases List.mem_cons.mp hmem with heq | hin
    · cases heq
      simp
    · have hne : k' ≠ k := by
        intro e
        subst e
        exact h.1 (List.mem_map_of_mem Prod.fst hin)
      simp only [hne, if_false]
      exact ih h.2 hin

theorem mapGet_of_not_mem {m : List (Str × Str)} {k : Str} (h : k ∉ mapKeys m) :
    mapGet m k = [] := by
  induction m with
  | nil => rfl
  | cons x xs ih =>
    obtain ⟨k', v'⟩ := x
    simp only [mapKeys, List.map_cons, List.mem_cons, not_or] at h
    simp only [mapGet]
    have hne : k' ≠ k := fun e => h.1 e.symm
    simp only [hne, if_false]
    exact ih h.2

theorem mem_of_mem_mapKeys {m : List (Str × Str)} {k : Str} (h : k ∈ mapKeys m) :
    ∃ v, (k, v) ∈ m := by
  simp only [mapKeys, List.mem_map] at h
  obtain ⟨⟨k', v⟩, hin, rfl⟩ := h
  exact ⟨v, hin⟩

theorem mapGet_perm {m₁ m₂ : List (Str × Str)} (hp : m₁.Perm m₂) (h : (mapKeys m₁).Nodup)
    (k : Str) : mapGet m₁ k = mapGet m₂ k := by
  have h2 : (mapKeys m₂).Nodup := (hp.map Prod.fst).nodup_iff.mp h
  by_cases hk : k ∈ mapKeys m₁
  · obtain ⟨v, hv⟩ := mem_of_mem_mapKeys hk
    rw [mapGet_of_mem h hv, mapGet_of_mem h2 (hp.mem_iff.mp hv)]
  · have hk2 : k ∉ mapKeys m₂ := fun hin => hk ((hp.map Prod.fst).mem_iff.mpr hin)
    rw [mapGet_of_not_mem hk, mapGet_of_not_mem hk2]

/-! ## Plain enums: structure of the emitted block -/

theorem generateEnumFunction_congr (ord : ReplaceMap → ReplaceMap) (name : Str)
    (values : List Str) (i₁ i₂ : EnumInfo) (templates : TemplateMap)
    (hv : ∀ k, mapGet i₁.Variants k = mapGet i₂.Variants k) (hd : i₁.Default = i₂.Default) :
    generateEnumFunction ord name values i₁ templates =
      generateEnumFunction ord name values i₂ templates := by
  have hf : mapGet i₁.Variants = mapGet i₂.Variants := funext hv
  unfold generateEnumFunction
  simp only [hf, hd]

theorem generateEnumType_eq (ord : ReplaceMap → ReplaceMap) (enum_name : Str)
    (enum_info : EnumInfo) (enable_json enable_bson : Bool) :
    generateEnumType ord enum_name enum_info enable_json enable_bson =
      generateEnumTypeName ord enum_name ++
      ((sortStrings (mapKeys enum_info.Variants)).map (fun n =>
        generateEnumValues ord enum_name n (mapGet enum_info.Variants n))).flatten ++
      generateEnumGetPtr ord enum_name ++
      generateEnumFunction ord enum_name (sortStrings (mapKeys enum_info.Variants)) enum_info
        stringTemplates ++
      (if enable_json then
        generateEnumFunction ord enum_name (sortStrings (mapKeys enum_info.Variants)) enum_info
          marshalTemplates else []) ++
      (if enable_bson then
        generateEnumFunction ord enum_name (sortStrings (mapKeys enum_info.Variants)) enum_info
          getbsonTemplates else []) ++
      (if enable_json then
        generateEnumFunction ord enum_name (sortStrings (mapKeys enum_info.Variants)) enum_info
          unmarshalTemplates else []) ++
      (if enable_bson then
        generateEnumFunction ord enum_name (sortStrings (mapKeys enum_info.Variants)) enum_info
          setbsonTemplates else []) := by
  unfold generateEnumType
  simp only [foldl_keys_eq, foldl_append_eq, List.nil_append]
  cases enable_json <;> cases enable_bson <;> simp [List.append_assoc]

theorem generateEnumType_perm (ord : ReplaceMap → ReplaceMap) (enum_name : Str)
    (i₁ i₂ : EnumInfo) (enable_json enable_bson : Bool)
    (hp : i₁.Variants.Perm i₂.Variants) (hn : (mapKeys i₁.Variants).Nodup)
    (hd : i₁.Default = i₂.Default) :
    generateEnumType ord enum_name i₁ enable_json enable_bson =
      generateEnumType ord enum_name i₂ enable_json enable_bson := by
  have hv : ∀ k, mapGet i₁.Variants k = mapGet i₂.Variants k := mapGet_perm hp hn
  have hf : mapGet i₁.Variants = mapGet i₂.Variants := funext hv
  have hs : sortStrings (mapKeys i₁.Variants) = sortStrings (mapKeys i₂.Variants) :=
    sortStrings_eq_of_perm (hp.map Prod.fst)
  rw [generateEnumType_eq, generateEnumType_eq, hs, hf]
  simp only [generateEnumFunction_congr ord enum_name _ i₁ i₂ _ hv hd]

/-- C5: `generateEnumType` emits, between the type declaration and the `GetPtr` accessor,
exactly the constant declarations `generateEnumValues(enum, n, Variants[n])` for the
variant names `n` in strictly ascending order, each variant once, and the emitted text is
the same for every order in which the variant map is iterated. -/
theorem generateEnumType_constants (ord : ReplaceMap → ReplaceMap) (enum_name : Str)
    (enum_info : EnumInfo) (enable_json enable_bson : Bool)
    (hn : (mapKeys enum_info.Variants).Nodup) :
    ∃ names : List Str,
      names.Perm (mapKeys enum_info.Variants) ∧
      names.Pairwise (fun a b => strLess a b = true) ∧
      (∃ fns : Str,
        generateEnumType ord enum_name enum_info enable_json enable_bson =
          generateEnumTypeName ord enum_name ++
          (names.map (fun n =>
            generateEnumValues ord enum_name n (mapGet enum_info.Variants n))).flatten ++
          generateEnumGetPtr ord enum_name ++ fns) ∧
      ∀ variants : EnumVariantMap, variants.Perm enum_info.Variants →
        generateEnumType ord enum_name ⟨enum_info.Constraint, enum_info.Default, variants⟩
            enable_json enable_bson =
          generateEnumType ord enum_name enum_info enable_json enable_bson := by
  refine ⟨sortStrings (mapKeys enum_info.Variants), sortStrings_perm _,
    sortStrings_strict _ hn, ?_, ?_⟩
  · refine ⟨generateEnumFunction ord enum_name (sortStrings (mapKeys enum_info.Variants))
        enum_info stringTemplates ++
      (if enable_json then
        generateEnumFunction ord enum_name (sortStrings (mapKeys enum_info.Variants)) enum_info
          marshalTemplates else []) ++
      (if enable_bson then
        generateEnumFunction ord enum_name (sortStrings (mapKeys enum_info.Variants)) enum_info
          getbsonTemplates else []) ++
      (if enable_json then
        generateEnumFunction ord enum_name (sortStrings (mapKeys enum_info.Variants)) enum_info
          unmarshalTemplates else []) ++
      (if enable_bson then
        generateEnumFunction ord enum_name (sortStrings (mapKeys enum_info.Variants)) enum_info
          setbsonTemplates else []), ?_⟩
    rw [generateEnumType_eq]
    simp only [List.append_assoc]
  · intro variants hp
    have hn' : (mapKeys variants).Nodup := (hp.map Prod.fst).nodup_iff.mpr hn
    exact generateEnumType_perm ord enum_name _ _ enable_json enable_bson hp hn' rfl

/-- Witness of C5 on the enum `Color`. -/
theorem generateEnumType_constants_witness :
    (mapKeys colorInfo.Variants).Nodup ∧
    ∃ names : List Str,
      names.Perm (mapKeys colorInfo.Variants) ∧
      names.Pairwise (fun a b => strLess a b = true) ∧
      (∃ fns : Str,
        generateEnumType ordId (String.toList "Color") colorInfo true false =
          generateEnumTypeName ordId (String.toList "Color") ++
          (names.map (fun n =>
            generateEnumValues ordId (String.toList "Color") n
              (mapGet colorInfo.Variants n))).flatten ++
          generateEnumGetPtr ordId (String.toList "Color") ++ fns) ∧
      ∀ variants : EnumVariantMap, variants.Perm colorInfo.Variants →
        generateEnumType ordId (String.toList "Color")
            ⟨colorInfo.Constraint, colorInfo.Default, variants⟩ true false =
          generateEnumType ordId (String.toList "Color") colorInfo true false :=
  ⟨by decide, generateEnumType_constants ordId (String.toList "Color") colorInfo true false
    (by decide)⟩

/-- C8 (as amended): with both backends enabled `generateEnumType` emits, in this order,
the type declaration, the constants, the `GetPtr` accessor, the `String` function, the two
encoders `MarshalJSON` and `GetBSON`, and then the two decoders `UnmarshalJSON` and
`SetBSON`. -/
theorem generateEnumType_emission_order (ord : ReplaceMap → ReplaceMap) (enum_name : Str)
    (enum_info : EnumInfo) :
    generateEnumType ord enum_name enum_info true true =
      generateEnumTypeName ord enum_name ++
      ((sortStrings (mapKeys enum_info.Variants)).map (fun n =>
        generateEnumValues ord enum_name n (mapGet enum_info.Variants n))).flatten ++
      generateEnumGetPtr ord enum_name ++
      generateEnumFunction ord enum_name (sortStrings (mapKeys enum_info.Variants)) enum_info
        stringTemplates ++
      generateEnumFunction ord enum_name (sortStrings (mapKeys enum_info.Variants)) enum_info
        marshalTemplates ++
      generateEnumFunction ord enum_name (sortStrings (mapKeys enum_info.Variants)) enum_info
        getbsonTemplates ++
      generateEnumFunction ord enum_name (sortStrings (mapKeys enum_info.Variants)) enum_info
        unmarshalTemplates ++
      generateEnumFunction ord enum_name (sortStrings (mapKeys enum_info.Variants)) enum_info
        setbsonTemplates := by
  rw [generateEnumType_eq]
  simp

set_option maxRecDepth 1000000 in
/-- C8 (as stated) fails on the enum `Color`: the block emitted with both backends is not
the concatenation in which the structured pair `MarshalJSON`, `UnmarshalJSON` precedes the
document-store pair `GetBSON`, `SetBSON`. -/
theorem generateEnumType_pairs_order_counterexample :
    generateEnumType ordId (String.toList "Color") colorInfo true true ≠
      generateEnumTypeName ordId (String.toList "Color") ++
      ((sortStrings (mapKeys colorInfo.Variants)).map (fun n =>
        generateEnumValues ordId (String.toList "Color") n
          (mapGet colorInfo.Variants n))).flatten ++
      generateEnumGetPtr ordId (String.toList "Color") ++
      generateEnumFunction ordId (String.toList "Color")
        (sortStrings (mapKeys colorInfo.Variants)) colorInfo stringTemplates ++
      generateEnumFunction ordId (String.toList "Color")
        (sortStrings (mapKeys colorInfo.Variants)) colorInfo marshalTemplates ++
      generateEnumFunction ordId (String.toList "Color")
        (sortStrings (mapKeys colorInfo.Variants)) colorInfo unmarshalTemplates ++
      generateEnumFunction ordId (String.toList "Color")
        (sortStrings (mapKeys colorInfo.Variants)) colorInfo getbsonTemplates ++
      generateEnumFunction ordId (String.toList "Color")
        (sortStrings (mapKeys colorInfo.Variants)) colorInfo setbsonTemplates := by
  decide

/-! ## Tagged unions and the orchestrator: structure of the output -/

theorem generateAssocEnumFunction_eq (ord : ReplaceMap → ReplaceMap) (name : Str)
    (values : List Str) (enum_info : EnumInfo) (templates : TemplateMap) (constr : Str)
    (hc : enum_info.Constraint = some constr) :
    generateAssocEnumFunction ord name values enum_info templates =
      some (replacer ord (mapGet templates (String.toList "header"))
          [(String.toList "%type", name), (String.toList "%constr", constr)] ++
        (values.map (fun var_name =>
          replacer ord
            (mapGet templates
              (if mapGet enum_info.Variants var_name = String.toList "null"
                then String.toList "case_null" else String.toList "case"))
            [(String.toList "%name", var_name), (String.toList "%type", name),
             (String.toList "%value", mapGet enum_info.Variants var_name),
             (String.toList "%constr", constr)])).flatten ++
        replacer ord (mapGet templates (String.toList "footer"))
          [(String.toList "%type", name)]) := by
  unfold generateAssocEnumFunction
  rw [hc]
  simp only [List.nil_append]
  have hbody : (fun (code : Str) (var_name : Str) =>
      if mapGet enum_info.Variants var_name = String.toList "null" then
        code ++ replacer ord (mapGet templates (String.toList "case_null"))
          [(String.toList "%name", var_name), (String.toList "%type", name),
           (String.toList "%value", mapGet enum_info.Variants var_name),
           (String.toList "%constr", constr)]
      else
        code ++ replacer ord (mapGet templates (String.toList "case"))
          [(String.toList "%name", var_name), (String.toList "%type", name),
           (String.toList "%value", mapGet enum_info.Variants var_name),
           (String.toList "%constr", constr)]) =
      (fun (code : Str) (var_name : Str) => code ++
        replacer ord
          (mapGet templates
            (if mapGet enum_info.Variants var_name = String.toList "null"
              then String.toList "case_null" else String.toList "case"))
          [(String.toList "%name", var_name), (String.toList "%type", name),
           (String.toList "%value", mapGet enum_info.Variants var_name),
           (String.toList "%constr", constr)]) := by
    funext code var_name
    split <;> rfl
  rw [hbody, foldl_append_eq]

theorem generateAssocEnumType_isSome (ord : ReplaceMap → ReplaceMap) (enum_name : Str)
    (enum_info : EnumInfo) (enable_json enable_bson : Bool) (constr : Str)
    (hc : enum_info.Constraint = some constr) :
    ∃ blk, generateAssocEnumType ord enum_name enum_info enable_json enable_bson = some blk := by
  unfold generateAssocEnumType
  rw [hc]
  simp only [generateAssocEnumFunction_eq ord enum_name _ enum_info _ constr hc]
  cases enable_json <;> cases enable_bson <;> simp

theorem emit_fold (ord : ReplaceMap → ReplaceMap) (m : EnumTypeMap)
    (enable_json enable_bson : Bool) (names : List Str) (blocks : List Str)
    (h : List.Forall₂ (fun n blk =>
      if (enumGet m n).Constraint = none then
        blk = generateEnumType ord n (enumGet m n) enable_json enable_bson
      else generateAssocEnumType ord n (enumGet m n) enable_json enable_bson = some blk)
      names blocks) (code : Str) :
    names.foldl (fun code enum_name =>
      code.bind (fun code =>
        if (enumGet m enum_name).Constraint = none then
          some (code ++ generateEnumType ord enum_name (enumGet m enum_name)
            enable_json enable_bson)
        else
          (generateAssocEnumType ord enum_name (enumGet m enum_name)
            enable_json enable_bson).map (fun b => code ++ b))) (some code) =
      some (code ++ blocks.flatten) := by
  induction h generalizing code with
  | nil => simp
  | @cons n blk ns blks hab _ ih =>
    simp only [List.foldl_cons, Option.some_bind, List.flatten_cons]
    by_cases hc : (enumGet m n).Constraint = none
    · simp only [hc, if_true] at hab ⊢
      rw [ih, hab, List.append_assoc]
    · simp only [hc, if_false] at hab ⊢
      rw [hab]
      simp only [Option.map_some']
      rw [ih, List.append_assoc]

theorem blocks_exist (ord : ReplaceMap → ReplaceMap) (m : EnumTypeMap)
    (enable_json enable_bson : Bool) (names : List Str) :
    ∃ blocks : List Str, List.Forall₂ (fun n blk =>
      if (enumGet m n).Constraint = none then
        blk = generateEnumType ord n (enumGet m n) enable_json enable_bson
      else generateAssocEnumType ord n (enumGet m n) enable_json enable_bson = some blk)
      names blocks := by
  induction names with
  | nil => exact ⟨[], List.Forall₂.nil⟩
  | cons n ns ih =>
    obtain ⟨blks, hblks⟩ := ih
    by_cases hc : (enumGet m n).Constraint = none
    · refine ⟨generateEnumType ord n (enumGet m n) enable_json enable_bson :: blks,
        List.Forall₂.cons ?_ hblks⟩
      simp [hc]
    · obtain ⟨constr, hconstr⟩ := Option.ne_none_iff_exists'.mp hc
      obtain ⟨blk, hblk⟩ :=
        generateAssocEnumType_isSome ord n (enumGet m n) enable_json enable_bson constr hconstr
      refine ⟨blk :: blks, List.Forall₂.cons ?_ hblks⟩
      simp [hc, hblk]

theorem scan_fold_eq (m : EnumTypeMap) (l0 : List Str) (b0 : Bool) :
    m.foldl (fun (acc : List Str × Bool) kv =>
      (acc.1 ++ [kv.1], if kv.2.Constraint ≠ none then true else acc.2)) (l0, b0) =
      (l0 ++ mapKeys m, b0 || m.any (fun kv => decide (kv.2.Constraint ≠ none))) := by
  induction m generalizing l0 b0 with
  | nil => simp [mapKeys]
  | cons x xs ih =>
    simp only [List.foldl_cons, ih, mapKeys, List.map_cons, List.any_cons]
    by_cases hx : x.2.Constraint = none
    · simp [hx]
    · simp [hx]

theorem generateEnumCode_eq (ord : ReplaceMap → ReplaceMap) (m : EnumTypeMap) (pkg : Str)
    (enable_json enable_bson : Bool) (blocks : List Str)
    (h : List.Forall₂ (fun n blk =>
      if (enumGet m n).Constraint = none then
        blk = generateEnumType ord n (enumGet m n) enable_json enable_bson
      else generateAssocEnumType ord n (enumGet m n) enable_json enable_bson = some blk)
      (sortStrings (mapKeys m)) blocks) :
    generateEnumCode ord m pkg enable_json enable_bson =
      some (generateHeader ord pkg enable_json enable_bson
          (m.any (fun kv => decide (kv.2.Constraint ≠ none))) ++ blocks.flatten) := by
  unfold generateEnumCode
  simp only [scan_fold_eq, List.nil_append, Bool.false_or]
  exact emit_fold ord m enable_json enable_bson _ blocks h _

/-- C6: `generateEnumCode` returns the header followed by one block per enum, the blocks
in strictly ascending order of enum name, each enum once, where the block of an enum is
the output of `generateEnumType` when it declares no constraint and the output of
`generateAssocEnumType` when it declares one. -/
theorem generateEnumCode_blocks (ord : ReplaceMap → ReplaceMap) (m : EnumTypeMap) (pkg : Str)
    (enable_json enable_bson : Bool) (hn : (mapKeys m).Nodup) :
    ∃ (names : List Str) (blocks : List Str) (has_assoc : Bool),
      names.Perm (mapKeys m) ∧
      names.Pairwise (fun a b => strLess a b = true) ∧
      List.Forall₂ (fun n blk =>
        if (enumGet m n).Constraint = none then
          blk = generateEnumType ord n (enumGet m n) enable_json enable_bson
        else generateAssocEnumType ord n (enumGet m n) enable_json enable_bson = some blk)
        names blocks ∧
      generateEnumCode ord m pkg enable_json enable_bson =
        some (generateHeader ord pkg enable_json enable_bson has_assoc ++ blocks.flatten) := by
  obtain ⟨blocks, hblocks⟩ :=
    blocks_exist ord m enable_json enable_bson (sortStrings (mapKeys m))
  exact ⟨sortStrings (mapKeys m), blocks, _, sortStrings_perm _, sortStrings_strict _ hn,
    hblocks, generateEnumCode_eq ord m pkg enable_json enable_bson blocks hblocks⟩

/-- Witness of C6 on a schema with a plain enum and a tagged union. -/
theorem generateEnumCode_blocks_witness :
    (mapKeys sampleSchema).Nodup ∧
    ∃ (names : List Str) (blocks : List Str) (has_assoc : Bool),
      names.Perm (mapKeys sampleSchema) ∧
      names.Pairwise (fun a b => strLess a b = true) ∧
      List.Forall₂ (fun n blk =>
        if (enumGet sampleSchema n).Constraint = none then
          blk = generateEnumType ordId n (enumGet sampleSchema n) true true
        else generateAssocEnumType ordId n (enumGet sampleSchema n) true true = some blk)
        names blocks ∧
      generateEnumCode ordId sampleSchema (String.toList "main") true true =
        some (generateHeader ordId (String.toList "main") true true has_assoc ++
          blocks.flatten) :=
  ⟨by decide, generateEnumCode_blocks ordId sampleSchema (String.toList "main") true true
    (by decide)⟩

/-! ## Scanning lemmas for `strings.Replace` -/

theorem replaceScan_skip (old new : Str) (k : Nat) (s : Str) :
    replaceScan old new k s = replaceScan old new 0 (s.drop k) := by
  induction k generalizing s with
  | zero => simp
  | succ k ih =>
    cases s with
    | nil => simp [replaceScan]
    | cons c cs => simp [replaceScan, ih]

theorem replaceScan_cons_of_not_prefix (old new : Str) (c : Char) (cs : Str)
    (h : old.isPrefixOf (c :: cs) = false) :
    replaceScan old new 0 (c :: cs) = c :: replaceScan old new 0 cs := by
  simp [replaceScan, h]

theorem replaceScan_append_of_no_match (old new : Str) (s Y : Str)
    (h : ∀ t : Str, t ≠ [] → t <:+ s → old.isPrefixOf (t ++ Y) = false) :
    replaceScan old new 0 (s ++ Y) = s ++ replaceScan old new 0 Y := by
  induction s with
  | nil => simp
  | cons c cs ih =>
    have h1 : old.isPrefixOf (c :: (cs ++ Y)) = false :=
      h (c :: cs) (by simp) List.suffix_rfl
    rw [List.cons_append, replaceScan_cons_of_not_prefix old new c (cs ++ Y) h1, ih]
    · rfl
    · intro t ht hsuf
      exact h t ht (hsuf.trans (List.suffix_cons c cs))

theorem no_straddle (old s : Str) (y : Char) (Y : Str) (hin : ¬ old <:+: s)
    (hy : y ∉ old) :
    ∀ t : Str, t ≠ [] → t <:+ s → old.isPrefixOf (t ++ y :: Y) = false := by
  intro t _ hsuf
  cases hp : old.isPrefixOf (t ++ y :: Y) with
  | false => rfl
  | true =>
    exfalso
    have hpre : old <+: t ++ y :: Y := List.isPrefixOf_iff_prefix.mp hp
    rcases List.prefix_or_prefix_of_prefix hpre (List.prefix_append t (y :: Y)) with h1 | h1
    · exact hin (h1.isInfix.trans hsuf.isInfix)
    · obtain ⟨r, hr⟩ := h1
      rw [← hr] at hpre
      have hr' : r <+: y :: Y := (List.prefix_append_right_inj t).mp hpre
      cases r with
      | nil =>
        rw [List.append_nil] at hr
        exact hin (hr ▸ hsuf.isInfix)
      | cons y' r' =>
        obtain ⟨z, hz⟩ := hr'
        have hyy : y' = y := by
          have := congrArg List.head? hz
          simpa using this
        apply hy
        rw [← hr, ← hyy]
        simp

theorem perm_pair {α : Type} {l : List α} {a b : α} (h : l.Perm [a, b]) :
    l = [a, b] ∨ l = [b, a] := by
  have hlen : l.length = 2 := h.length_eq
  match l, hlen with
  | [x, y], _ =>
    have hx : x ∈ [a, b] := h.mem_iff.mp (by simp)
    simp only [List.mem_cons, List.mem_singleton, List.not_mem_nil, or_false] at hx
    rcases hx with rfl | rfl
    · have h' : [y].Perm [b] := List.Perm.cons_inv h
      have : [y] = [b] := List.perm_singleton.mp h'
      left
      rw [this]
    · have h2 : [x, y].Perm [x, a] := h.trans (List.Perm.swap x a [])
      have h' : [y].Perm [a] := List.Perm.cons_inv h2
      have : [y] = [a] := List.perm_singleton.mp h'
      right
      rw [this]

theorem no_match_of_head (old s Y : Str) (h : Char) (old' : Str) (hold : old = h :: old')
    (hs : h ∉ s) :
    ∀ t : Str, t ≠ [] → t <:+ s → old.isPrefixOf (t ++ Y) = false := by
  intro t ht hsuf
  cases t with
  | nil => exact absurd rfl ht
  | cons c cs =>
    have hc : c ∈ s := hsuf.subset (by simp)
    have hne : ¬ h = c := fun e => hs (e ▸ hc)
    subst hold
    simp [List.isPrefixOf, hne]

set_option maxRecDepth 100000 in
theorem header_subst (ord : ReplaceMap → ReplaceMap) (hord : IsOrder ord) (pkgname P : Str)
    (hpkg : ¬ String.toList "%packages" <:+: pkgname) (hP : '%' ∉ P) :
    replacer ord HEADER
        [(String.toList "%packages", P), (String.toList "%pkgname", pkgname)] =
      String.toList "\npackage " ++ pkgname ++ String.toList "\nimport (\n\t" ++ P ++
        String.toList "\n\t\"errors\"\n)" := by
  unfold replacer
  rcases perm_pair (hord [(String.toList "%packages", P), (String.toList "%pkgname", pkgname)])
    with h | h
  · rw [h]
    simp only [List.foldl_cons, List.foldl_nil]
    have e1 : stringsReplace HEADER (String.toList "%packages") P =
        String.toList "\npackage %pkgname\nimport (\n\t" ++
          (P ++ String.toList "\n\t\"errors\"\n)") := rfl
    rw [e1]
    have e2 : stringsReplace (String.toList "\npackage %pkgname\nimport (\n\t" ++
          (P ++ String.toList "\n\t\"errors\"\n)")) (String.toList "%pkgname") pkgname =
        String.toList "\npackage " ++ (pkgname ++ (String.toList "\nimport (\n\t" ++
          replaceScan (String.toList "%pkgname") pkgname 0
            (P ++ String.toList "\n\t\"errors\"\n)"))) := rfl
    rw [e2, replaceScan_append_of_no_match (String.toList "%pkgname") pkgname P _
      (no_match_of_head (String.toList "%pkgname") P _ '%' (String.toList "pkgname") rfl hP)]
    have e3 : replaceScan (String.toList "%pkgname") pkgname 0
        (String.toList "\n\t\"errors\"\n)") = String.toList "\n\t\"errors\"\n)" := rfl
    rw [e3]
    simp only [List.append_assoc]
  · rw [h]
    simp only [List.foldl_cons, List.foldl_nil]
    have e1 : stringsReplace HEADER (String.toList "%pkgname") pkgname =
        String.toList "\npackage " ++
          (pkgname ++ '\n' :: String.toList "import (\n\t%packages\n\t\"errors\"\n)") := rfl
    rw [e1]
    have e2 : stringsReplace (String.toList "\npackage " ++
          (pkgname ++ '\n' :: String.toList "import (\n\t%packages\n\t\"errors\"\n)"))
          (String.toList "%packages") P =
        String.toList "\npackage " ++
          replaceScan (String.toList "%packages") P 0
            (pkgname ++ '\n' :: String.toList "import (\n\t%packages\n\t\"errors\"\n)") := rfl
    rw [e2, replaceScan_append_of_no_match (String.toList "%packages") P pkgname _
      (no_straddle (String.toList "%packages") pkgname '\n' _ hpkg (by decide))]
    have e3 : replaceScan (String.toList "%packages") P 0
        ('\n' :: String.toList "import (\n\t%packages\n\t\"errors\"\n)") =
        String.toList "\nimport (\n\t" ++ (P ++ String.toList "\n\t\"errors\"\n)") := rfl
    rw [e3]
    simp only [List.append_assoc]

theorem isOrder_ordId : IsOrder ordId := fun m => List.Perm.refl m

theorem isOrder_ordRev : IsOrder ordRev := fun m => List.reverse_perm m

/-- C7: for a package name that does not contain the token `%packages`, and whatever the
order in which `replacer` visits its two entries, the header lists `"encoding/json"` iff
`enable_json`, `"gopkg.in/mgo.v2/bson"` iff `enable_bson`, `"bytes"` iff `has_assoc` and
one of the two backends is enabled, and always `"errors"`; and `generateEnumCode` builds
its header with `has_assoc = true` exactly when some enum of the schema declares a
constraint. -/
theorem generateHeader_imports (ord : ReplaceMap → ReplaceMap) (hord : IsOrder ord)
    (pkgname : Str) (enable_json enable_bson has_assoc : Bool)
    (hpkg : ¬ String.toList "%packages" <:+: pkgname) (m : EnumTypeMap) :
    generateHeader ord pkgname enable_json enable_bson has_assoc =
      String.toList "\npackage " ++ pkgname ++ String.toList "\nimport (\n\t" ++
        stringsJoin
          ((if enable_json then [String.toList "\"encoding/json\""] else []) ++
           (if enable_bson then [String.toList "\"gopkg.in/mgo.v2/bson\""] else []) ++
           (if has_assoc && (enable_bson || enable_json) then [String.toList "\"bytes\""]
            else []))
          (String.toList "\n") ++
        String.toList "\n\t\"errors\"\n)" ∧
    ∃ (assoc : Bool) (rest : Str),
      (assoc = true ↔ ∃ kv ∈ m, kv.2.Constraint ≠ none) ∧
      generateEnumCode ord m pkgname enable_json enable_bson =
        some (generateHeader ord pkgname enable_json enable_bson assoc ++ rest) := by
  constructor
  · unfold generateHeader
    cases enable_json <;> cases enable_bson <;> cases has_assoc <;>
      exact header_subst ord hord pkgname _ hpkg (by decide)
  · obtain ⟨blocks, hblocks⟩ :=
      blocks_exist ord m enable_json enable_bson (sortStrings (mapKeys m))
    refine ⟨m.any (fun kv => decide (kv.2.Constraint ≠ none)), blocks.flatten, ?_,
      generateEnumCode_eq ord m pkgname enable_json enable_bson blocks hblocks⟩
    rw [List.any_eq_true]
    constructor
    · rintro ⟨kv, hin, h⟩
      exact ⟨kv, hin, of_decide_eq_true h⟩
    · rintro ⟨kv, hin, h⟩
      exact ⟨kv, hin, decide_eq_true h⟩

/-- Witness of C7 on the package name `main` and a schema with a tagged union. -/
theorem generateHeader_imports_witness :
    IsOrder ordRev ∧ ¬ String.toList "%packages" <:+: String.toList "main" ∧
    (generateHeader ordRev (String.toList "main") true true true =
      String.toList "\npackage " ++ String.toList "main" ++ String.toList "\nimport (\n\t" ++
        stringsJoin
          ((if true then [String.toList "\"encoding/json\""] else []) ++
           (if true then [String.toList "\"gopkg.in/mgo.v2/bson\""] else []) ++
           (if true && (true || true) then [String.toList "\"bytes\""] else []))
          (String.toList "\n") ++
        String.toList "\n\t\"errors\"\n)" ∧
    ∃ (assoc : Bool) (rest : Str),
      (assoc = true ↔ ∃ kv ∈ sampleSchema, kv.2.Constraint ≠ none) ∧
      generateEnumCode ordRev sampleSchema (String.toList "main") true true =
        some (generateHeader ordRev (String.toList "main") true true assoc ++ rest)) :=
  ⟨isOrder_ordRev, by decide,
    generateHeader_imports ordRev isOrder_ordRev (String.toList "main") true true true
      (by decide) sampleSchema⟩

/-! ## Determinism -/

set_option maxRecDepth 1000000 in
/-- C1 at the failing input: for the enum `Format` whose variant `Name` has the literal
`%name`, the constant is declared with the literal `%name` when `replacer` visits `%value`
last and with the literal `Name` when it visits `%value` first, so two runs of
`generateEnumCode` on this schema return different texts. -/
theorem generateEnumCode_order_dependent :
    IsOrder ordId ∧ IsOrder ordRev ∧
    generateEnumValues ordId (String.toList "Format") (String.toList "Name")
        (String.toList "%name") =
      String.toList "\nconst FormatName Format = \"%name\"" ∧
    generateEnumValues ordRev (String.toList "Format") (String.toList "Name")
        (String.toList "%name") =
      String.toList "\nconst FormatName Format = \"Name\"" ∧
    generateEnumCode ordId formatSchema (String.toList "main") false false ≠
      generateEnumCode ordRev formatSchema (String.toList "main") false false :=
  ⟨isOrder_ordId, isOrder_ordRev, by decide, by decide, by decide⟩

/-! ## Emitted decoders and encoders of a plain enum -/

theorem goLitScan_nil (cs : Str) :
    ∀ st, goLitScan st cs = some [] → st = LitState.text ∧ cs = [] := by
  induction cs with
  | nil =>
    intro st h
    cases st with
    | text => exact ⟨rfl, rfl⟩
    | escape => simp [goLitScan] at h
    | digits b l a y => simp [goLitScan] at h
  | cons c cs ih =>
    intro st h
    exfalso
    cases st with
    | text =>
      simp only [goLitScan] at h
      split at h
      · cases h
      · split at h
        · have := (ih _ h).1
          cases this
        · simp at h
    | escape =>
      simp only [goLitScan] at h
      split at h
      · have := (ih _ h).1; cases this
      · split at h
        · have := (ih _ h).1; cases this
        · split at h
          · have := (ih _ h).1; cases this
          · split at h
            · have := (ih _ h).1; cases this
            · split at h
              · simp at h
              · cases h
    | digits b l a y =>
      simp only [goLitScan] at h
      split at h
      · cases h
      · split at h
        · split at h
          · simp at h
          · cases h
        · have := (ih _ h).1; cases this

theorem goStringLit_eq_nil (t : Str) : goStringLit t = some [] ↔ t = [] := by
  constructor
  · intro h
    exact (goLitScan_nil t _ h).2
  · intro h
    rw [h]
    rfl

theorem literalsOk_value (enum_info : EnumInfo) (h : LiteralsOk enum_info) (n : Str)
    (hn : n ∈ mapKeys enum_info.Variants) :
    ∃ v, goStringLit (mapGet enum_info.Variants n) = some v :=
  Option.isSome_iff_exists.mp (h n hn)

theorem literalsOk_default (enum_info : EnumInfo) (h : LiteralsOk enum_info) (d : Str) :
    ∃ v, goStringLit (mapGet enum_info.Variants d) = some v := by
  by_cases hd : d ∈ mapKeys enum_info.Variants
  · exact literalsOk_value enum_info h d hd
  · rw [mapGet_of_not_mem hd]
    exact ⟨[], rfl⟩

theorem constValue_enumConsts (enum_name : Str) (names : List Str) (enum_info : EnumInfo)
    (n : Str) (hn : n ∈ names) (v : Str)
    (hv : goStringLit (mapGet enum_info.Variants n) = some v) :
    constValue (enumConsts enum_name names enum_info) (enum_name ++ n) = some v := by
  induction names with
  | nil => simp at hn
  | cons x xs ih =>
    unfold enumConsts
    rw [List.filterMap_cons]
    cases hx : goStringLit (mapGet enum_info.Variants x) with
    | none =>
      simp only [Option.map_none']
      have hne : n ≠ x := by
        intro e
        rw [e, hx] at hv
        cases hv
      have hmem : n ∈ xs := by
        rcases List.mem_cons.mp hn with h | h
        · exact absurd h hne
        · exact h
      exact ih hmem
    | some vx =>
      simp only [Option.map_some', constValue]
      by_cases hxn : enum_name ++ x = enum_name ++ n
      · have e : x = n := List.append_cancel_left hxn
        rw [e, hv] at hx
        simp only [hxn, if_true]
        exact hx.symm
      · simp only [hxn, if_false]
        have hne : n ≠ x := fun e => hxn (by rw [e])
        have hmem : n ∈ xs := by
          rcases List.mem_cons.mp hn with h | h
          · exact absurd h hne
          · exact h
        exact ih hmem

theorem mem_enumArms {enum_name : Str} {names : List Str} {enum_info : EnumInfo} {a : Arm}
    (h : a ∈ enumArms enum_name names enum_info) :
    ∃ n ∈ names, a = ⟨n, enum_name, mapGet enum_info.Variants n⟩ := by
  simp only [enumArms, List.mem_map] at h
  obtain ⟨n, hn, rfl⟩ := h
  exact ⟨n, hn, rfl⟩

theorem find?_exists {α : Type} (p : α → Bool) (l : List α) (x : α) (hx : x ∈ l)
    (hp : p x = true) : ∃ y, l.find? p = some y ∧ y ∈ l ∧ p y = true := by
  cases h : l.find? p with
  | none =>
    have := List.find?_eq_none.mp h x hx
    exact absurd hp this
  | some y => exact ⟨y, rfl, List.mem_of_find?_eq_some h, List.find?_some h⟩

theorem runSetter_ok_of_mem (type : Str) (enum_info : EnumInfo) (names : List Str)
    (s : Str) (n : Str) (hn : n ∈ names)
    (hs : goStringLit (mapGet enum_info.Variants n) = some s) :
    ∃ n' ∈ names, goStringLit (mapGet enum_info.Variants n') = some s ∧
      runSetter type (enumArms type names enum_info) (enumDefaultArm type enum_info) s =
        Outcome.ok (type ++ n') := by
  have hmem : (⟨n, type, mapGet enum_info.Variants n⟩ : Arm) ∈ enumArms type names enum_info :=
    List.mem_map.mpr ⟨n, hn, rfl⟩
  obtain ⟨a, hfind, hain, hpa⟩ :=
    find?_exists (fun a : Arm => decide (goStringLit a.value = some s)) _ _ hmem
      (decide_eq_true hs)
  obtain ⟨n', hn', rfl⟩ := mem_enumArms hain
  refine ⟨n', hn', of_decide_eq_true hpa, ?_⟩
  unfold runSetter
  rw [hfind]

theorem runSetter_of_no_match (type : Str) (enum_info : EnumInfo) (names : List Str)
    (s : Str) (hs : ∀ n ∈ names, goStringLit (mapGet enum_info.Variants n) ≠ some s) :
    runSetter type (enumArms type names enum_info) (enumDefaultArm type enum_info) s =
      match enum_info.Default with
      | some d =>
        if s.length = 0 then Outcome.ok (type ++ d)
        else Outcome.err (String.toList "Unknown " ++ type)
      | none => Outcome.err (String.toList "Unknown " ++ type) := by
  have hnone : (enumArms type names enum_info).find?
      (fun a => decide (goStringLit a.value = some s)) = none := by
    rw [List.find?_eq_none]
    intro a ha
    obtain ⟨n, hn, rfl⟩ := mem_enumArms ha
    simpa using hs n hn
  unfold runSetter
  rw [hnone]
  cases hd : enum_info.Default with
  | none => simp [enumDefaultArm, hd]
  | some d => simp [enumDefaultArm, hd]

theorem runGetter_ok_of_mem (type : Str) (enum_info : EnumInfo) (names : List Str)
    (hlit : ∀ n ∈ names, ∃ v, goStringLit (mapGet enum_info.Variants n) = some v)
    (n : Str) (hn : n ∈ names) (v : Str)
    (hv : goStringLit (mapGet enum_info.Variants n) = some v) :
    runGetter (enumConsts type names enum_info) type (enumArms type names enum_info)
        (enumDefaultArm type enum_info) v = Outcome.ok v := by
  have hmem : (⟨n, type, mapGet enum_info.Variants n⟩ : Arm) ∈ enumArms type names enum_info :=
    List.mem_map.mpr ⟨n, hn, rfl⟩
  obtain ⟨a, hfind, hain, hpa⟩ :=
    find?_exists (fun a : Arm => decide (constValue (enumConsts type names enum_info)
      (a.type ++ a.name) = some v)) _ _ hmem
      (decide_eq_true (constValue_enumConsts type names enum_info n hn v hv))
  obtain ⟨n', hn', rfl⟩ := mem_enumArms hain
  have hc := of_decide_eq_true hpa
  obtain ⟨v', hv'⟩ := hlit n' hn'
  rw [constValue_enumConsts type names enum_info n' hn' v' hv'] at hc
  have e : v' = v := Option.some.inj hc
  unfold runGetter
  rw [hfind]
  simp only [returnLiteral, hv', e]

/-! ## Emitted decoder of a tagged union -/

theorem mem_assocArms {name : Str} {names : List Str} {enum_info : EnumInfo} {constr : Str}
    {a : AssocArm} (h : a ∈ assocArms name names enum_info constr) :
    a.type = name ∧ a.constr = constr ∧ a.value = mapGet enum_info.Variants a.name ∧
      a.null = decide (mapGet enum_info.Variants a.name = String.toList "null") := by
  simp only [assocArms, List.mem_map] at h
  obtain ⟨n, _, rfl⟩ := h
  exact ⟨rfl, rfl, rfl, rfl⟩

/-- C10: for a variant `n` of a tagged union whose mapped value is `"null"`, and for each
backend, `generateAssocEnumFunction` emits for `n` the instance of
`ASSOC_SETTER_CASE_NULL`, a template that does not mention the payload; and when the
decoded discriminant selects the case of `n`, the emitted decoder succeeds and sets the
discriminant field, leaving the payload field as it was, whether the data sub-value is
absent or present. -/
theorem assoc_null_variant (ord : ReplaceMap → ReplaceMap) (backend : Backend) (name : Str)
    (enum_info : EnumInfo) (constr n : Str) (hc : enum_info.Constraint = some constr)
    (hnull : mapGet enum_info.Variants n = String.toList "null") :
    (∀ pre post : List Str,
      generateAssocEnumFunction ord name (pre ++ n :: post) enum_info (assocTemplates backend) =
        some (replacer ord (mapGet (assocTemplates backend) (String.toList "header"))
            [(String.toList "%type", name), (String.toList "%constr", constr)] ++
          (pre.map (fun var_name =>
            replacer ord
              (mapGet (assocTemplates backend)
                (if mapGet enum_info.Variants var_name = String.toList "null"
                  then String.toList "case_null" else String.toList "case"))
              [(String.toList "%name", var_name), (String.toList "%type", name),
               (String.toList "%value", mapGet enum_info.Variants var_name),
               (String.toList "%constr", constr)])).flatten ++
          replacer ord ASSOC_SETTER_CASE_NULL
            [(String.toList "%name", n), (String.toList "%type", name),
             (String.toList "%value", String.toList "null"),
             (String.toList "%constr", constr)] ++
          (post.map (fun var_name =>
            replacer ord
              (mapGet (assocTemplates backend)
                (if mapGet enum_info.Variants var_name = String.toList "null"
                  then String.toList "case_null" else String.toList "case"))
              [(String.toList "%name", var_name), (String.toList "%type", name),
               (String.toList "%value", mapGet enum_info.Variants var_name),
               (String.toList "%constr", constr)])).flatten ++
          replacer ord (mapGet (assocTemplates backend) (String.toList "footer"))
            [(String.toList "%type", name)])) ∧
    ¬ String.toList "data" <:+: ASSOC_SETTER_CASE_NULL ∧
    (∀ (consts : List (Str × Str)) (decodeT : Raw → Outcome)
        (decodeData : Str → Raw → Outcome) (self : AssocSelf) (t_raw : Raw) (t : Str)
        (data : Option Raw) (a : AssocArm),
      decodeT t_raw = Outcome.ok t →
      assocDispatch consts
        (assocArms name (sortStrings (mapKeys enum_info.Variants)) enum_info constr) t =
          some a →
      a.name = n →
      emittedAssocDecoder backend consts decodeT decodeData name enum_info constr self
          (some ⟨some t_raw, data⟩) =
        AssocOutcome.ok ⟨t, self.Data⟩) := by
  refine ⟨?_, by decide, ?_⟩
  · intro pre post
    have hcn : mapGet (assocTemplates backend) (String.toList "case_null") =
        ASSOC_SETTER_CASE_NULL := by
      cases backend <;> decide
    rw [generateAssocEnumFunction_eq ord name _ enum_info _ constr hc]
    simp only [List.map_append, List.map_cons, List.flatten_append, List.flatten_cons, hnull,
      if_true, hcn, List.append_assoc]
  · intro consts decodeT decodeData self t_raw t data a hdec hdisp hname
    have hmem : a ∈ assocArms name (sortStrings (mapKeys enum_info.Variants)) enum_info constr :=
      List.mem_of_find?_eq_some hdisp
    have hnl : a.null = true := by
      rw [(mem_assocArms hmem).2.2.2, hname, hnull]
      simp
    unfold emittedAssocDecoder runAssocSetter
    simp only [hdec, hdisp, hnl, if_true]

/-- Witness of C10 on the tagged union `Shape`, whose variant `None` maps to `"null"`,
with a stray data sub-value in the document. -/
theorem assoc_null_variant_witness :
    shapeInfo.Constraint = some (String.toList "ShapeKind") ∧
    mapGet shapeInfo.Variants (String.toList "None") = String.toList "null" ∧
    emittedAssocDecoder Backend.json shapeKindConsts (fun r => Outcome.ok r.Data)
        (fun _ r => Outcome.ok r.Data) (String.toList "Shape") shapeInfo
        (String.toList "ShapeKind") ⟨[], none⟩
        (some ⟨some ⟨0, String.toList "None"⟩, some ⟨0, String.toList "stray"⟩⟩) =
      AssocOutcome.ok ⟨String.toList "None", none⟩ :=
  ⟨rfl, by decide,
    (assoc_null_variant ordId Backend.json (String.toList "Shape") shapeInfo
      (String.toList "ShapeKind") (String.toList "None") rfl (by decide)).2.2
      shapeKindConsts (fun r => Outcome.ok r.Data) (fun _ r => Outcome.ok r.Data) ⟨[], none⟩
      ⟨0, String.toList "None"⟩ (String.toList "None") (some ⟨0, String.toList "stray"⟩)
      ⟨String.toList "None", String.toList "Shape", String.toList "null",
        String.toList "ShapeKind", true⟩
      rfl (by decide) rfl⟩

/-! ## `replacer` against simultaneous substitution -/

set_option maxRecDepth 100000 in
/-- C9 (as stated) fails: on the template `%a%b` and the map `%a ↦ %b`, `%b ↦ %a` the
simultaneous substitution is `%b%a`, while `replacer` returns `%a%a` in one visiting order
and `%b%b` in the other: the text inserted for the first visited token is rewritten by the
second visit. -/
theorem replacer_recursive_counterexample :
    simultaneousSubst (String.toList "%a%b") swapMap = String.toList "%b%a" ∧
    replacer ordId (String.toList "%a%b") swapMap = String.toList "%a%a" ∧
    replacer ordRev (String.toList "%a%b") swapMap = String.toList "%b%b" ∧
    replacer ordId (String.toList "%a%b") swapMap ≠
      simultaneousSubst (String.toList "%a%b") swapMap ∧
    replacer ordRev (String.toList "%a%b") swapMap ≠
      simultaneousSubst (String.toList "%a%b") swapMap := by
  decide

theorem replaceScan_token (body v R : Str) :
    replaceScan ('%' :: body) v 0 (('%' :: body) ++ R) =
      v ++ replaceScan ('%' :: body) v 0 R := by
  have hp : ('%' :: body).isPrefixOf ('%' :: (body ++ R)) = true :=
    List.isPrefixOf_iff_prefix.mpr (List.prefix_append ('%' :: body) R)
  rw [List.cons_append]
  simp only [replaceScan, hp, if_true]
  rw [replaceScan_skip]
  simp

theorem replaceScan_other_token (body v body' R : Str) (hb' : '%' ∉ body')
    (h1 : ¬ ('%' :: body) <+: ('%' :: body')) (h2 : ¬ ('%' :: body') <+: ('%' :: body)) :
    replaceScan ('%' :: body) v 0 (('%' :: body') ++ R) =
      ('%' :: body') ++ replaceScan ('%' :: body) v 0 R := by
  apply replaceScan_append_of_no_match
  intro t ht hsuf
  rcases List.suffix_cons_iff.mp hsuf with h | h
  · subst h
    cases hp : ('%' :: body).isPrefixOf (('%' :: body') ++ R) with
    | false => rfl
    | true =>
      exfalso
      have hpre := List.isPrefixOf_iff_prefix.mp hp
      rcases List.prefix_or_prefix_of_prefix hpre (List.prefix_append ('%' :: body') R)
        with h | h
      · exact h1 h
      · exact h2 h
  · exact no_match_of_head ('%' :: body) body' R '%' body rfl hb' t ht h

theorem key_shape {k : Str} (h : k.head? = some '%' ∧ '%' ∉ k.tail) :
    ∃ body, k = '%' :: body ∧ '%' ∉ body := by
  cases k with
  | nil => simp at h
  | cons c cs =>
    simp only [List.head?_cons, Option.some.injEq, List.tail_cons] at h
    exact ⟨cs, by rw [h.1], h.2⟩

theorem render_cons (seg : Seg) (segs : List Seg) :
    render (seg :: segs) = seg.text ++ render segs := by
  simp [render]

theorem mem_of_key_mem {M : ReplaceMap} {k : Str} (h : k ∈ mapKeys M) :
    ∃ e ∈ M, e.1 = k := by
  simp only [mapKeys, List.mem_map] at h
  obtain ⟨e, he, hk⟩ := h
  exact ⟨e, he, hk⟩

theorem stringsReplace_render (M : ReplaceMap) (hM : CleanMap M) (e : Str × Str)
    (he : e ∈ M) (segs : List Seg) (hsegs : ∀ seg ∈ segs, SegOk M seg) :
    stringsReplace (render segs) e.1 e.2 = render (segs.map (applyEntry e)) := by
  obtain ⟨body, hk, _⟩ := key_shape (hM.1 e he)
  have hrep : ∀ r : Str, stringsReplace r e.1 e.2 = replaceScan ('%' :: body) e.2 0 r := by
    intro r
    rw [hk]
    rfl
  rw [hrep]
  induction segs with
  | nil => rfl
  | cons seg rest ih =>
    have ih' := ih (fun sg hsg => hsegs sg (List.mem_cons_of_mem _ hsg))
    have hseg := hsegs seg (List.mem_cons_self _ _)
    rw [List.map_cons, render_cons, render_cons]
    cases seg with
    | lit s =>
      simp only [Seg.text, applyEntry]
      rw [replaceScan_append_of_no_match ('%' :: body) e.2 s _
        (no_match_of_head ('%' :: body) s _ '%' body rfl hseg), ih']
    | tok k =>
      obtain ⟨e', he', hk'⟩ := mem_of_key_mem hseg
      obtain ⟨body', hkb', hb'⟩ := key_shape (hM.1 e' he')
      have hkeq : k = '%' :: body' := by rw [← hk', hkb']
      simp only [Seg.text, applyEntry]
      by_cases hke : k = e.1
      · simp only [hke, if_true, Seg.text]
        rw [hk, replaceScan_token, ih']
      · simp only [hke, if_false, Seg.text]
        have h1 : ¬ ('%' :: body) <+: ('%' :: body') := by
          intro hp
          rw [← hk, ← hkb'] at hp
          have := hM.2.1 e he e' he' hp
          exact hke (by rw [← hk', this])
        have h2 : ¬ ('%' :: body') <+: ('%' :: body) := by
          intro hp
          rw [← hk, ← hkb'] at hp
          have := hM.2.1 e' he' e he hp
          exact hke (by rw [← hk', this])
        rw [hkeq, replaceScan_other_token body e.2 body' _ hb' h1 h2, ih']

theorem segOk_applyEntry (M : ReplaceMap) (hM : CleanMap M) (e : Str × Str) (he : e ∈ M)
    (seg : Seg) (hseg : SegOk M seg) : SegOk M (applyEntry e seg) := by
  cases seg with
  | lit s => exact hseg
  | tok k =>
    simp only [applyEntry]
    by_cases hke : k = e.1
    · simp only [hke, if_true]
      exact hM.2.2 e he
    · simp only [hke, if_false]
      exact hseg

theorem foldl_render (M : ReplaceMap) (hM : CleanMap M) (L : ReplaceMap)
    (hL : ∀ e ∈ L, e ∈ M) (segs : List Seg) (hsegs : ∀ seg ∈ segs, SegOk M seg) :
    L.foldl (fun result kv => stringsReplace result kv.1 kv.2) (render segs) =
      render (segs.map (fun seg => L.foldl (fun sg kv => applyEntry kv sg) seg)) := by
  induction L generalizing segs with
  | nil => simp
  | cons e L' ih =>
    simp only [List.foldl_cons]
    rw [stringsReplace_render M hM e (hL e (List.mem_cons_self _ _)) segs hsegs]
    rw [ih (fun x hx => hL x (List.mem_cons_of_mem _ hx))]
    · rw [List.map_map]
      rfl
    · intro seg hseg
      obtain ⟨sg, hsg, rfl⟩ := List.mem_map.mp hseg
      exact segOk_applyEntry M hM e (hL e (List.mem_cons_self _ _)) sg (hsegs sg hsg)

theorem foldl_applyEntry_lit (L : ReplaceMap) (s : Str) :
    L.foldl (fun sg kv => applyEntry kv sg) (Seg.lit s) = Seg.lit s := by
  induction L with
  | nil => rfl
  | cons x xs ih => simpa [applyEntry] using ih

theorem foldl_applyEntry_tok (L : ReplaceMap)
    (huniq : ∀ e₁ ∈ L, ∀ e₂ ∈ L, e₁.1 <+: e₂.1 → e₁ = e₂) (e : Str × Str) (he : e ∈ L) :
    L.foldl (fun sg kv => applyEntry kv sg) (Seg.tok e.1) = Seg.lit e.2 := by
  induction L with
  | nil => simp at he
  | cons x xs ih =>
    show List.foldl (fun sg kv => applyEntry kv sg) (applyEntry x (Seg.tok e.1)) xs = _
    by_cases hx : e.1 = x.1
    · have hxe : x = e :=
        huniq x (List.mem_cons_self _ _) e he (by rw [hx])
      have happ : applyEntry x (Seg.tok e.1) = Seg.lit x.2 := by simp [applyEntry, hx]
      rw [happ, foldl_applyEntry_lit, hxe]
    · have happ : applyEntry x (Seg.tok e.1) = Seg.tok e.1 := by simp [applyEntry, hx]
      rw [happ]
      have hmem : e ∈ xs := by
        rcases List.mem_cons.mp he with h | h
        · exact absurd (by rw [h]) hx
        · exact h
      exact ih (fun e₁ h₁ e₂ h₂ => huniq e₁ (List.mem_cons_of_mem _ h₁) e₂
        (List.mem_cons_of_mem _ h₂)) hmem

theorem mapGet_of_unique (M : ReplaceMap)
    (huniq : ∀ e₁ ∈ M, ∀ e₂ ∈ M, e₁.1 <+: e₂.1 → e₁ = e₂) (e : Str × Str) (he : e ∈ M) :
    mapGet M e.1 = e.2 := by
  induction M with
  | nil => simp at he
  | cons x xs ih =>
    obtain ⟨k, v⟩ := x
    simp only [mapGet]
    by_cases hx : k = e.1
    · have hxe : (k, v) = e :=
        huniq (k, v) (List.mem_cons_self _ _) e he (by rw [hx])
      simp only [hx, if_true]
      rw [← hxe]
    · simp only [hx, if_false]
      have hmem : e ∈ xs := by
        rcases List.mem_cons.mp he with h | h
        · exact absurd (by rw [h]) hx
        · exact h
      exact ih (fun e₁ h₁ e₂ h₂ => huniq e₁ (List.mem_cons_of_mem _ h₁) e₂
        (List.mem_cons_of_mem _ h₂)) hmem

theorem replacer_eq_instantiate (ord : ReplaceMap → ReplaceMap) (hord : IsOrder ord)
    (M : ReplaceMap) (hM : CleanMap M) (segs : List Seg) (hsegs : ∀ seg ∈ segs, SegOk M seg) :
    replacer ord (render segs) M = instantiate M segs := by
  have hperm := hord M
  have hL : ∀ e ∈ ord M, e ∈ M := fun e h => hperm.mem_iff.mp h
  unfold replacer
  rw [foldl_render M hM (ord M) hL segs hsegs]
  unfold render instantiate
  rw [List.map_map]
  congr 1
  apply List.map_congr_left
  intro seg hseg
  have hok := hsegs seg hseg
  cases seg with
  | lit s => simp [foldl_applyEntry_lit, Seg.text, Seg.value]
  | tok k =>
    obtain ⟨e, he, hk⟩ := mem_of_key_mem hok
    have huniq : ∀ e₁ ∈ ord M, ∀ e₂ ∈ ord M, e₁.1 <+: e₂.1 → e₁ = e₂ :=
      fun e₁ h₁ e₂ h₂ => hM.2.1 e₁ (hL e₁ h₁) e₂ (hL e₂ h₂)
    simp only [Function.comp, Seg.value]
    rw [← hk, foldl_applyEntry_tok (ord M) huniq e (hperm.mem_iff.mpr he),
      mapGet_of_unique M hM.2.1 e he]
    rfl

theorem substScan_skip (M : ReplaceMap) (k : Nat) (s : Str) :
    substScan M k s = substScan M 0 (s.drop k) := by
  induction k generalizing s with
  | zero => simp
  | succ k ih =>
    cases s with
    | nil => simp [substScan]
    | cons c cs => simp [substScan, ih]

theorem substScan_lit (M : ReplaceMap) (hM : CleanMap M) (s R : Str) (hs : '%' ∉ s) :
    substScan M 0 (s ++ R) = s ++ substScan M 0 R := by
  induction s with
  | nil => rfl
  | cons c cs ih =>
    have hc : ¬ '%' = c := fun e => hs (by rw [← e]; exact List.mem_cons_self _ _)
    have hcs : '%' ∉ cs := fun h => hs (List.mem_cons_of_mem _ h)
    have hnone : M.find? (fun kv => decide (kv.1 ≠ []) && kv.1.isPrefixOf (c :: (cs ++ R))) =
        none := by
      rw [List.find?_eq_none]
      intro e he
      obtain ⟨body, hk, _⟩ := key_shape (hM.1 e he)
      simp [hk, List.isPrefixOf, hc]
    rw [List.cons_append]
    simp only [substScan, hnone]
    rw [ih hcs]
    rfl

theorem substScan_tok (M : ReplaceMap) (hM : CleanMap M) (e : Str × Str) (he : e ∈ M)
    (R : Str) : substScan M 0 (e.1 ++ R) = e.2 ++ substScan M 0 R := by
  obtain ⟨body, hk, _⟩ := key_shape (hM.1 e he)
  have hpe : (decide (e.1 ≠ []) && e.1.isPrefixOf ('%' :: (body ++ R))) = true := by
    have : e.1.isPrefixOf ('%' :: (body ++ R)) = true := by
      rw [hk]
      exact List.isPrefixOf_iff_prefix.mpr (List.prefix_append ('%' :: body) R)
    simp [this, hk]
  obtain ⟨e', hfind, he', hp'⟩ :=
    find?_exists (fun kv : Str × Str => decide (kv.1 ≠ []) && kv.1.isPrefixOf ('%' :: (body ++ R)))
      M e he hpe
  have hee : e' = e := by
    simp only [Bool.and_eq_true] at hp'
    have hpre : e'.1 <+: ('%' :: body) ++ R := List.isPrefixOf_iff_prefix.mp hp'.2
    rcases List.prefix_or_prefix_of_prefix hpre (List.prefix_append ('%' :: body) R)
      with h | h
    · rw [← hk] at h
      exact hM.2.1 e' he' e he h
    · rw [← hk] at h
      exact (hM.2.1 e he e' he' h).symm
  rw [hee] at hfind
  rw [hk, List.cons_append]
  simp only [substScan, hfind]
  rw [substScan_skip, hk]
  simp

theorem substScan_render (M : ReplaceMap) (hM : CleanMap M) (segs : List Seg)
    (hsegs : ∀ seg ∈ segs, SegOk M seg) :
    substScan M 0 (render segs) = instantiate M segs := by
  induction segs with
  | nil => rfl
  | cons seg rest ih =>
    have ih' := ih (fun sg hsg => hsegs sg (List.mem_cons_of_mem _ hsg))
    have hseg := hsegs seg (List.mem_cons_self _ _)
    have hinst : instantiate M (seg :: rest) = seg.value M ++ instantiate M rest := by
      simp [instantiate]
    rw [render_cons, hinst]
    cases seg with
    | lit s =>
      simp only [Seg.text, Seg.value]
      rw [substScan_lit M hM s _ hseg, ih']
    | tok k =>
      obtain ⟨e, he, hk⟩ := mem_of_key_mem hseg
      simp only [Seg.text, Seg.value]
      rw [← hk, substScan_tok M hM e he, ih', mapGet_of_unique M hM.2.1 e he]

/-- C9 (as amended): for a clean replacement map (keys a `%` followed by text without
`%`, no key a prefix of another entry's key, no `%` in a value) and a template made of
`%`-free text and tokens of the map, `replacer` returns, whatever the order in which it
visits the entries, the one-pass simultaneous substitution of the template: every token
replaced by its value, inserted text not rewritten. -/
theorem replacer_simultaneous (ord : ReplaceMap → ReplaceMap) (hord : IsOrder ord)
    (replaces : ReplaceMap) (hclean : CleanMap replaces) (segs : List Seg)
    (hsegs : ∀ seg ∈ segs, SegOk replaces seg) :
    replacer ord (render segs) replaces = simultaneousSubst (render segs) replaces ∧
    replacer ord (render segs) replaces = instantiate replaces segs := by
  have h1 := replacer_eq_instantiate ord hord replaces hclean segs hsegs
  have h2 : simultaneousSubst (render segs) replaces = instantiate replaces segs :=
    substScan_render replaces hclean segs hsegs
  exact ⟨h1.trans h2.symm, h1⟩

set_option maxRecDepth 100000 in
/-- Witness of C9 (as amended) on the template `ENUM_VALUES` and the map built for the
variant `Red` of `Color`, visited in reverse order. -/
theorem replacer_simultaneous_witness :
    IsOrder ordRev ∧ CleanMap redValuesMap ∧ (∀ seg ∈ enumValuesSegs, SegOk redValuesMap seg) ∧
    render enumValuesSegs = ENUM_VALUES ∧
    replacer ordRev (render enumValuesSegs) redValuesMap =
      simultaneousSubst (render enumValuesSegs) redValuesMap ∧
    replacer ordRev (render enumValuesSegs) redValuesMap =
      String.toList "\nconst ColorRed Color = \"red\"" :=
  ⟨isOrder_ordRev, by decide, by decide, by decide,
    (replacer_simultaneous ordRev isOrder_ordRev redValuesMap (by decide) enumValuesSegs
      (by decide)).1,
    by decide⟩

/-! ## The emitted text is the text of the modelled cases -/

theorem generateEnumFunction_arms (ord : ReplaceMap → ReplaceMap) (name : Str)
    (values : List Str) (enum_info : EnumInfo) (templates : TemplateMap) :
    generateEnumFunction ord name values enum_info templates =
      replacer ord (mapGet templates (String.toList "header"))
          [(String.toList "%type", name)] ++
        ((enumArms name values enum_info).map (fun a =>
          replacer ord (mapGet templates (String.toList "case"))
            [(String.toList "%name", a.name), (String.toList "%type", a.type),
             (String.toList "%value", a.value)])).flatten ++
        replacer ord (mapGet templates (String.toList "footer"))
          [(String.toList "%type", name),
           (String.toList "%defaultcode",
            match enumDefaultArm name enum_info with
            | some d =>
              replacer ord (mapGet templates (String.toList "default"))
                [(String.toList "%name", d.name), (String.toList "%type", d.type),
                 (String.toList "%value", d.value)]
            | none => [])] := by
  unfold generateEnumFunction enumArms enumDefaultArm
  simp only [List.nil_append, foldl_append_eq, List.map_map]
  cases enum_info.Default <;> rfl

theorem generateAssocEnumFunction_arms (ord : ReplaceMap → ReplaceMap) (name : Str)
    (values : List Str) (enum_info : EnumInfo) (templates : TemplateMap) (constr : Str)
    (hc : enum_info.Constraint = some constr) :
    generateAssocEnumFunction ord name values enum_info templates =
      some (replacer ord (mapGet templates (String.toList "header"))
          [(String.toList "%type", name), (String.toList "%constr", constr)] ++
        ((assocArms name values enum_info constr).map (fun a =>
          replacer ord
            (mapGet templates
              (if a.null then String.toList "case_null" else String.toList "case"))
            [(String.toList "%name", a.name), (String.toList "%type", a.type),
             (String.toList "%value", a.value), (String.toList "%constr", a.constr)])).flatten ++
        replacer ord (mapGet templates (String.toList "footer"))
          [(String.toList "%type", name)]) := by
  rw [generateAssocEnumFunction_eq ord name values enum_info templates constr hc]
  unfold assocArms
  simp only [List.map_map]
  congr 4
  apply List.map_congr_left
  intro n _
  simp only [Function.comp]
  by_cases h : mapGet enum_info.Variants n = String.toList "null"
  · simp [h]
  · simp [h]

/-! ## Totality of generation -/

theorem generateAssocEnumType_none (ord : ReplaceMap → ReplaceMap) (enum_name : Str)
    (enum_info : EnumInfo) (enable_json enable_bson : Bool)
    (hc : enum_info.Constraint = none) :
    generateAssocEnumType ord enum_name enum_info enable_json enable_bson = none := by
  unfold generateAssocEnumType
  simp only [hc]

/-- C14: `generateEnumCode` returns a text for every schema, package name, pair of flags
and visiting order.  The only failing branch of the generators is the dereference of an
absent constraint in `generateAssocEnumType`, which `generateEnumCode` calls only for
enums that declare one; an absent default leaves `%defaultcode` empty, and the lookup of
a missing variant yields the empty literal. -/
theorem generateEnumCode_total (ord : ReplaceMap → ReplaceMap) (m : EnumTypeMap) (pkg : Str)
    (enable_json enable_bson : Bool) :
    (∃ text, generateEnumCode ord m pkg enable_json enable_bson = some text) ∧
    (∀ (n : Str) (enum_info : EnumInfo),
      generateAssocEnumType ord n enum_info enable_json enable_bson = none ↔
        enum_info.Constraint = none) ∧
    (∀ (n : Str) (values : List Str) (enum_info : EnumInfo) (templates : TemplateMap),
      enum_info.Default = none →
      generateEnumFunction ord n values enum_info templates =
        replacer ord (mapGet templates (String.toList "header"))
            [(String.toList "%type", n)] ++
          (values.map (fun var_name =>
            replacer ord (mapGet templates (String.toList "case"))
              [(String.toList "%name", var_name), (String.toList "%type", n),
               (String.toList "%value", mapGet enum_info.Variants var_name)])).flatten ++
          replacer ord (mapGet templates (String.toList "footer"))
            [(String.toList "%type", n), (String.toList "%defaultcode", [])]) ∧
    (∀ (enum_info : EnumInfo) (k : Str),
      k ∉ mapKeys enum_info.Variants → mapGet enum_info.Variants k = []) := by
  refine ⟨?_, ?_, ?_, ?_⟩
  · obtain ⟨blocks, hblocks⟩ :=
      blocks_exist ord m enable_json enable_bson (sortStrings (mapKeys m))
    exact ⟨_, generateEnumCode_eq ord m pkg enable_json enable_bson blocks hblocks⟩
  · intro n enum_info
    constructor
    · intro hnone
      cases hc : enum_info.Constraint with
      | none => rfl
      | some constr =>
        obtain ⟨blk, hblk⟩ :=
          generateAssocEnumType_isSome ord n enum_info enable_json enable_bson constr hc
        rw [hblk] at hnone
        cases hnone
    · exact generateAssocEnumType_none ord n enum_info enable_json enable_bson
  · intro n values enum_info templates hd
    unfold generateEnumFunction
    simp only [List.nil_append, foldl_append_eq, hd]
  · intro enum_info k hk
    exact mapGet_of_not_mem hk

/-- Witness of C14 on a schema with a plain enum and a tagged union. -/
theorem generateEnumCode_total_witness :
    ∃ text, generateEnumCode ordRev sampleSchema (String.toList "main") true true = some text :=
  (generateEnumCode_total ordRev sampleSchema (String.toList "main") true true).1

/-! ## Tagged unions: missing payload and unmatched discriminant -/

theorem runAssocSetter_missing (backend : Backend) (consts : List (Str × Str))
    (decodeT : Raw → Outcome) (decodeData : Str → Raw → Outcome) (name : Str)
    (enum_info : EnumInfo) (constr : Str) (self : AssocSelf) (t_raw : Raw) (t : Str)
    (data : Option Raw) (a : AssocArm) (hdec : decodeT t_raw = Outcome.ok t)
    (hdisp : assocDispatch consts
      (assocArms name (sortStrings (mapKeys enum_info.Variants)) enum_info constr) t = some a)
    (hnn : mapGet enum_info.Variants a.name ≠ String.toList "null")
    (hdata : data = none ∨ ∃ r, data = some r ∧ r.Data = String.toList "null") :
    emittedAssocDecoder backend consts decodeT decodeData name enum_info constr self
        (some ⟨some t_raw, data⟩) =
      AssocOutcome.err (String.toList "No associated data found for enum " ++ name) := by
  have hmem := List.mem_of_find?_eq_some hdisp
  obtain ⟨htype, _, _, hnull⟩ := mem_assocArms hmem
  have hnl : a.null = false := by
    rw [hnull]
    exact decide_eq_false hnn
  have hfound : (if (data.getD ⟨0, []⟩).Data = String.toList "null" then false
      else data.isSome) = false := by
    rcases hdata with h | ⟨r, h, hr⟩
    · subst h
      simp
    · subst h
      simp [hr]
  unfold emittedAssocDecoder runAssocSetter
  simp only [hdec, hdisp, hnl, hfound, htype]
  simp

/-- C11 at the failing input: for the tagged union `Shape` and a document whose
discriminant selects the variant `Circle` (payload type `CircleData`), the emitted JSON
decoder returns the missing-payload error when the data sub-value is an explicit null, and
the emitted BSON decoder returns it when the data sub-value is absent; but for a BSON
document whose data sub-value is an explicit null the test
`bytes.Equal(data_raw.Data, []byte("null"))` is false, and the decoder goes on to decode
the payload. -/
theorem assoc_bson_explicit_null (decodeData : Str → Raw → Outcome) :
    emittedAssocDecoder Backend.json shapeKindAllConsts
        (decodeConstraint Backend.json (String.toList "ShapeKind") shapeKindInfo) decodeData
        (String.toList "Shape") shapeInfo (String.toList "ShapeKind") ⟨[], none⟩
        (some ⟨some ⟨0, String.toList "Circle"⟩, some (explicitNull Backend.json)⟩) =
      AssocOutcome.err (String.toList "No associated data found for enum Shape") ∧
    emittedAssocDecoder Backend.bson shapeKindAllConsts
        (decodeConstraint Backend.bson (String.toList "ShapeKind") shapeKindInfo) decodeData
        (String.toList "Shape") shapeInfo (String.toList "ShapeKind") ⟨[], none⟩
        (some ⟨some ⟨2, String.toList "Circle"⟩, none⟩) =
      AssocOutcome.err (String.toList "No associated data found for enum Shape") ∧
    emittedAssocDecoder Backend.bson shapeKindAllConsts
        (decodeConstraint Backend.bson (String.toList "ShapeKind") shapeKindInfo) decodeData
        (String.toList "Shape") shapeInfo (String.toList "ShapeKind") ⟨[], none⟩
        (some ⟨some ⟨2, String.toList "Circle"⟩, some (explicitNull Backend.bson)⟩) =
      (match decodeData (String.toList "CircleData") (explicitNull Backend.bson) with
       | Outcome.err data_err => AssocOutcome.err data_err
       | Outcome.ok d => AssocOutcome.ok ⟨String.toList "Circle", some d⟩) := by
  refine ⟨rfl, rfl, rfl⟩

/-- C12 (as stated) fails: `Square` is a variant of the constraint enum `ShapeKind` but
no variant of the tagged union `Shape`; the discriminant decodes, no case of the emitted
switch matches it, and the decoder returns no error, with the discriminant field set. -/
theorem assoc_unmatched_discriminant_counterexample :
    decodeConstraint Backend.json (String.toList "ShapeKind") shapeKindInfo
        ⟨0, String.toList "Square"⟩ = Outcome.ok (String.toList "Square") ∧
    String.toList "Square" ∉ mapKeys shapeInfo.Variants ∧
    assocDispatch shapeKindAllConsts
        (assocArms (String.toList "Shape") (sortStrings (mapKeys shapeInfo.Variants)) shapeInfo
          (String.toList "ShapeKind")) (String.toList "Square") = none ∧
    emittedAssocDecoder Backend.json shapeKindAllConsts
        (decodeConstraint Backend.json (String.toList "ShapeKind") shapeKindInfo)
        (fun _ r => Outcome.ok r.Data)
        (String.toList "Shape") shapeInfo (String.toList "ShapeKind") ⟨[], none⟩
        (some ⟨some ⟨0, String.toList "Square"⟩, none⟩) =
      AssocOutcome.ok ⟨String.toList "Square", none⟩ := by
  refine ⟨by decide, by decide, by decide, rfl⟩

/-- C12 (as amended): when the discriminant sub-value does not decode into the constraint
type, the emitted decoder returns the error of that decoding; when it decodes to a value
that no case of the tagged union matches, the decoder returns no error, sets the
discriminant field and leaves the payload field as it was. -/
theorem assoc_unmatched_discriminant (backend : Backend) (consts : List (Str × Str))
    (decodeT : Raw → Outcome) (decodeData : Str → Raw → Outcome) (name : Str)
    (enum_info : EnumInfo) (constr : Str) (self : AssocSelf) (t_raw : Raw)
    (data : Option Raw) :
    (∀ t_err, decodeT t_raw = Outcome.err t_err →
      emittedAssocDecoder backend consts decodeT decodeData name enum_info constr self
        (some ⟨some t_raw, data⟩) = AssocOutcome.err t_err) ∧
    (∀ t, decodeT t_raw = Outcome.ok t →
      assocDispatch consts
        (assocArms name (sortStrings (mapKeys enum_info.Variants)) enum_info constr) t = none →
      emittedAssocDecoder backend consts decodeT decodeData name enum_info constr self
        (some ⟨some t_raw, data⟩) = AssocOutcome.ok ⟨t, self.Data⟩) := by
  constructor
  · intro t_err hdec
    unfold emittedAssocDecoder runAssocSetter
    simp only [hdec]
  · intro t hdec hdisp
    unfold emittedAssocDecoder runAssocSetter
    simp only [hdec, hdisp]

/-- Witness of C12 (as amended): a discriminant that is no variant of the constraint enum
is rejected with the error of the constraint's decoder. -/
theorem assoc_unmatched_discriminant_witness :
    decodeConstraint Backend.json (String.toList "ShapeKind") shapeKindInfo
        ⟨0, String.toList "Blob"⟩ = Outcome.err (String.toList "Unknown ShapeKind") ∧
    emittedAssocDecoder Backend.json shapeKindAllConsts
        (decodeConstraint Backend.json (String.toList "ShapeKind") shapeKindInfo)
        (fun _ r => Outcome.ok r.Data)
        (String.toList "Shape") shapeInfo (String.toList "ShapeKind") ⟨[], none⟩
        (some ⟨some ⟨0, String.toList "Blob"⟩, none⟩) =
      AssocOutcome.err (String.toList "Unknown ShapeKind") :=
  ⟨by decide,
    (assoc_unmatched_discriminant Backend.json shapeKindAllConsts
      (decodeConstraint Backend.json (String.toList "ShapeKind") shapeKindInfo)
      (fun _ r => Outcome.ok r.Data) (String.toList "Shape") shapeInfo
      (String.toList "ShapeKind") ⟨[], none⟩ ⟨0, String.toList "Blob"⟩ none).1
      (String.toList "Unknown ShapeKind") (by decide)⟩

/-! ## String conversion and encoders of a plain enum -/

theorem runGetter_of_no_match (type : Str) (enum_info : EnumInfo) (names : List Str)
    (hlit : ∀ n ∈ names, ∃ v, goStringLit (mapGet enum_info.Variants n) = some v)
    (self : Str) (hs : ∀ n ∈ names, goStringLit (mapGet enum_info.Variants n) ≠ some self) :
    runGetter (enumConsts type names enum_info) type (enumArms type names enum_info)
        (enumDefaultArm type enum_info) self =
      match enum_info.Default with
      | some d =>
        if self.length = 0 then returnLiteral (mapGet enum_info.Variants d)
        else Outcome.err (String.toList "Invalid value of " ++ type)
      | none => Outcome.err (String.toList "Invalid value of " ++ type) := by
  have hnone : (enumArms type names enum_info).find? (fun a =>
      decide (constValue (enumConsts type names enum_info) (a.type ++ a.name) = some self)) =
      none := by
    rw [List.find?_eq_none]
    intro a ha
    obtain ⟨n, hn, rfl⟩ := mem_enumArms ha
    obtain ⟨v, hv⟩ := hlit n hn
    simp only [constValue_enumConsts type names enum_info n hn v hv, decide_eq_true_eq]
    rw [← hv]
    exact hs n hn
  unfold runGetter
  rw [hnone]
  cases hd : enum_info.Default with
  | none => simp [enumDefaultArm, hd]
  | some d => simp [enumDefaultArm, hd]

/-! ## The formatting pass -/

theorem replaceScan_match (h : Char) (body v R : Str) :
    replaceScan (h :: body) v 0 ((h :: body) ++ R) = v ++ replaceScan (h :: body) v 0 R := by
  have hp : (h :: body).isPrefixOf (h :: (body ++ R)) = true :=
    List.isPrefixOf_iff_prefix.mpr (List.prefix_append (h :: body) R)
  rw [List.cons_append]
  simp only [replaceScan, hp, if_true]
  rw [replaceScan_skip]
  simp

theorem replaceScan_induction (h : Char) (body new : Str) (P : Str → Str → Prop)
    (hnil : P [] [])
    (hmatch : ∀ tail, P tail (replaceScan (h :: body) new 0 tail) →
      P ((h :: body) ++ tail) (new ++ replaceScan (h :: body) new 0 tail))
    (hstep : ∀ c cs, (h :: body).isPrefixOf (c :: cs) = false →
      P cs (replaceScan (h :: body) new 0 cs) →
      P (c :: cs) (c :: replaceScan (h :: body) new 0 cs)) :
    ∀ s, P s (replaceScan (h :: body) new 0 s) := by
  have main : ∀ n : Nat, ∀ s : Str, s.length ≤ n → P s (replaceScan (h :: body) new 0 s) := by
    intro n
    induction n with
    | zero =>
      intro s hs
      have : s = [] := List.length_eq_zero.mp (Nat.le_zero.mp hs)
      subst this
      exact hnil
    | succ n ih =>
      intro s hs
      cases s with
      | nil => exact hnil
      | cons c cs =>
        cases hp : (h :: body).isPrefixOf (c :: cs) with
        | false =>
          rw [ replaceScan_cons_of_not_prefix _ _ c cs hp]
          exact hstep c cs hp (ih cs (by simpa using hs))
        | true =>
          obtain ⟨tail, htail⟩ := List.isPrefixOf_iff_prefix.mp hp
          rw [← htail, replaceScan_match]
          apply hmatch
          apply ih
          have hlen : (c :: cs).length = (h :: body).length + tail.length := by
            rw [← htail, List.length_append]
          simp only [List.length_cons] at hlen hs
          omega
  intro s
  exact main s.length s (Nat.le_refl _)

theorem filter_replaceScan (w s : Str) :
    (replaceScan ('\n' :: w) ('\n' :: '\n' :: w) 0 s).filter (fun c => decide (c ≠ '\n')) =
      s.filter (fun c => decide (c ≠ '\n')) := by
  apply replaceScan_induction '\n' w ('\n' :: '\n' :: w)
    (fun s out => out.filter (fun c => decide (c ≠ '\n')) =
      s.filter (fun c => decide (c ≠ '\n')))
  · rfl
  · intro tail ih
    simp only [List.filter_append, ih]
    simp
  · intro c cs _ ih
    simp only [List.filter_cons, ih]

theorem sublist_replaceScan (w s : Str) :
    s.Sublist (replaceScan ('\n' :: w) ('\n' :: '\n' :: w) 0 s) := by
  apply replaceScan_induction '\n' w ('\n' :: '\n' :: w) (fun s out => s.Sublist out)
  · exact List.Sublist.refl []
  · intro tail ih
    exact List.Sublist.append (List.sublist_cons_self '\n' ('\n' :: w)) ih
  · intro c cs _ ih
    exact List.Sublist.cons₂ c ih

theorem prefix_reflect_replaceScan (w : Str) (s : Str) :
    ∀ w' : Str, '\n' ∉ w' → w' <+: replaceScan ('\n' :: w) ('\n' :: '\n' :: w) 0 s →
      w' <+: s := by
  apply replaceScan_induction '\n' w ('\n' :: '\n' :: w)
    (fun s out => ∀ w' : Str, '\n' ∉ w' → w' <+: out → w' <+: s)
  · intro w' _ h
    exact h
  · intro tail _ w' hw' hpre
    cases w' with
    | nil => exact List.nil_prefix
    | cons a as =>
      exfalso
      rw [List.cons_append, List.cons_prefix_cons] at hpre
      exact hw' (by rw [hpre.1]; exact List.mem_cons_self _ _)
  · intro c cs _ ih w' hw' hpre
    cases w' with
    | nil => exact List.nil_prefix
    | cons a as =>
      rw [List.cons_prefix_cons] at hpre ⊢
      exact ⟨hpre.1, ih as (fun hin => hw' (List.mem_cons_of_mem _ hin)) hpre.2⟩

theorem not_prefix_of_head_ne (p : Char) (pw : Str) (a : Char) (t : Str) (h : ¬ p = a) :
    (p :: pw).isPrefixOf (a :: t) = false := by
  simp [List.isPrefixOf, h]

theorem guardedFrom_clean_append (pw w tail out : Str) (hw : '\n' ∉ w)
    (h : ∀ prev, guardedFrom ('\n' :: pw) prev tail = true →
      guardedFrom ('\n' :: pw) prev out = true) :
    ∀ prev, guardedFrom ('\n' :: pw) prev (w ++ tail) = true →
      guardedFrom ('\n' :: pw) prev (w ++ out) = true := by
  induction w with
  | nil => exact h
  | cons a as ih =>
    intro prev hg
    have ha : ¬ '\n' = a := fun e => hw (by rw [← e]; exact List.mem_cons_self _ _)
    have has : '\n' ∉ as := fun hin => hw (List.mem_cons_of_mem _ hin)
    simp only [List.cons_append, guardedFrom, not_prefix_of_head_ne '\n' pw a _ ha,
      Bool.not_false, Bool.true_or, Bool.true_and] at hg ⊢
    exact ih has (some a) hg

theorem not_prefix_double_feed (a : Char) (w0 t : Str) (ha : ¬ a = '\n') :
    ('\n' :: a :: w0).isPrefixOf ('\n' :: '\n' :: t) = false := by
  simp [List.isPrefixOf, ha]

theorem no_match_after_scan (a : Char) (w0 w2 : Str) (hw : '\n' ∉ a :: w0)
    (c : Char) (cs : Str) (h : ('\n' :: a :: w0).isPrefixOf (c :: cs) = false) :
    ('\n' :: a :: w0).isPrefixOf
      (c :: replaceScan ('\n' :: w2) ('\n' :: '\n' :: w2) 0 cs) = false := by
  cases hp : ('\n' :: a :: w0).isPrefixOf
      (c :: replaceScan ('\n' :: w2) ('\n' :: '\n' :: w2) 0 cs) with
  | false => rfl
  | true =>
    exfalso
    have hpre := List.isPrefixOf_iff_prefix.mp hp
    rw [List.cons_prefix_cons] at hpre
    have hcs : (a :: w0) <+: cs := prefix_reflect_replaceScan w2 cs (a :: w0) hw hpre.2
    have : ('\n' :: a :: w0) <+: (c :: cs) := List.cons_prefix_cons.mpr ⟨hpre.1, hcs⟩
    rw [List.isPrefixOf_iff_prefix.mpr this] at h
    cases h

theorem guardedFrom_clean_left (pw w out : Str) (hw : '\n' ∉ w)
    (h : ∀ prev, guardedFrom ('\n' :: pw) prev out = true) :
    ∀ prev, guardedFrom ('\n' :: pw) prev (w ++ out) = true := by
  induction w with
  | nil => exact h
  | cons a as ih =>
    intro prev
    have ha : ¬ '\n' = a := fun e => hw (by rw [← e]; exact List.mem_cons_self _ _)
    have has : '\n' ∉ as := fun hin => hw (List.mem_cons_of_mem _ hin)
    simp only [List.cons_append, guardedFrom, not_prefix_of_head_ne '\n' pw a _ ha,
      Bool.not_false, Bool.true_or, Bool.true_and]
    exact ih has (some a)

theorem guardedFrom_double_feed (a : Char) (w0 t : Str) (ha : ¬ a = '\n')
    (prev : Option Char) :
    guardedFrom ('\n' :: a :: w0) prev ('\n' :: '\n' :: t) =
      guardedFrom ('\n' :: a :: w0) (some '\n') t := by
  simp only [guardedFrom, not_prefix_double_feed a w0 _ ha, Bool.not_false, Bool.true_or,
    Bool.true_and, beq_self_eq_true, Bool.or_true]

theorem guarded_establish (a : Char) (w0 : Str) (hw : '\n' ∉ a :: w0) (s : Str) :
    ∀ prev, guardedFrom ('\n' :: a :: w0) prev
      (replaceScan ('\n' :: a :: w0) ('\n' :: '\n' :: a :: w0) 0 s) = true := by
  have ha : ¬ a = '\n' := fun e => hw (by rw [e]; exact List.mem_cons_self _ _)
  apply replaceScan_induction '\n' (a :: w0) ('\n' :: '\n' :: a :: w0)
    (fun _ out => ∀ prev, guardedFrom ('\n' :: a :: w0) prev out = true)
  · intro prev
    rfl
  · intro tail ih prev
    have h3 := guardedFrom_clean_left (a :: w0) (a :: w0) _ hw ih (some '\n')
    show guardedFrom ('\n' :: a :: w0) prev ('\n' :: '\n' :: ((a :: w0) ++
      replaceScan ('\n' :: a :: w0) ('\n' :: '\n' :: a :: w0) 0 tail)) = true
    rw [guardedFrom_double_feed a w0 _ ha]
    exact h3
  · intro c cs hp ih prev
    simp only [guardedFrom, no_match_after_scan a w0 (a :: w0) hw c cs hp,
      Bool.not_false, Bool.true_or, Bool.true_and]
    exact ih (some c)

theorem guarded_preserve (a : Char) (w0 w2 : Str) (hw1 : '\n' ∉ a :: w0) (hw2 : '\n' ∉ w2)
    (s : Str) :
    ∀ prev, guardedFrom ('\n' :: a :: w0) prev s = true →
      guardedFrom ('\n' :: a :: w0) prev
        (replaceScan ('\n' :: w2) ('\n' :: '\n' :: w2) 0 s) = true := by
  have ha : ¬ a = '\n' := fun e => hw1 (by rw [e]; exact List.mem_cons_self _ _)
  apply replaceScan_induction '\n' w2 ('\n' :: '\n' :: w2)
    (fun s out => ∀ prev, guardedFrom ('\n' :: a :: w0) prev s = true →
      guardedFrom ('\n' :: a :: w0) prev out = true)
  · intro prev h
    exact h
  · intro tail ih prev hg
    have hg' : guardedFrom ('\n' :: a :: w0) prev ('\n' :: (w2 ++ tail)) = true := hg
    simp only [guardedFrom, Bool.and_eq_true] at hg'
    have h3 := guardedFrom_clean_append (a :: w0) w2 tail _ hw2 ih (some '\n') hg'.2
    show guardedFrom ('\n' :: a :: w0) prev ('\n' :: '\n' :: (w2 ++
      replaceScan ('\n' :: w2) ('\n' :: '\n' :: w2) 0 tail)) = true
    rw [guardedFrom_double_feed a w0 _ ha]
    exact h3
  · intro c cs _ ih prev hg
    simp only [guardedFrom, Bool.and_eq_true, Bool.or_eq_true, Bool.not_eq_true'] at hg ⊢
    refine ⟨?_, ih (some c) hg.2⟩
    rcases hg.1 with h | h
    · exact Or.inl (no_match_after_scan a w0 w2 hw1 c cs h)
    · exact Or.inr h

theorem guarded_spec (p : Char) (pw : Str) :
    ∀ (pre : Str) (prev : Option Char) (t post : Str),
      guardedFrom (p :: pw) prev t = true → t = pre ++ ((p :: pw) ++ post) →
      (pre = [] → prev = some '\n') ∧ (pre ≠ [] → ∃ pre', pre = pre' ++ ['\n']) := by
  intro pre
  induction pre with
  | nil =>
    intro prev t post hg ht
    refine ⟨fun _ => ?_, fun h => absurd rfl h⟩
    rw [List.nil_append, List.cons_append] at ht
    subst ht
    have hp : (p :: pw).isPrefixOf (p :: (pw ++ post)) = true :=
      List.isPrefixOf_iff_prefix.mpr (List.prefix_append (p :: pw) post)
    simp only [guardedFrom, hp, Bool.not_true, Bool.false_or, Bool.and_eq_true,
      beq_iff_eq] at hg
    exact hg.1
  | cons x pre' ih =>
    intro prev t post hg ht
    refine ⟨fun h => List.noConfusion h, fun _ => ?_⟩
    rw [List.cons_append] at ht
    subst ht
    simp only [guardedFrom, Bool.and_eq_true] at hg
    obtain ⟨h1, h2⟩ := ih (some x) _ post hg.2 rfl
    by_cases hpre : pre' = []
    · have hx := h1 hpre
      simp only [Option.some.injEq] at hx
      exact ⟨[], by simp [hpre, hx]⟩
    · obtain ⟨q, hq⟩ := h2 hpre
      exact ⟨x :: q, by simp [hq]⟩

theorem beautify_eq (result : Str) :
    beautify result =
      replaceScan ('\n' :: 'f' :: String.toList "unc") ('\n' :: '\n' :: 'f' :: String.toList "unc")
        0
        (replaceScan ('\n' :: 't' :: String.toList "ype")
          ('\n' :: '\n' :: 't' :: String.toList "ype") 0 result) := rfl

/-- C15: the formatting pass only inserts line feeds: the input is a subsequence of the
output and both are equal once their line feeds are deleted; and in the output every
occurrence of `\ntype` and every occurrence of `\nfunc` is immediately preceded by a line
feed. -/
theorem beautify_cosmetic (result : Str) :
    (beautify result).filter (fun c => decide (c ≠ '\n')) =
      result.filter (fun c => decide (c ≠ '\n')) ∧
    result.Sublist (beautify result) ∧
    (∀ pre post : Str, beautify result = pre ++ (String.toList "\ntype" ++ post) →
      ∃ pre', pre = pre' ++ ['\n']) ∧
    (∀ pre post : Str, beautify result = pre ++ (String.toList "\nfunc" ++ post) →
      ∃ pre', pre = pre' ++ ['\n']) := by
  have ht : '\n' ∉ 't' :: String.toList "ype" := by decide
  have hf : '\n' ∉ 'f' :: String.toList "unc" := by decide
  have g1 := guarded_establish 't' (String.toList "ype") ht result none
  have g2 := guarded_preserve 't' (String.toList "ype") ('f' :: String.toList "unc") ht hf
    _ none g1
  have g3 := guarded_establish 'f' (String.toList "unc") hf
    (replaceScan ('\n' :: 't' :: String.toList "ype")
      ('\n' :: '\n' :: 't' :: String.toList "ype") 0 result) none
  rw [beautify_eq]
  refine ⟨?_, ?_, ?_, ?_⟩
  · rw [filter_replaceScan, filter_replaceScan]
  · exact (sublist_replaceScan _ result).trans (sublist_replaceScan _ _)
  · intro pre post hpre
    have h := guarded_spec '\n' ('t' :: String.toList "ype") pre none _ post g2 hpre
    by_cases hnil : pre = []
    · have := h.1 hnil
      cases this
    · exact h.2 hnil
  · intro pre post hpre
    have h := guarded_spec '\n' ('f' :: String.toList "unc") pre none _ post g3 hpre
    by_cases hnil : pre = []
    · have := h.1 hnil
      cases this
    · exact h.2 hnil

/-- Witness of C15 on a text with two type blocks and one function block. -/
theorem beautify_cosmetic_witness :
    beautify (String.toList "\ntype A int\nfunc f()\ntype B int") =
      String.toList "\n\ntype A int\n\nfunc f()\n\ntype B int" ∧
    (beautify (String.toList "\ntype A int\nfunc f()\ntype B int")).filter
        (fun c => decide (c ≠ '\n')) =
      (String.toList "\ntype A int\nfunc f()\ntype B int").filter
        (fun c => decide (c ≠ '\n')) ∧
    ∃ pre', String.toList "\n\ntype A int\n\nfunc f()\n" = pre' ++ ['\n'] :=
  ⟨by decide,
    (beautify_cosmetic (String.toList "\ntype A int\nfunc f()\ntype B int")).1,
    (beautify_cosmetic (String.toList "\ntype A int\nfunc f()\ntype B int")).2.2.1
      (String.toList "\n\ntype A int\n\nfunc f()\n") (String.toList " B int") (by decide)⟩

/-! ## Substitution on clean input -/

theorem generateHeader_by (ord : ReplaceMap → ReplaceMap) :
    generateHeader ord = generateHeaderBy (replacer ord) := rfl

theorem generateEnumType_by (ord : ReplaceMap → ReplaceMap) :
    generateEnumType ord = generateEnumTypeBy (replacer ord) := rfl

theorem generateAssocEnumType_by (ord : ReplaceMap → ReplaceMap) :
    generateAssocEnumType ord = generateAssocEnumTypeBy (replacer ord) := rfl

theorem generateEnumCode_by (ord : ReplaceMap → ReplaceMap) :
    generateEnumCode ord = generateEnumCodeBy (replacer ord) := rfl

theorem cleanMap_of_keys (M : ReplaceMap) (hk : KeysOk (mapKeys M))
    (hv : ∀ e ∈ M, '%' ∉ e.2) : CleanMap M := by
  refine ⟨?_, ?_, hv⟩
  · intro e he
    exact hk.2.1 e.1 (List.mem_map_of_mem Prod.fst he)
  · intro e₁ h₁ e₂ h₂ hpre
    have hkey : e₁.1 = e₂.1 :=
      hk.2.2 e₁.1 (List.mem_map_of_mem Prod.fst h₁) e₂.1 (List.mem_map_of_mem Prod.fst h₂) hpre
    have g₁ : mapGet M e₁.1 = e₁.2 := @mapGet_of_mem M hk.1 e₁.1 e₁.2 h₁
    have g₂ : mapGet M e₂.1 = e₂.2 := @mapGet_of_mem M hk.1 e₂.1 e₂.2 h₂
    rw [hkey, g₂] at g₁
    exact Prod.ext hkey g₁.symm

theorem segOk_of_keys (M : ReplaceMap) (seg : Seg) (h : SegOkKeys (mapKeys M) seg) :
    SegOk M seg := by
  cases seg <;> exact h

theorem good_of_instantiate (subst : Str → ReplaceMap → Str)
    (h : ∀ M segs, CleanMap M → (∀ seg ∈ segs, SegOk M seg) →
      subst (render segs) M = instantiate M segs) : Good subst := by
  intro template replaces hcall
  obtain ⟨⟨hk, hr, hsegs⟩, hv⟩ := hcall
  have := h replaces (parseSegs (mapKeys replaces) 0 template) (cleanMap_of_keys replaces hk hv)
    (fun seg hseg => segOk_of_keys replaces seg (hsegs seg hseg))
  rw [hr] at this
  exact this

theorem replacer_good (ord : ReplaceMap → ReplaceMap) (hord : IsOrder ord) :
    Good (replacer ord) :=
  good_of_instantiate _ (fun M segs hM hsegs => replacer_eq_instantiate ord hord M hM segs hsegs)

theorem simultaneous_good : Good simultaneousSubst :=
  good_of_instantiate _ (fun M segs hM hsegs => substScan_render M hM segs hsegs)

theorem mapGet_closed (P : Str → Prop) (hnil : P []) (M : List (Str × Str))
    (hv : ∀ e ∈ M, P e.2) (k : Str) : P (mapGet M k) := by
  induction M with
  | nil => exact hnil
  | cons x xs ih =>
    obtain ⟨k', v'⟩ := x
    simp only [mapGet]
    by_cases hx : k' = k
    · simp only [hx, if_true]
      exact hv (k', v') (List.mem_cons_self _ _)
    · simp only [hx, if_false]
      exact ih (fun e he => hv e (List.mem_cons_of_mem _ he))

theorem closed_flatten (P : Str → Prop) (hP : Closed P) (l : List Str)
    (h : ∀ x ∈ l, P x) : P l.flatten := by
  induction l with
  | nil => exact hP.1
  | cons x xs ih =>
    rw [List.flatten_cons]
    exact hP.2 _ _ (h x (List.mem_cons_self _ _))
      (ih (fun y hy => h y (List.mem_cons_of_mem _ hy)))

theorem instantiate_closed (P : Str → Prop) (hP : Closed P) (M : ReplaceMap)
    (segs : List Seg) (hl : ∀ seg ∈ segs, LitOk P seg) (hv : ∀ e ∈ M, P e.2) :
    P (instantiate M segs) := by
  unfold instantiate
  apply closed_flatten P hP
  intro x hx
  obtain ⟨seg, hseg, rfl⟩ := List.mem_map.mp hx
  have := hl seg hseg
  cases seg with
  | lit t => exact this
  | tok k => exact mapGet_closed P hP.1 M hv k

theorem cleanSubst_closed (P : Str → Prop) (hP : Closed P) (template : Str) (M : ReplaceMap)
    (hl : TemplateLits P (mapKeys M) template) (hv : ∀ e ∈ M, P e.2) :
    P (cleanSubst template M) :=
  instantiate_closed P hP M _ hl hv

theorem closed_noPercent : Closed NoPercent := by
  refine ⟨by simp [NoPercent], ?_⟩
  intro a b ha hb
  simp only [NoPercent, List.mem_append, not_or] at *
  exact ⟨ha, hb⟩

theorem templateLits_noPercent (keys : List Str) (template : Str)
    (h : TemplateOk keys template) : TemplateLits NoPercent keys template := by
  intro seg hseg
  have := h.2.2 seg hseg
  cases seg with
  | lit t => exact this
  | tok k => trivial

theorem forall_vals1 (P : Str → Prop) (k v : Str) (h : P v) :
    ∀ e ∈ [(k, v)], P e.2 := by
  intro e he
  simp only [List.mem_singleton] at he
  rw [he]
  exact h

theorem forall_vals2 (P : Str → Prop) (k₁ v₁ k₂ v₂ : Str) (h₁ : P v₁) (h₂ : P v₂) :
    ∀ e ∈ [(k₁, v₁), (k₂, v₂)], P e.2 := by
  intro e he
  rcases List.mem_cons.mp he with h | h
  · rw [h]; exact h₁
  · exact forall_vals1 P k₂ v₂ h₂ e h

theorem forall_vals3 (P : Str → Prop) (k₁ v₁ k₂ v₂ k₃ v₃ : Str) (h₁ : P v₁) (h₂ : P v₂)
    (h₃ : P v₃) : ∀ e ∈ [(k₁, v₁), (k₂, v₂), (k₃, v₃)], P e.2 := by
  intro e he
  rcases List.mem_cons.mp he with h | h
  · rw [h]; exact h₁
  · exact forall_vals2 P k₂ v₂ k₃ v₃ h₂ h₃ e h

theorem forall_vals4 (P : Str → Prop) (k₁ v₁ k₂ v₂ k₃ v₃ k₄ v₄ : Str) (h₁ : P v₁)
    (h₂ : P v₂) (h₃ : P v₃) (h₄ : P v₄) :
    ∀ e ∈ [(k₁, v₁), (k₂, v₂), (k₃, v₃), (k₄, v₄)], P e.2 := by
  intro e he
  rcases List.mem_cons.mp he with h | h
  · rw [h]; exact h₁
  · exact forall_vals3 P k₂ v₂ k₃ v₃ k₄ v₄ h₂ h₃ h₄ e h

set_option maxRecDepth 100000 in
theorem ok_HEADER : TemplateOk keysHeader HEADER := by decide

theorem ok_ENUM_TYPENAME : TemplateOk keysType ENUM_TYPENAME := by decide

theorem ok_ENUM_VALUES : TemplateOk keysCase ENUM_VALUES := by decide

set_option maxRecDepth 100000 in
theorem ok_ENUM_GETPTR : TemplateOk keysType ENUM_GETPTR := by decide

set_option maxRecDepth 100000 in
theorem ok_ASSOC_TYPE : TemplateOk keysAssoc ASSOC_TYPE := by decide

set_option maxRecDepth 100000 in
theorem plainOk_string : PlainOk stringTemplates := by decide

set_option maxRecDepth 100000 in
theorem plainOk_marshal : PlainOk marshalTemplates := by decide

set_option maxRecDepth 100000 in
theorem plainOk_getbson : PlainOk getbsonTemplates := by decide

set_option maxRecDepth 100000 in
theorem plainOk_unmarshal : PlainOk unmarshalTemplates := by decide

set_option maxRecDepth 100000 in
theorem plainOk_setbson : PlainOk setbsonTemplates := by decide

set_option maxRecDepth 100000 in
theorem assocOk_unmarshal : AssocOk assocUnmarshalTemplates := by decide

set_option maxRecDepth 100000 in
theorem assocOk_setbson : AssocOk assocSetbsonTemplates := by decide

theorem infoOk_mapGet (P : Str → Prop) (hnil : P []) (enum_info : EnumInfo)
    (h : InfoOk P enum_info) (k : Str) : P (mapGet enum_info.Variants k) :=
  mapGet_closed P hnil enum_info.Variants (fun e he => (h.1 e he).2) k

theorem infoOk_key (P : Str → Prop) (enum_info : EnumInfo) (h : InfoOk P enum_info)
    (k : Str) (hk : k ∈ mapKeys enum_info.Variants) : P k := by
  obtain ⟨v, hv⟩ := mem_of_mem_mapKeys hk
  exact (h.1 (k, v) hv).1

theorem generateEnumFunctionBy_eq (subst : Str → ReplaceMap → Str) (name : Str)
    (values : List Str) (enum_info : EnumInfo) (templates : TemplateMap) :
    generateEnumFunctionBy subst name values enum_info templates =
      subst (mapGet templates (String.toList "header")) [(String.toList "%type", name)] ++
        (values.map (fun var_name =>
          subst (mapGet templates (String.toList "case"))
            [(String.toList "%name", var_name), (String.toList "%type", name),
             (String.toList "%value", mapGet enum_info.Variants var_name)])).flatten ++
        subst (mapGet templates (String.toList "footer"))
          [(String.toList "%type", name),
           (String.toList "%defaultcode",
            match enum_info.Default with
            | some d =>
              subst (mapGet templates (String.toList "default"))
                [(String.toList "%name", d), (String.toList "%type", name),
                 (String.toList "%value", mapGet enum_info.Variants d)]
            | none => [])] := by
  unfold generateEnumFunctionBy
  simp only [List.nil_append, foldl_append_eq]

theorem defaultCode_closed (P : Str → Prop) (hP : Closed P) (name : Str)
    (enum_info : EnumInfo) (templates : TemplateMap) (hl : PlainLits P templates)
    (hname : P name) (hinfo : InfoOk P enum_info) :
    P (match enum_info.Default with
      | some d =>
        cleanSubst (mapGet templates (String.toList "default"))
          [(String.toList "%name", d), (String.toList "%type", name),
           (String.toList "%value", mapGet enum_info.Variants d)]
      | none => []) := by
  cases hd : enum_info.Default with
  | none => exact hP.1
  | some d =>
    exact cleanSubst_closed P hP _ _ hl.2.2.1
      (forall_vals3 P _ _ _ _ _ _ (hinfo.2.2 d hd) hname
        (infoOk_mapGet P hP.1 enum_info hinfo d))

theorem generateEnumFunctionBy_closed (P : Str → Prop) (hP : Closed P) (name : Str)
    (values : List Str) (enum_info : EnumInfo) (templates : TemplateMap)
    (hl : PlainLits P templates) (hname : P name) (hvals : ∀ v ∈ values, P v)
    (hinfo : InfoOk P enum_info) :
    P (generateEnumFunctionBy cleanSubst name values enum_info templates) := by
  rw [generateEnumFunctionBy_eq]
  refine hP.2 _ _ (hP.2 _ _ ?_ ?_) ?_
  · exact cleanSubst_closed P hP _ _ hl.1 (forall_vals1 P _ _ hname)
  · apply closed_flatten P hP
    intro x hx
    obtain ⟨v, hv, rfl⟩ := List.mem_map.mp hx
    exact cleanSubst_closed P hP _ _ hl.2.1
      (forall_vals3 P _ _ _ _ _ _ (hvals v hv) hname (infoOk_mapGet P hP.1 enum_info hinfo v))
  · exact cleanSubst_closed P hP _ _ hl.2.2.2
      (forall_vals2 P _ _ _ _ hname
        (defaultCode_closed P hP name enum_info templates hl hname hinfo))

theorem plainLits_noPercent (templates : TemplateMap) (h : PlainOk templates) :
    PlainLits NoPercent templates :=
  ⟨templateLits_noPercent _ _ h.1, templateLits_noPercent _ _ h.2.1,
    templateLits_noPercent _ _ h.2.2.1, templateLits_noPercent _ _ h.2.2.2⟩

theorem generateEnumFunctionBy_good (subst : Str → ReplaceMap → Str) (hs : Good subst)
    (name : Str) (values : List Str) (enum_info : EnumInfo) (templates : TemplateMap)
    (htm : PlainOk templates) (hname : NoPercent name) (hvals : ∀ v ∈ values, NoPercent v)
    (hinfo : InfoOk NoPercent enum_info) :
    generateEnumFunctionBy subst name values enum_info templates =
      generateEnumFunctionBy cleanSubst name values enum_info templates := by
  have hnil : NoPercent [] := closed_noPercent.1
  have hdef : (match enum_info.Default with
      | some d =>
        subst (mapGet templates (String.toList "default"))
          [(String.toList "%name", d), (String.toList "%type", name),
           (String.toList "%value", mapGet enum_info.Variants d)]
      | none => []) =
      (match enum_info.Default with
      | some d =>
        cleanSubst (mapGet templates (String.toList "default"))
          [(String.toList "%name", d), (String.toList "%type", name),
           (String.toList "%value", mapGet enum_info.Variants d)]
      | none => []) := by
    cases hd : enum_info.Default with
    | none => rfl
    | some d =>
      exact hs _ _ ⟨htm.2.2.1, forall_vals3 NoPercent _ _ _ _ _ _ (hinfo.2.2 d hd) hname
        (infoOk_mapGet NoPercent hnil enum_info hinfo d)⟩
  rw [generateEnumFunctionBy_eq, generateEnumFunctionBy_eq, hdef]
  have hhdr := hs (mapGet templates (String.toList "header")) [(String.toList "%type", name)]
    ⟨htm.1, forall_vals1 NoPercent _ _ hname⟩
  have hftr := hs (mapGet templates (String.toList "footer"))
    [(String.toList "%type", name),
     (String.toList "%defaultcode",
      match enum_info.Default with
      | some d =>
        cleanSubst (mapGet templates (String.toList "default"))
          [(String.toList "%name", d), (String.toList "%type", name),
           (String.toList "%value", mapGet enum_info.Variants d)]
      | none => [])]
    ⟨htm.2.2.2, forall_vals2 NoPercent _ _ _ _ hname
      (defaultCode_closed NoPercent closed_noPercent name enum_info templates
        (plainLits_noPercent templates htm) hname hinfo)⟩
  have hcases : values.map (fun var_name =>
      subst (mapGet templates (String.toList "case"))
        [(String.toList "%name", var_name), (String.toList "%type", name),
         (String.toList "%value", mapGet enum_info.Variants var_name)]) =
      values.map (fun var_name =>
      cleanSubst (mapGet templates (String.toList "case"))
        [(String.toList "%name", var_name), (String.toList "%type", name),
         (String.toList "%value", mapGet enum_info.Variants var_name)]) := by
    apply List.map_congr_left
    intro v hv
    exact hs _ _ ⟨htm.2.1, forall_vals3 NoPercent _ _ _ _ _ _ (hvals v hv) hname
      (infoOk_mapGet NoPercent hnil enum_info hinfo v)⟩
  rw [hhdr, hftr, hcases]

theorem generateEnumTypeBy_eq (subst : Str → ReplaceMap → Str) (enum_name : Str)
    (enum_info : EnumInfo) (enable_json enable_bson : Bool) :
    generateEnumTypeBy subst enum_name enum_info enable_json enable_bson =
      generateEnumTypeNameBy subst enum_name ++
      ((sortStrings (mapKeys enum_info.Variants)).map (fun n =>
        generateEnumValuesBy subst enum_name n (mapGet enum_info.Variants n))).flatten ++
      generateEnumGetPtrBy subst enum_name ++
      generateEnumFunctionBy subst enum_name (sortStrings (mapKeys enum_info.Variants))
        enum_info stringTemplates ++
      (if enable_json then
        generateEnumFunctionBy subst enum_name (sortStrings (mapKeys enum_info.Variants))
          enum_info marshalTemplates else []) ++
      (if enable_bson then
        generateEnumFunctionBy subst enum_name (sortStrings (mapKeys enum_info.Variants))
          enum_info getbsonTemplates else []) ++
      (if enable_json then
        generateEnumFunctionBy subst enum_name (sortStrings (mapKeys enum_info.Variants))
          enum_info unmarshalTemplates else []) ++
      (if enable_bson then
        generateEnumFunctionBy subst enum_name (sortStrings (mapKeys enum_info.Variants))
          enum_info setbsonTemplates else []) := by
  unfold generateEnumTypeBy
  simp only [foldl_keys_eq, foldl_append_eq, List.nil_append]
  cases enable_json <;> cases enable_bson <;> simp [List.append_assoc]

theorem sorted_keys_ok (P : Str → Prop) (enum_info : EnumInfo) (hinfo : InfoOk P enum_info) :
    ∀ v ∈ sortStrings (mapKeys enum_info.Variants), P v :=
  fun v hv => infoOk_key P enum_info hinfo v ((sortStrings_perm _).mem_iff.mp hv)

theorem closed_ite (P : Str → Prop) (hP : Closed P) (c : Bool) (t : Str) (h : P t) :
    P (if c then t else []) := by
  cases c
  · exact hP.1
  · exact h

theorem generateEnumTypeBy_closed (P : Str → Prop) (hP : Closed P) (enum_name : Str)
    (enum_info : EnumInfo) (enable_json enable_bson : Bool) (hl : PlainBlockLits P)
    (hname : P enum_name) (hinfo : InfoOk P enum_info) :
    P (generateEnumTypeBy cleanSubst enum_name enum_info enable_json enable_bson) := by
  have hvals := sorted_keys_ok P enum_info hinfo
  obtain ⟨l1, l2, l3, l4, l5, l6, l7, l8⟩ := hl
  rw [generateEnumTypeBy_eq]
  refine hP.2 _ _ (hP.2 _ _ (hP.2 _ _ (hP.2 _ _ (hP.2 _ _ (hP.2 _ _ (hP.2 _ _ ?_ ?_) ?_)
    ?_) ?_) ?_) ?_) ?_
  · exact cleanSubst_closed P hP _ _ l1 (forall_vals1 P _ _ hname)
  · apply closed_flatten P hP
    intro x hx
    obtain ⟨v, hv, rfl⟩ := List.mem_map.mp hx
    exact cleanSubst_closed P hP _ _ l2
      (forall_vals3 P _ _ _ _ _ _ (hvals v hv) hname (infoOk_mapGet P hP.1 enum_info hinfo v))
  · exact cleanSubst_closed P hP _ _ l3 (forall_vals1 P _ _ hname)
  · exact generateEnumFunctionBy_closed P hP _ _ _ _ l4 hname hvals hinfo
  · exact closed_ite P hP _ _ (generateEnumFunctionBy_closed P hP _ _ _ _ l5 hname hvals hinfo)
  · exact closed_ite P hP _ _ (generateEnumFunctionBy_closed P hP _ _ _ _ l6 hname hvals hinfo)
  · exact closed_ite P hP _ _ (generateEnumFunctionBy_closed P hP _ _ _ _ l7 hname hvals hinfo)
  · exact closed_ite P hP _ _ (generateEnumFunctionBy_closed P hP _ _ _ _ l8 hname hvals hinfo)

theorem generateEnumTypeBy_good (subst : Str → ReplaceMap → Str) (hs : Good subst)
    (enum_name : Str) (enum_info : EnumInfo) (enable_json enable_bson : Bool)
    (hname : NoPercent enum_name) (hinfo : InfoOk NoPercent enum_info) :
    generateEnumTypeBy subst enum_name enum_info enable_json enable_bson =
      generateEnumTypeBy cleanSubst enum_name enum_info enable_json enable_bson := by
  have hvals := sorted_keys_ok NoPercent enum_info hinfo
  have hnil : NoPercent [] := closed_noPercent.1
  have h1 : generateEnumTypeNameBy subst enum_name = generateEnumTypeNameBy cleanSubst enum_name :=
    hs _ _ ⟨ok_ENUM_TYPENAME, forall_vals1 NoPercent _ _ hname⟩
  have h3 : generateEnumGetPtrBy subst enum_name = generateEnumGetPtrBy cleanSubst enum_name :=
    hs _ _ ⟨ok_ENUM_GETPTR, forall_vals1 NoPercent _ _ hname⟩
  have h2 : (sortStrings (mapKeys enum_info.Variants)).map (fun n =>
        generateEnumValuesBy subst enum_name n (mapGet enum_info.Variants n)) =
      (sortStrings (mapKeys enum_info.Variants)).map (fun n =>
        generateEnumValuesBy cleanSubst enum_name n (mapGet enum_info.Variants n)) := by
    apply List.map_congr_left
    intro v hv
    exact hs _ _ ⟨ok_ENUM_VALUES, forall_vals3 NoPercent _ _ _ _ _ _ (hvals v hv) hname
      (infoOk_mapGet NoPercent hnil enum_info hinfo v)⟩
  have hf : ∀ templates, PlainOk templates →
      generateEnumFunctionBy subst enum_name (sortStrings (mapKeys enum_info.Variants))
        enum_info templates =
      generateEnumFunctionBy cleanSubst enum_name (sortStrings (mapKeys enum_info.Variants))
        enum_info templates :=
    fun templates htm =>
      generateEnumFunctionBy_good subst hs enum_name _ enum_info templates htm hname hvals hinfo
  rw [generateEnumTypeBy_eq, generateEnumTypeBy_eq, h1, h2, h3, hf _ plainOk_string,
    hf _ plainOk_marshal, hf _ plainOk_getbson, hf _ plainOk_unmarshal, hf _ plainOk_setbson]

theorem generateAssocEnumFunctionBy_eq (subst : Str → ReplaceMap → Str) (name : Str)
    (values : List Str) (enum_info : EnumInfo) (templates : TemplateMap) (constr : Str)
    (hc : enum_info.Constraint = some constr) :
    generateAssocEnumFunctionBy subst name values enum_info templates =
      some (assocFunctionText subst name values enum_info constr templates) := by
  unfold generateAssocEnumFunctionBy assocFunctionText
  rw [hc]
  simp only [List.nil_append]
  have hbody : (fun (code : Str) (var_name : Str) =>
      if mapGet enum_info.Variants var_name = String.toList "null" then
        code ++ subst (mapGet templates (String.toList "case_null"))
          [(String.toList "%name", var_name), (String.toList "%type", name),
           (String.toList "%value", mapGet enum_info.Variants var_name),
           (String.toList "%constr", constr)]
      else
        code ++ subst (mapGet templates (String.toList "case"))
          [(String.toList "%name", var_name), (String.toList "%type", name),
           (String.toList "%value", mapGet enum_info.Variants var_name),
           (String.toList "%constr", constr)]) =
      (fun (code : Str) (var_name : Str) => code ++
        subst
          (mapGet templates
            (if mapGet enum_info.Variants var_name = String.toList "null"
              then String.toList "case_null" else String.toList "case"))
          [(String.toList "%name", var_name), (String.toList "%type", name),
           (String.toList "%value", mapGet enum_info.Variants var_name),
           (String.toList "%constr", constr)]) := by
    funext code var_name
    split <;> rfl
  rw [hbody, foldl_append_eq]

theorem generateAssocEnumTypeBy_eq (subst : Str → ReplaceMap → Str) (enum_name : Str)
    (enum_info : EnumInfo) (enable_json enable_bson : Bool) (constr : Str)
    (hc : enum_info.Constraint = some constr) :
    generateAssocEnumTypeBy subst enum_name enum_info enable_json enable_bson =
      some (generateAssocEnumTypeNameBy subst enum_name constr ++
        (if enable_json then
          assocFunctionText subst enum_name (sortStrings (mapKeys enum_info.Variants))
            enum_info constr assocUnmarshalTemplates else []) ++
        (if enable_bson then
          assocFunctionText subst enum_name (sortStrings (mapKeys enum_info.Variants))
            enum_info constr assocSetbsonTemplates else [])) := by
  unfold generateAssocEnumTypeBy
  rw [hc]
  simp only [foldl_keys_eq, List.nil_append,
    generateAssocEnumFunctionBy_eq subst enum_name _ enum_info _ constr hc]
  cases enable_json <;> cases enable_bson <;> simp [List.append_assoc]

theorem assocCase_template_ok (templates : TemplateMap) (htm : AssocOk templates) (v : Str) :
    TemplateOk keysAssocCase
      (mapGet templates
        (if v = String.toList "null" then String.toList "case_null"
          else String.toList "case")) := by
  by_cases h : v = String.toList "null"
  · simp only [h, if_true]
    exact htm.2.1
  · simp only [h, if_false]
    exact htm.2.2.1

theorem assocCase_template_lits (P : Str → Prop) (templates : TemplateMap)
    (hl : AssocLits P templates) (v : Str) :
    TemplateLits P keysAssocCase
      (mapGet templates
        (if v = String.toList "null" then String.toList "case_null"
          else String.toList "case")) := by
  by_cases h : v = String.toList "null"
  · simp only [h, if_true]
    exact hl.2.1
  · simp only [h, if_false]
    exact hl.2.2.1

theorem assocFunctionText_closed (P : Str → Prop) (hP : Closed P) (name : Str)
    (values : List Str) (enum_info : EnumInfo) (constr : Str) (templates : TemplateMap)
    (hl : AssocLits P templates) (hname : P name) (hconstr : P constr)
    (hvals : ∀ v ∈ values, P v) (hinfo : InfoOk P enum_info) :
    P (assocFunctionText cleanSubst name values enum_info constr templates) := by
  unfold assocFunctionText
  refine hP.2 _ _ (hP.2 _ _ ?_ ?_) ?_
  · exact cleanSubst_closed P hP _ _ hl.1 (forall_vals2 P _ _ _ _ hname hconstr)
  · apply closed_flatten P hP
    intro x hx
    obtain ⟨v, hv, rfl⟩ := List.mem_map.mp hx
    exact cleanSubst_closed P hP _ _ (assocCase_template_lits P templates hl _)
      (forall_vals4 P _ _ _ _ _ _ _ _ (hvals v hv) hname
        (infoOk_mapGet P hP.1 enum_info hinfo v) hconstr)
  · exact cleanSubst_closed P hP _ _ hl.2.2.2 (forall_vals1 P _ _ hname)

theorem assocFunctionText_good (subst : Str → ReplaceMap → Str) (hs : Good subst)
    (name : Str) (values : List Str) (enum_info : EnumInfo) (constr : Str)
    (templates : TemplateMap) (htm : AssocOk templates) (hname : NoPercent name)
    (hconstr : NoPercent constr) (hvals : ∀ v ∈ values, NoPercent v)
    (hinfo : InfoOk NoPercent enum_info) :
    assocFunctionText subst name values enum_info constr templates =
      assocFunctionText cleanSubst name values enum_info constr templates := by
  have hnil : NoPercent [] := closed_noPercent.1
  unfold assocFunctionText
  have hhdr := hs (mapGet templates (String.toList "header"))
    [(String.toList "%type", name), (String.toList "%constr", constr)]
    ⟨htm.1, forall_vals2 NoPercent _ _ _ _ hname hconstr⟩
  have hftr := hs (mapGet templates (String.toList "footer")) [(String.toList "%type", name)]
    ⟨htm.2.2.2, forall_vals1 NoPercent _ _ hname⟩
  have hcases : values.map (fun var_name =>
      subst
        (mapGet templates
          (if mapGet enum_info.Variants var_name = String.toList "null"
            then String.toList "case_null" else String.toList "case"))
        [(String.toList "%name", var_name), (String.toList "%type", name),
         (String.toList "%value", mapGet enum_info.Variants var_name),
         (String.toList "%constr", constr)]) =
      values.map (fun var_name =>
      cleanSubst
        (mapGet templates
          (if mapGet enum_info.Variants var_name = String.toList "null"
            then String.toList "case_null" else String.toList "case"))
        [(String.toList "%name", var_name), (String.toList "%type", name),
         (String.toList "%value", mapGet enum_info.Variants var_name),
         (String.toList "%constr", constr)]) := by
    apply List.map_congr_left
    intro v hv
    exact hs _ _ ⟨assocCase_template_ok templates htm _,
      forall_vals4 NoPercent _ _ _ _ _ _ _ _ (hvals v hv) hname
        (infoOk_mapGet NoPercent hnil enum_info hinfo v) hconstr⟩
  rw [hhdr, hftr, hcases]

theorem generateAssocEnumTypeBy_closed (P : Str → Prop) (hP : Closed P) (enum_name : Str)
    (enum_info : EnumInfo) (enable_json enable_bson : Bool) (hl : AssocBlockLits P)
    (hname : P enum_name) (hinfo : InfoOk P enum_info) (text : Str)
    (h : generateAssocEnumTypeBy cleanSubst enum_name enum_info enable_json enable_bson =
      some text) : P text := by
  cases hc : enum_info.Constraint with
  | none =>
    unfold generateAssocEnumTypeBy at h
    simp only [hc] at h
    cases h
  | some constr =>
    have hconstr : P constr := hinfo.2.1 constr hc
    have hvals := sorted_keys_ok P enum_info hinfo
    rw [generateAssocEnumTypeBy_eq cleanSubst enum_name enum_info enable_json enable_bson
      constr hc] at h
    cases h
    refine hP.2 _ _ (hP.2 _ _ ?_ ?_) ?_
    · exact cleanSubst_closed P hP _ _ hl.1 (forall_vals2 P _ _ _ _ hname hconstr)
    · exact closed_ite P hP _ _
        (assocFunctionText_closed P hP _ _ _ _ _ hl.2.1 hname hconstr hvals hinfo)
    · exact closed_ite P hP _ _
        (assocFunctionText_closed P hP _ _ _ _ _ hl.2.2 hname hconstr hvals hinfo)

theorem generateAssocEnumTypeBy_good (subst : Str → ReplaceMap → Str) (hs : Good subst)
    (enum_name : Str) (enum_info : EnumInfo) (enable_json enable_bson : Bool)
    (hname : NoPercent enum_name) (hinfo : InfoOk NoPercent enum_info) :
    generateAssocEnumTypeBy subst enum_name enum_info enable_json enable_bson =
      generateAssocEnumTypeBy cleanSubst enum_name enum_info enable_json enable_bson := by
  cases hc : enum_info.Constraint with
  | none =>
    unfold generateAssocEnumTypeBy
    simp only [hc]
  | some constr =>
    have hconstr : NoPercent constr := hinfo.2.1 constr hc
    have hvals := sorted_keys_ok NoPercent enum_info hinfo
    have h1 : generateAssocEnumTypeNameBy subst enum_name constr =
        generateAssocEnumTypeNameBy cleanSubst enum_name constr :=
      hs _ _ ⟨ok_ASSOC_TYPE, forall_vals2 NoPercent _ _ _ _ hname hconstr⟩
    rw [generateAssocEnumTypeBy_eq subst enum_name enum_info enable_json enable_bson constr hc,
      generateAssocEnumTypeBy_eq cleanSubst enum_name enum_info enable_json enable_bson
        constr hc, h1,
      assocFunctionText_good subst hs enum_name _ enum_info constr _ assocOk_unmarshal hname
        hconstr hvals hinfo,
      assocFunctionText_good subst hs enum_name _ enum_info constr _ assocOk_setbson hname
        hconstr hvals hinfo]

theorem stringsJoin_closed (P : Str → Prop) (hP : Closed P) (sep : Str) (hsep : P sep) :
    ∀ l : List Str, (∀ x ∈ l, P x) → P (stringsJoin l sep)
  | [], _ => hP.1
  | [a], h => h a (List.mem_cons_self _ _)
  | a :: b :: rest, h => by
    simp only [stringsJoin]
    exact hP.2 _ _ (hP.2 _ _ (h a (List.mem_cons_self _ _)) hsep)
      (stringsJoin_closed P hP sep hsep (b :: rest)
        (fun x hx => h x (List.mem_cons_of_mem _ hx)))

theorem generateHeaderBy_eq (subst : Str → ReplaceMap → Str) (pkgname : Str)
    (enable_json enable_bson has_assoc : Bool) :
    generateHeaderBy subst pkgname enable_json enable_bson has_assoc =
      subst HEADER
        [(String.toList "%packages",
          stringsJoin
            ((if enable_json then [String.toList "\"encoding/json\""] else []) ++
             (if enable_bson then [String.toList "\"gopkg.in/mgo.v2/bson\""] else []) ++
             (if has_assoc && (enable_bson || enable_json) then [String.toList "\"bytes\""]
              else []))
            (String.toList "\n")),
         (String.toList "%pkgname", pkgname)] := by
  cases enable_json <;> cases enable_bson <;> cases has_assoc <;> rfl

theorem packages_closed (P : Str → Prop) (hP : Closed P) (hl : HeaderLits P)
    (enable_json enable_bson has_assoc : Bool) :
    P (stringsJoin
      ((if enable_json then [String.toList "\"encoding/json\""] else []) ++
       (if enable_bson then [String.toList "\"gopkg.in/mgo.v2/bson\""] else []) ++
       (if has_assoc && (enable_bson || enable_json) then [String.toList "\"bytes\""]
        else []))
      (String.toList "\n")) := by
  apply stringsJoin_closed P hP _ hl.2.2.2.2
  intro x hx
  simp only [List.mem_append] at hx
  rcases hx with (hx | hx) | hx
  · split at hx
    · rw [List.mem_singleton.mp hx]; exact hl.2.1
    · cases hx
  · split at hx
    · rw [List.mem_singleton.mp hx]; exact hl.2.2.1
    · cases hx
  · split at hx
    · rw [List.mem_singleton.mp hx]; exact hl.2.2.2.1
    · cases hx

theorem headerLits_noPercent : HeaderLits NoPercent := by decide

theorem generateHeaderBy_closed (P : Str → Prop) (hP : Closed P) (hl : HeaderLits P)
    (pkgname : Str) (hpkg : P pkgname) (enable_json enable_bson has_assoc : Bool) :
    P (generateHeaderBy cleanSubst pkgname enable_json enable_bson has_assoc) := by
  rw [generateHeaderBy_eq]
  exact cleanSubst_closed P hP _ _ hl.1
    (forall_vals2 P _ _ _ _ (packages_closed P hP hl enable_json enable_bson has_assoc) hpkg)

theorem generateHeaderBy_good (subst : Str → ReplaceMap → Str) (hs : Good subst)
    (pkgname : Str) (hpkg : NoPercent pkgname) (enable_json enable_bson has_assoc : Bool) :
    generateHeaderBy subst pkgname enable_json enable_bson has_assoc =
      generateHeaderBy cleanSubst pkgname enable_json enable_bson has_assoc := by
  rw [generateHeaderBy_eq, generateHeaderBy_eq]
  exact hs _ _ ⟨ok_HEADER, forall_vals2 NoPercent _ _ _ _
    (packages_closed NoPercent closed_noPercent headerLits_noPercent enable_json enable_bson
      has_assoc) hpkg⟩

theorem enumGet_ok (P : Str → Prop) (m : EnumTypeMap) (h : SchemaOk P m) (n : Str)
    (hn : n ∈ mapKeys m) : P n ∧ InfoOk P (enumGet m n) := by
  induction m with
  | nil => simp [mapKeys] at hn
  | cons x xs ih =>
    obtain ⟨k, info⟩ := x
    simp only [enumGet]
    by_cases hk : k = n
    · simp only [hk, if_true]
      have := h (k, info) (List.mem_cons_self _ _)
      rw [hk] at this
      exact this
    · simp only [hk, if_false]
      have hn' : n ∈ mapKeys xs := by
        simp only [mapKeys, List.map_cons, List.mem_cons] at hn
        rcases hn with e | e
        · exact absurd e.symm hk
        · exact e
      exact ih (fun e he => h e (List.mem_cons_of_mem _ he)) hn'

theorem foldl_congr_mem {α β : Type} (f g : β → α → β) (l : List α)
    (h : ∀ acc, ∀ x ∈ l, f acc x = g acc x) (a : β) : l.foldl f a = l.foldl g a := by
  induction l generalizing a with
  | nil => rfl
  | cons x xs ih =>
    simp only [List.foldl_cons]
    rw [h a x (List.mem_cons_self _ _)]
    exact ih (fun acc y hy => h acc y (List.mem_cons_of_mem _ hy)) _

theorem generateEnumCodeBy_unfold (subst : Str → ReplaceMap → Str) (m : EnumTypeMap)
    (pkg : Str) (enable_json enable_bson : Bool) :
    generateEnumCodeBy subst m pkg enable_json enable_bson =
      (sortStrings (mapKeys m)).foldl (fun code enum_name =>
        code.bind (fun code =>
          if (enumGet m enum_name).Constraint = none then
            some (code ++ generateEnumTypeBy subst enum_name (enumGet m enum_name)
              enable_json enable_bson)
          else
            (generateAssocEnumTypeBy subst enum_name (enumGet m enum_name)
              enable_json enable_bson).map (fun b => code ++ b)))
        (some (generateHeaderBy subst pkg enable_json enable_bson
          (m.any (fun kv => decide (kv.2.Constraint ≠ none))))) := by
  unfold generateEnumCodeBy
  simp only [scan_fold_eq, List.nil_append, Bool.false_or]

theorem generateEnumCodeBy_good (subst : Str → ReplaceMap → Str) (hs : Good subst)
    (m : EnumTypeMap) (pkg : Str) (enable_json enable_bson : Bool)
    (hm : SchemaOk NoPercent m) (hpkg : NoPercent pkg) :
    generateEnumCodeBy subst m pkg enable_json enable_bson =
      generateEnumCodeBy cleanSubst m pkg enable_json enable_bson := by
  rw [generateEnumCodeBy_unfold, generateEnumCodeBy_unfold,
    generateHeaderBy_good subst hs pkg hpkg]
  apply foldl_congr_mem
  intro acc n hn
  obtain ⟨hname, hinfo⟩ := enumGet_ok NoPercent m hm n ((sortStrings_perm _).mem_iff.mp hn)
  rw [generateEnumTypeBy_good subst hs n (enumGet m n) enable_json enable_bson hname hinfo,
    generateAssocEnumTypeBy_good subst hs n (enumGet m n) enable_json enable_bson hname hinfo]

theorem emitBy_closed (P : Str → Prop) (hP : Closed P) (hpl : PlainBlockLits P)
    (hal : AssocBlockLits P) (m : EnumTypeMap) (enable_json enable_bson : Bool)
    (names : List Str) (hnames : ∀ n ∈ names, P n ∧ InfoOk P (enumGet m n)) :
    ∀ (acc : Option Str), (∀ t, acc = some t → P t) →
      ∀ t, names.foldl (fun code enum_name =>
        code.bind (fun code =>
          if (enumGet m enum_name).Constraint = none then
            some (code ++ generateEnumTypeBy cleanSubst enum_name (enumGet m enum_name)
              enable_json enable_bson)
          else
            (generateAssocEnumTypeBy cleanSubst enum_name (enumGet m enum_name)
              enable_json enable_bson).map (fun b => code ++ b))) acc = some t → P t := by
  induction names with
  | nil =>
    intro acc hacc t ht
    exact hacc t ht
  | cons n ns ih =>
    intro acc hacc t ht
    rw [List.foldl_cons] at ht
    refine ih (fun x hx => hnames x (List.mem_cons_of_mem _ hx)) _ ?_ t ht
    obtain ⟨hname, hinfo⟩ := hnames n (List.mem_cons_self _ _)
    intro t' ht'
    cases acc with
    | none => cases ht'
    | some code =>
      have hcode := hacc code rfl
      simp only [Option.some_bind] at ht'
      by_cases hc : (enumGet m n).Constraint = none
      · simp only [hc, if_true, Option.some.injEq] at ht'
        rw [← ht']
        exact hP.2 _ _ hcode
          (generateEnumTypeBy_closed P hP n _ enable_json enable_bson hpl hname hinfo)
      · simp only [hc, if_false] at ht'
        cases hblk : generateAssocEnumTypeBy cleanSubst n (enumGet m n) enable_json
            enable_bson with
        | none => rw [hblk] at ht'; cases ht'
        | some blk =>
          rw [hblk] at ht'
          simp only [Option.map_some', Option.some.injEq] at ht'
          rw [← ht']
          exact hP.2 _ _ hcode
            (generateAssocEnumTypeBy_closed P hP n _ enable_json enable_bson hal hname hinfo
              blk hblk)

theorem generateEnumCodeBy_closed (P : Str → Prop) (hP : Closed P) (hhl : HeaderLits P)
    (hpl : PlainBlockLits P) (hal : AssocBlockLits P) (m : EnumTypeMap) (pkg : Str)
    (enable_json enable_bson : Bool) (hm : SchemaOk P m) (hpkg : P pkg) (text : Str)
    (h : generateEnumCodeBy cleanSubst m pkg enable_json enable_bson = some text) :
    P text := by
  rw [generateEnumCodeBy_unfold] at h
  refine emitBy_closed P hP hpl hal m enable_json enable_bson _
    (fun n hn => enumGet_ok P m hm n ((sortStrings_perm _).mem_iff.mp hn)) _ ?_ text h
  intro t ht
  cases ht
  exact generateHeaderBy_closed P hP hhl pkg hpkg _ _ _

set_option maxRecDepth 100000 in
theorem plainBlockLits_noPercent : PlainBlockLits NoPercent := by decide

set_option maxRecDepth 100000 in
theorem assocBlockLits_noPercent : AssocBlockLits NoPercent := by decide

/-- C16: on a schema and a package name without `%`, `generateEnumCode` returns the same
text for every two orders in which `replacer` may visit its maps, and this text is the one
produced when every call of `replacer` is replaced by the one-pass simultaneous
substitution; more generally, every call whose template fits the tokens of its map and
whose values have no `%` (as all calls made on such a schema are) returns the same string
in every order, the simultaneous substitution of the template. -/
theorem generateEnumCode_order_independent (ord₁ ord₂ : ReplaceMap → ReplaceMap)
    (hord₁ : IsOrder ord₁) (hord₂ : IsOrder ord₂) (m : EnumTypeMap) (pkg : Str)
    (enable_json enable_bson : Bool) (hm : SchemaOk NoPercent m) (hpkg : NoPercent pkg) :
    generateEnumCode ord₁ m pkg enable_json enable_bson =
      generateEnumCode ord₂ m pkg enable_json enable_bson ∧
    generateEnumCode ord₁ m pkg enable_json enable_bson =
      generateEnumCodeBy simultaneousSubst m pkg enable_json enable_bson ∧
    (∀ template replaces, CallOk template replaces →
      replacer ord₁ template replaces = replacer ord₂ template replaces ∧
      replacer ord₁ template replaces = simultaneousSubst template replaces) := by
  have h1 := generateEnumCodeBy_good (replacer ord₁) (replacer_good ord₁ hord₁) m pkg
    enable_json enable_bson hm hpkg
  have h2 := generateEnumCodeBy_good (replacer ord₂) (replacer_good ord₂ hord₂) m pkg
    enable_json enable_bson hm hpkg
  have h3 := generateEnumCodeBy_good simultaneousSubst simultaneous_good m pkg
    enable_json enable_bson hm hpkg
  refine ⟨?_, ?_, ?_⟩
  · rw [generateEnumCode_by, generateEnumCode_by, h1, h2]
  · rw [generateEnumCode_by, h1, h3]
  · intro template replaces hcall
    have c1 := replacer_good ord₁ hord₁ template replaces hcall
    have c2 := replacer_good ord₂ hord₂ template replaces hcall
    have c3 := simultaneous_good template replaces hcall
    exact ⟨c1.trans c2.symm, c1.trans c3.symm⟩

set_option maxRecDepth 100000 in
/-- Witness of C16 on a schema with a plain enum and a tagged union, for the two orders
`ordId` and `ordRev`. -/
theorem generateEnumCode_order_independent_witness :
    IsOrder ordId ∧ IsOrder ordRev ∧ SchemaOk NoPercent sampleSchema ∧
    NoPercent (String.toList "main") ∧
    generateEnumCode ordId sampleSchema (String.toList "main") true true =
      generateEnumCode ordRev sampleSchema (String.toList "main") true true :=
  ⟨isOrder_ordId, isOrder_ordRev, by decide, by decide,
    (generateEnumCode_order_independent ordId ordRev isOrder_ordId isOrder_ordRev sampleSchema
      (String.toList "main") true true (by decide) (by decide)).1⟩

/-- C17: on a schema and a package name without `%`, the text returned by
`generateEnumCode` contains no `%`; every template fits the tokens of the map it is
substituted with, that is, each `%` of a template starts a token for which the call
supplies a replacement. -/
theorem generateEnumCode_no_percent (ord : ReplaceMap → ReplaceMap) (hord : IsOrder ord)
    (m : EnumTypeMap) (pkg : Str) (enable_json enable_bson : Bool)
    (hm : SchemaOk NoPercent m) (hpkg : NoPercent pkg) :
    (∃ text, generateEnumCode ord m pkg enable_json enable_bson = some text ∧ '%' ∉ text) ∧
    TemplateOk keysHeader HEADER ∧ TemplateOk keysType ENUM_TYPENAME ∧
    TemplateOk keysCase ENUM_VALUES ∧ TemplateOk keysType ENUM_GETPTR ∧
    PlainOk stringTemplates ∧ PlainOk marshalTemplates ∧ PlainOk getbsonTemplates ∧
    PlainOk unmarshalTemplates ∧ PlainOk setbsonTemplates ∧
    TemplateOk keysAssoc ASSOC_TYPE ∧ AssocOk assocUnmarshalTemplates ∧
    AssocOk assocSetbsonTemplates := by
  refine ⟨?_, ok_HEADER, ok_ENUM_TYPENAME, ok_ENUM_VALUES, ok_ENUM_GETPTR, plainOk_string,
    plainOk_marshal, plainOk_getbson, plainOk_unmarshal, plainOk_setbson, ok_ASSOC_TYPE,
    assocOk_unmarshal, assocOk_setbson⟩
  obtain ⟨blocks, hblocks⟩ :=
    blocks_exist ord m enable_json enable_bson (sortStrings (mapKeys m))
  have hsome := generateEnumCode_eq ord m pkg enable_json enable_bson blocks hblocks
  refine ⟨_, hsome, ?_⟩
  have hgood := generateEnumCodeBy_good (replacer ord) (replacer_good ord hord) m pkg
    enable_json enable_bson hm hpkg
  rw [generateEnumCode_by, hgood] at hsome
  exact generateEnumCodeBy_closed NoPercent closed_noPercent headerLits_noPercent
    plainBlockLits_noPercent assocBlockLits_noPercent m pkg enable_json enable_bson hm hpkg
    _ hsome

set_option maxRecDepth 100000 in
/-- Witness of C17 on a schema with a plain enum and a tagged union. -/
theorem generateEnumCode_no_percent_witness :
    IsOrder ordRev ∧ SchemaOk NoPercent sampleSchema ∧ NoPercent (String.toList "main") ∧
    ∃ text, generateEnumCode ordRev sampleSchema (String.toList "main") true true = some text ∧
      '%' ∉ text :=
  ⟨isOrder_ordRev, by decide, by decide,
    (generateEnumCode_no_percent ordRev isOrder_ordRev sampleSchema (String.toList "main")
      true true (by decide) (by decide)).1⟩

/-! ## Emitted functions of a plain enum

The results of this section are stated for enums whose strings hold no `%`: there every
call of `replacer` returns, in every order, the template with the values of its map in
place of the tokens, so that each emitted case is the case template with the name and the
literal of its variant pasted in. -/

theorem generateEnumType_clean (ord : ReplaceMap → ReplaceMap) (hord : IsOrder ord)
    (enum_name : Str) (enum_info : EnumInfo) (enable_json enable_bson : Bool)
    (hname : NoPercent enum_name) (hinfo : InfoOk NoPercent enum_info) :
    generateEnumType ord enum_name enum_info enable_json enable_bson =
      generateEnumTypeBy cleanSubst enum_name enum_info enable_json enable_bson := by
  rw [generateEnumType_by]
  exact generateEnumTypeBy_good (replacer ord) (replacer_good ord hord) enum_name enum_info
    enable_json enable_bson hname hinfo

/-- C2: for a plain enum whose name, variant names and literals hold no `%` and whose
literals are bodies of Go string literals, the block that `generateEnumType` returns is,
in every order, the templates with the strings of the schema in place of the tokens; and
for every variant `n` and each backend: the constant of `n` has the value `v` that the
literal of `n` denotes, the emitted encoder returns `v` for that constant, and the emitted
decoder applied to `v` assigns a constant whose value is again `v`:
`decode(encode(V)) == V`.  When no other variant denotes the same string the assigned
constant is the constant of `n` itself. -/
theorem emitted_roundtrip (backend : Backend) (enum_name : Str) (enum_info : EnumInfo)
    (hname : NoPercent enum_name) (hinfo : InfoOk NoPercent enum_info)
    (hlit : LiteralsOk enum_info) (n : Str) (hn : n ∈ mapKeys enum_info.Variants) :
    (∀ ord, IsOrder ord → ∀ enable_json enable_bson,
      generateEnumType ord enum_name enum_info enable_json enable_bson =
        generateEnumTypeBy cleanSubst enum_name enum_info enable_json enable_bson) ∧
    ∃ v : Str, goStringLit (mapGet enum_info.Variants n) = some v ∧
      constValue (enumConsts enum_name (sortStrings (mapKeys enum_info.Variants)) enum_info)
        (enum_name ++ n) = some v ∧
      emittedEncoder backend enum_name enum_info v = Outcome.ok v ∧
      ∃ ident : Str,
        emittedDecoder backend enum_name enum_info v = Outcome.ok ident ∧
        constValue (enumConsts enum_name (sortStrings (mapKeys enum_info.Variants)) enum_info)
          ident = some v ∧
        ((∀ n' ∈ mapKeys enum_info.Variants,
            goStringLit (mapGet enum_info.Variants n') = some v → n' = n) →
          ident = enum_name ++ n) := by
  have hs : n ∈ sortStrings (mapKeys enum_info.Variants) :=
    (sortStrings_perm _).mem_iff.mpr hn
  have hall : ∀ k ∈ sortStrings (mapKeys enum_info.Variants),
      ∃ v, goStringLit (mapGet enum_info.Variants k) = some v :=
    fun k hk => literalsOk_value enum_info hlit k ((sortStrings_perm _).mem_iff.mp hk)
  obtain ⟨v, hv⟩ := literalsOk_value enum_info hlit n hn
  refine ⟨fun ord hord j b => generateEnumType_clean ord hord enum_name enum_info j b hname hinfo,
    v, hv, constValue_enumConsts _ _ _ n hs v hv,
    runGetter_ok_of_mem _ _ _ hall n hs v hv, ?_⟩
  obtain ⟨n', hn', hv', hrun⟩ := runSetter_ok_of_mem enum_name enum_info _ v n hs hv
  refine ⟨enum_name ++ n', hrun, constValue_enumConsts _ _ _ n' hn' v hv', ?_⟩
  intro hinj
  rw [hinj n' ((sortStrings_perm _).mem_iff.mp hn') hv']

/-- Witness of C2 on the variant `A` of the enum `Esc`, whose literal `a\n` denotes `a`
followed by a line feed. -/
theorem emitted_roundtrip_witness :
    NoPercent (String.toList "Esc") ∧ InfoOk NoPercent escInfo ∧
    LiteralsOk escInfo ∧ String.toList "A" ∈ mapKeys escInfo.Variants ∧
    emittedDecoder Backend.json (String.toList "Esc") escInfo (String.toList "a\n") =
      Outcome.ok (String.toList "EscA") ∧
    ∃ v : Str, goStringLit (mapGet escInfo.Variants (String.toList "A")) = some v ∧
      constValue (enumConsts (String.toList "Esc") (sortStrings (mapKeys escInfo.Variants))
        escInfo) (String.toList "Esc" ++ String.toList "A") = some v ∧
      emittedEncoder Backend.json (String.toList "Esc") escInfo v = Outcome.ok v ∧
      ∃ ident : Str,
        emittedDecoder Backend.json (String.toList "Esc") escInfo v = Outcome.ok ident ∧
        constValue (enumConsts (String.toList "Esc") (sortStrings (mapKeys escInfo.Variants))
          escInfo) ident = some v ∧
        ((∀ n' ∈ mapKeys escInfo.Variants,
            goStringLit (mapGet escInfo.Variants n') = some v → n' = String.toList "A") →
          ident = String.toList "Esc" ++ String.toList "A") :=
  ⟨by decide, by decide, by decide, by decide, by decide,
    (emitted_roundtrip Backend.json (String.toList "Esc") escInfo (by decide) (by decide)
      (by decide) (String.toList "A") (by decide)).2⟩

/-- C3 (as stated) fails: the enum below declares the default `A`, yet the decoder applied
to the empty string assigns the constant of the variant `None`, whose literal is empty. -/
theorem emittedDecoder_default_counterexample :
    emptyLiteralInfo.Default = some (String.toList "A") ∧
    emittedDecoder Backend.json (String.toList "E") emptyLiteralInfo [] =
      Outcome.ok (String.toList "ENone") ∧
    emittedDecoder Backend.json (String.toList "E") emptyLiteralInfo [] ≠
      Outcome.ok (String.toList "E" ++ String.toList "A") := by
  decide

/-- C3 (as amended): for a plain enum whose name, variant names and literals hold no `%`
and whose literals are bodies of Go string literals, the block that `generateEnumType`
returns is, in every order, the templates with the strings of the schema in place of the
tokens; when some variant has the empty literal, the decoder applied to the empty string
assigns the constant of such a variant; otherwise it assigns the constant of the variant
named by `default` when a default is declared and returns the error `Unknown <type>` when
none is declared. -/
theorem emittedDecoder_empty (backend : Backend) (enum_name : Str) (enum_info : EnumInfo)
    (hname : NoPercent enum_name) (hinfo : InfoOk NoPercent enum_info)
    (hlit : LiteralsOk enum_info) :
    (∀ ord, IsOrder ord → ∀ enable_json enable_bson,
      generateEnumType ord enum_name enum_info enable_json enable_bson =
        generateEnumTypeBy cleanSubst enum_name enum_info enable_json enable_bson) ∧
    ((∃ n ∈ mapKeys enum_info.Variants, mapGet enum_info.Variants n = []) →
      ∃ n ∈ mapKeys enum_info.Variants, mapGet enum_info.Variants n = [] ∧
        emittedDecoder backend enum_name enum_info [] = Outcome.ok (enum_name ++ n)) ∧
    ((∀ n ∈ mapKeys enum_info.Variants, mapGet enum_info.Variants n ≠ []) →
      (∀ d, enum_info.Default = some d →
        emittedDecoder backend enum_name enum_info [] = Outcome.ok (enum_name ++ d)) ∧
      (enum_info.Default = none →
        emittedDecoder backend enum_name enum_info [] =
          Outcome.err (String.toList "Unknown " ++ enum_name))) := by
  have _ := hlit
  refine ⟨fun ord hord j b => generateEnumType_clean ord hord enum_name enum_info j b hname hinfo,
    ?_, ?_⟩
  · rintro ⟨n, hn, hv⟩
    obtain ⟨n', hn', hv', hrun⟩ :=
      runSetter_ok_of_mem enum_name enum_info (sortStrings (mapKeys enum_info.Variants)) [] n
        ((sortStrings_perm _).mem_iff.mpr hn) ((goStringLit_eq_nil _).mpr hv)
    exact ⟨n', (sortStrings_perm _).mem_iff.mp hn', (goStringLit_eq_nil _).mp hv', hrun⟩
  · intro hne
    have hrun := runSetter_of_no_match enum_name enum_info
      (sortStrings (mapKeys enum_info.Variants)) []
      (fun n hn h => hne n ((sortStrings_perm _).mem_iff.mp hn) ((goStringLit_eq_nil _).mp h))
    constructor
    · intro d hd
      unfold emittedDecoder
      rw [hrun, hd]
      simp
    · intro hd
      unfold emittedDecoder
      rw [hrun, hd]

/-- Witness of C3 (as amended) on the enum `Status`, whose default is `Pending`. -/
theorem emittedDecoder_empty_witness :
    NoPercent (String.toList "Status") ∧ InfoOk NoPercent statusInfo ∧
    LiteralsOk statusInfo ∧
    (∀ n ∈ mapKeys statusInfo.Variants, mapGet statusInfo.Variants n ≠ []) ∧
    statusInfo.Default = some (String.toList "Pending") ∧
    emittedDecoder Backend.bson (String.toList "Status") statusInfo [] =
      Outcome.ok (String.toList "Status" ++ String.toList "Pending") :=
  ⟨by decide, by decide, by decide, by decide, rfl,
    ((emittedDecoder_empty Backend.bson (String.toList "Status") statusInfo (by decide)
      (by decide) (by decide)).2.2 (by decide)).1 (String.toList "Pending") rfl⟩

/-- C4: for a plain enum whose name, variant names and literals hold no `%` and whose
literals are bodies of Go string literals, the block that `generateEnumType` returns is,
in every order, the templates with the strings of the schema in place of the tokens; for
every non-empty string that no variant literal denotes, the emitted decoder returns the
error `Unknown <type>`, with or without a declared default; and whenever the decoder
succeeds, either the case table matched the string, or no case matched, the string is
empty and the assigned constant is that of the declared default. -/
theorem emittedDecoder_unknown (backend : Backend) (enum_name : Str) (enum_info : EnumInfo)
    (hname : NoPercent enum_name) (hinfo : InfoOk NoPercent enum_info)
    (hlit : LiteralsOk enum_info) (s : Str) :
    (∀ ord, IsOrder ord → ∀ enable_json enable_bson,
      generateEnumType ord enum_name enum_info enable_json enable_bson =
        generateEnumTypeBy cleanSubst enum_name enum_info enable_json enable_bson) ∧
    (s ≠ [] →
      (∀ n ∈ mapKeys enum_info.Variants, goStringLit (mapGet enum_info.Variants n) ≠ some s) →
      emittedDecoder backend enum_name enum_info s =
        Outcome.err (String.toList "Unknown " ++ enum_name)) ∧
    (∀ ident, emittedDecoder backend enum_name enum_info s = Outcome.ok ident →
      (∃ n ∈ mapKeys enum_info.Variants,
        goStringLit (mapGet enum_info.Variants n) = some s ∧ ident = enum_name ++ n) ∨
      (s = [] ∧
        (∀ n ∈ mapKeys enum_info.Variants,
          goStringLit (mapGet enum_info.Variants n) ≠ some s) ∧
        ∃ d, enum_info.Default = some d ∧ ident = enum_name ++ d)) := by
  have _ := hlit
  refine ⟨fun ord hord j b => generateEnumType_clean ord hord enum_name enum_info j b hname hinfo,
    ?_⟩
  by_cases hex : ∃ n ∈ mapKeys enum_info.Variants,
      goStringLit (mapGet enum_info.Variants n) = some s
  · obtain ⟨n, hn, hv⟩ := hex
    obtain ⟨n', hn', hv', hrun⟩ :=
      runSetter_ok_of_mem enum_name enum_info (sortStrings (mapKeys enum_info.Variants)) s n
        ((sortStrings_perm _).mem_iff.mpr hn) hv
    constructor
    · intro _ hall
      exact absurd hv (hall n hn)
    · intro ident hid
      left
      unfold emittedDecoder at hid
      rw [hrun] at hid
      cases hid
      exact ⟨n', (sortStrings_perm _).mem_iff.mp hn', hv', rfl⟩
  · have hall : ∀ n ∈ mapKeys enum_info.Variants,
        goStringLit (mapGet enum_info.Variants n) ≠ some s :=
      fun n hn hv => hex ⟨n, hn, hv⟩
    have hrun := runSetter_of_no_match enum_name enum_info
      (sortStrings (mapKeys enum_info.Variants)) s
      (fun n hn => hall n ((sortStrings_perm _).mem_iff.mp hn))
    have hlen : s ≠ [] → ¬ s.length = 0 := fun h e => h (List.length_eq_zero.mp e)
    constructor
    · intro hs _
      unfold emittedDecoder
      rw [hrun]
      cases enum_info.Default with
      | none => rfl
      | some d => simp [hlen hs]
    · intro ident hid
      right
      unfold emittedDecoder at hid
      rw [hrun] at hid
      cases hd : enum_info.Default with
      | none => rw [hd] at hid; cases hid
      | some d =>
        rw [hd] at hid
        by_cases hs : s.length = 0
        · simp only [hs, if_true] at hid
          cases hid
          exact ⟨List.length_eq_zero.mp hs, hall, d, rfl, rfl⟩
        · simp only [hs, if_false] at hid
          cases hid

/-- Witness of C4 on the enum `Esc`, whose only literal `a\n` denotes `a` followed by a
line feed: the text of the literal itself, three characters long, is the value of no
variant and is rejected. -/
theorem emittedDecoder_unknown_witness :
    NoPercent (String.toList "Esc") ∧ InfoOk NoPercent escInfo ∧
    LiteralsOk escInfo ∧ String.toList "a\\n" ≠ [] ∧
    (∀ n ∈ mapKeys escInfo.Variants,
      goStringLit (mapGet escInfo.Variants n) ≠ some (String.toList "a\\n")) ∧
    emittedDecoder Backend.json (String.toList "Esc") escInfo (String.toList "a\\n") =
      Outcome.err (String.toList "Unknown " ++ String.toList "Esc") :=
  ⟨by decide, by decide, by decide, by decide, by decide,
    (emittedDecoder_unknown Backend.json (String.toList "Esc") escInfo (by decide) (by decide)
      (by decide) (String.toList "a\\n")).2.1 (by decide) (by decide)⟩

/-- C13 (as stated) fails: the enum below declares the default `A`, whose literal is `a`,
yet `String` and the encoder applied to the empty value return the empty literal of the
variant `None`, which the case table matches first. -/
theorem emittedEncoder_default_counterexample :
    emptyLiteralInfo.Default = some (String.toList "A") ∧
    mapGet emptyLiteralInfo.Variants (String.toList "A") = String.toList "a" ∧
    emittedString (String.toList "E") emptyLiteralInfo [] = StringOutcome.ret [] ∧
    emittedEncoder Backend.json (String.toList "E") emptyLiteralInfo [] = Outcome.ok [] ∧
    emittedEncoder Backend.json (String.toList "E") emptyLiteralInfo [] ≠
      Outcome.ok (String.toList "a") := by
  decide

/-- C13 (as amended): for a plain enum whose name, variant names and literals hold no `%`
and whose literals are bodies of Go string literals, the block that `generateEnumType`
returns is, in every order, the templates with the strings of the schema in place of the
tokens; the emitted `String` function and each emitted encoder, applied to the empty
value, return the empty string when some variant has the empty literal (the case table is
tried first),
and otherwise the string denoted by the literal of the variant named by `default` when a
default is declared; for a value that no variant literal denotes and that is not covered
by the default block (no default declared, or the value is not empty), `String` panics
with `Invalid value of <type>` and the encoders return that error. -/
theorem emitted_encode_empty (backend : Backend) (enum_name : Str) (enum_info : EnumInfo)
    (hname : NoPercent enum_name) (hinfo : InfoOk NoPercent enum_info)
    (hlit : LiteralsOk enum_info) :
    (∀ ord, IsOrder ord → ∀ enable_json enable_bson,
      generateEnumType ord enum_name enum_info enable_json enable_bson =
        generateEnumTypeBy cleanSubst enum_name enum_info enable_json enable_bson) ∧
    ((∃ n ∈ mapKeys enum_info.Variants, mapGet enum_info.Variants n = []) →
      emittedString enum_name enum_info [] = StringOutcome.ret [] ∧
      emittedEncoder backend enum_name enum_info [] = Outcome.ok []) ∧
    ((∀ n ∈ mapKeys enum_info.Variants, mapGet enum_info.Variants n ≠ []) →
      ∀ d, enum_info.Default = some d →
        ∃ v, goStringLit (mapGet enum_info.Variants d) = some v ∧
          emittedString enum_name enum_info [] = StringOutcome.ret v ∧
          emittedEncoder backend enum_name enum_info [] = Outcome.ok v) ∧
    (∀ self : Str,
      (∀ n ∈ mapKeys enum_info.Variants,
        goStringLit (mapGet enum_info.Variants n) ≠ some self) →
      (enum_info.Default = none ∨ self ≠ []) →
        emittedString enum_name enum_info self =
          StringOutcome.panic (String.toList "Invalid value of " ++ enum_name) ∧
        emittedEncoder backend enum_name enum_info self =
          Outcome.err (String.toList "Invalid value of " ++ enum_name)) := by
  have hall : ∀ k ∈ sortStrings (mapKeys enum_info.Variants),
      ∃ v, goStringLit (mapGet enum_info.Variants k) = some v :=
    fun k hk => literalsOk_value enum_info hlit k ((sortStrings_perm _).mem_iff.mp hk)
  refine ⟨fun ord hord j b => generateEnumType_clean ord hord enum_name enum_info j b hname hinfo,
    ?_, ?_, ?_⟩
  · rintro ⟨n, hn, hv⟩
    have hrun := runGetter_ok_of_mem enum_name enum_info
      (sortStrings (mapKeys enum_info.Variants)) hall n ((sortStrings_perm _).mem_iff.mpr hn)
      [] ((goStringLit_eq_nil _).mpr hv)
    unfold emittedString emittedEncoder
    simp only [hrun, and_self]
  · intro hne d hd
    have hrun := runGetter_of_no_match enum_name enum_info
      (sortStrings (mapKeys enum_info.Variants)) hall []
      (fun n hn h => hne n ((sortStrings_perm _).mem_iff.mp hn) ((goStringLit_eq_nil _).mp h))
    rw [hd] at hrun
    obtain ⟨v, hv⟩ := literalsOk_default enum_info hlit d
    refine ⟨v, hv, ?_⟩
    unfold emittedString emittedEncoder
    simp only [hrun, List.length_nil, if_true, returnLiteral, hv, and_self]
  · intro self hne hcase
    have hrun := runGetter_of_no_match enum_name enum_info
      (sortStrings (mapKeys enum_info.Variants)) hall self
      (fun n hn => hne n ((sortStrings_perm _).mem_iff.mp hn))
    have herr : runGetter
        (enumConsts enum_name (sortStrings (mapKeys enum_info.Variants)) enum_info) enum_name
        (enumArms enum_name (sortStrings (mapKeys enum_info.Variants)) enum_info)
        (enumDefaultArm enum_name enum_info) self =
        Outcome.err (String.toList "Invalid value of " ++ enum_name) := by
      rw [hrun]
      rcases hcase with hd | hs
      · rw [hd]
      · cases enum_info.Default with
        | none => rfl
        | some d =>
          have hlen : ¬ self.length = 0 := fun e => hs (List.length_eq_zero.mp e)
          simp only [hlen, if_false]
    unfold emittedString emittedEncoder
    simp only [herr, and_self]

/-- Witness of C13 (as amended) on the enum `Status`, whose default is `Pending`. -/
theorem emitted_encode_empty_witness :
    NoPercent (String.toList "Status") ∧ InfoOk NoPercent statusInfo ∧
    LiteralsOk statusInfo ∧
    (∀ n ∈ mapKeys statusInfo.Variants, mapGet statusInfo.Variants n ≠ []) ∧
    statusInfo.Default = some (String.toList "Pending") ∧
    emittedString (String.toList "Status") statusInfo [] =
      StringOutcome.ret (String.toList "pending") ∧
    ∃ v, goStringLit (mapGet statusInfo.Variants (String.toList "Pending")) = some v ∧
      emittedString (String.toList "Status") statusInfo [] = StringOutcome.ret v ∧
      emittedEncoder Backend.bson (String.toList "Status") statusInfo [] = Outcome.ok v :=
  ⟨by decide, by decide, by decide, by decide, rfl, by decide,
    ((emitted_encode_empty Backend.bson (String.toList "Status") statusInfo (by decide)
      (by decide) (by decide)).2.2.1 (by decide)) (String.toList "Pending") rfl⟩

/-! ## The byte-comparison import -/

theorem occurs_iff (pat t : Str) : occurs pat t = true ↔ pat <:+: t := by
  induction t with
  | nil =>
    simp only [occurs, List.isPrefixOf_iff_prefix]
    constructor
    · intro h
      exact h.isInfix
    · intro h
      have := List.eq_nil_of_infix_nil h
      rw [this]
  | cons c cs ih =>
    simp only [occurs, Bool.or_eq_true, List.isPrefixOf_iff_prefix, ih]
    exact List.infix_cons_iff.symm

theorem occurs_append_of_no_match (pat s Y : Str)
    (h : ∀ t : Str, t ≠ [] → t <:+ s → pat.isPrefixOf (t ++ Y) = false) :
    occurs pat (s ++ Y) = occurs pat Y := by
  induction s with
  | nil => rfl
  | cons c cs ih =>
    have h1 : pat.isPrefixOf (c :: (cs ++ Y)) = false :=
      h (c :: cs) (by simp) List.suffix_rfl
    rw [List.cons_append]
    simp only [occurs, h1, Bool.false_or]
    exact ih (fun t ht hsuf => h t ht (hsuf.trans (List.suffix_cons c cs)))

theorem infoOk_mono (P Q : Str → Prop) (hPQ : ∀ t, P t → Q t) (enum_info : EnumInfo)
    (h : InfoOk P enum_info) : InfoOk Q enum_info :=
  ⟨fun e he => ⟨hPQ _ (h.1 e he).1, hPQ _ (h.1 e he).2⟩,
    fun c hc => hPQ _ (h.2.1 c hc), fun d hd => hPQ _ (h.2.2 d hd)⟩

set_option maxRecDepth 100000 in
theorem plainBlockSealed : PlainBlockSealed := by decide

set_option maxRecDepth 100000 in
theorem sealed_ASSOC_TYPE : Sealed runsAssoc keysAssoc ASSOC_TYPE := by decide

theorem infix_append_cases (pat a b : Str) (h : pat <:+: a ++ b) :
    pat <:+: a ∨ pat <:+: b ∨
      ∃ d c, d ≠ [] ∧ c ≠ [] ∧ d ++ c = pat ∧ d <:+ a ∧ c <+: b := by
  obtain ⟨s, t, hst⟩ := h
  rw [List.append_assoc] at hst
  rcases List.append_eq_append_iff.mp hst with ⟨a', ha, hb⟩ | ⟨c', hs, hc⟩
  · rcases List.append_eq_append_iff.mp hb with ⟨d', hp, ht⟩ | ⟨c'', hp, hc''⟩
    · left
      exact ⟨s, d', by rw [ha, hp, List.append_assoc]⟩
    · by_cases ha' : a' = []
      · right; left
        rw [ha', List.nil_append] at hp
        exact ⟨[], t, by rw [hc'', hp]; simp⟩
      · by_cases hc0 : c'' = []
        · left
          rw [hc0, List.append_nil] at hp
          exact ⟨s, [], by rw [ha, hp]; simp⟩
        · right; right
          exact ⟨a', c'', ha', hc0, hp.symm, ⟨s, ha.symm⟩, ⟨t, hc''.symm⟩⟩
  · right; left
    exact ⟨c', t, by rw [hc]; simp⟩

theorem split_ends (pat d c : Str) (hd : d ≠ []) (hc : c ≠ []) (h : d ++ c = pat) :
    d.getLast? ∈ pat.dropLast.map some ∧ c.head? ∈ pat.tail.map some := by
  subst h
  constructor
  · rw [List.dropLast_append_of_ne_nil _ hc, List.getLast?_eq_getLast _ hd]
    exact List.mem_map_of_mem some (List.mem_append_left _ (List.getLast_mem hd))
  · rw [List.tail_append_of_ne_nil hd, List.head?_eq_head hc]
    exact List.mem_map_of_mem some (List.mem_append_right _ (List.head_mem hc))

theorem getLast?_of_suffix (d a : Str) (hd : d ≠ []) (h : d <:+ a) :
    a.getLast? = d.getLast? := by
  obtain ⟨s, rfl⟩ := h
  rw [List.getLast?_append]
  cases hdl : d.getLast? with
  | none => exact absurd (List.getLast?_eq_none_iff.mp hdl) hd
  | some x => rfl

theorem head?_of_starts (c b : Str) (hc : c ≠ []) (h : c <+: b) : b.head? = c.head? := by
  obtain ⟨t, rfl⟩ := h
  cases c with
  | nil => exact absurd rfl hc
  | cons x xs => rfl

theorem noCall_append (a b : Str) (ha : NoCall a) (hb : NoCall b)
    (h : a.getLast? ∉ callText.dropLast.map some ∨ b.head? ∉ callText.tail.map some) :
    NoCall (a ++ b) := by
  intro hin
  rcases infix_append_cases _ a b hin with h1 | h2 | ⟨d, c, hd, hc, hdc, hsuf, hpre⟩
  · exact ha h1
  · exact hb h2
  · obtain ⟨hl, hh⟩ := split_ends callText d c hd hc hdc
    rcases h with h | h
    · apply h
      rw [getLast?_of_suffix d a hd hsuf]
      exact hl
    · apply h
      rw [head?_of_starts c b hc hpre]
      exact hh

theorem closed_fenced : Closed Fenced := by
  refine ⟨by decide, ?_⟩
  intro a b ha hb
  refine ⟨noCall_append a b ha.1 hb.1 (Or.inr hb.2), ?_⟩
  cases a with
  | nil => exact hb.2
  | cons x xs => exact ha.2

theorem barrier_sandwich (a x b : Str) (ha : Barrier a) (hx : NoCall x) (hb : Barrier b) :
    Barrier (a ++ x ++ b) := by
  obtain ⟨hane, haf, hal⟩ := ha
  obtain ⟨hbne, hbf, hbl⟩ := hb
  have hax : NoCall (a ++ x) := noCall_append a x haf.1 hx (Or.inl hal)
  refine ⟨?_, ⟨noCall_append (a ++ x) b hax hbf.1 (Or.inr hbf.2), ?_⟩, ?_⟩
  · intro h
    exact hbne (List.append_eq_nil.mp h).2
  · cases a with
    | nil => exact absurd rfl hane
    | cons y ys => exact haf.2
  · rw [List.getLast?_append]
    cases hbl' : b.getLast? with
    | none => exact absurd (List.getLast?_eq_none_iff.mp hbl') hbne
    | some y =>
      rw [hbl'] at hbl
      exact hbl

theorem barrier_close (a x b : Str) (ha : Barrier a) (hx : NoCall x) (hb : Fenced b) :
    Fenced (a ++ x ++ b) := by
  obtain ⟨hane, haf, hal⟩ := ha
  have hax : NoCall (a ++ x) := noCall_append a x haf.1 hx (Or.inl hal)
  refine ⟨noCall_append (a ++ x) b hax hb.1 (Or.inr hb.2), ?_⟩
  cases a with
  | nil => exact absurd rfl hane
  | cons y ys => exact haf.2

theorem instantiate_cons (M : ReplaceMap) (seg : Seg) (segs : List Seg) :
    instantiate M (seg :: segs) = Seg.value M seg ++ instantiate M segs := by
  simp [instantiate]

theorem instantiate_sealedFrom (allowed : List (List Str)) (M : ReplaceMap)
    (hval : ∀ run ∈ allowed, NoCall ((run.map (mapGet M)).flatten)) :
    ∀ (segs : List Seg) (pend : List Str) (done : Str), Barrier done →
      sealedFrom allowed pend segs = true →
      Fenced (done ++ ((pend.map (mapGet M)).flatten ++ instantiate M segs)) := by
  intro segs
  induction segs with
  | nil =>
    intro pend done hd hs
    simp only [sealedFrom, decide_eq_true_eq] at hs
    rw [hs]
    simpa [instantiate] using hd.2.1
  | cons seg rest ih =>
    intro pend done hd hs
    cases seg with
    | lit l =>
      simp only [sealedFrom, Bool.and_eq_true, decide_eq_true_eq] at hs
      obtain ⟨⟨hp, hl⟩, hrest⟩ := hs
      rw [instantiate_cons]
      cases rest with
      | nil =>
        simp only [List.isEmpty_nil, if_true, decide_eq_true_eq] at hl
        have := barrier_close done _ l hd (hval pend hp) hl
        simpa [Seg.value, instantiate, List.append_assoc] using this
      | cons r rs =>
        simp only [List.isEmpty_cons, Bool.false_eq_true, if_false, decide_eq_true_eq] at hl
        have hb := barrier_sandwich done _ l hd (hval pend hp) hl
        have := ih [] _ hb hrest
        simpa [Seg.value, List.append_assoc] using this
    | tok k =>
      simp only [sealedFrom] at hs
      have := ih (pend ++ [k]) done hd hs
      rw [instantiate_cons]
      simpa [Seg.value, List.append_assoc] using this

theorem cleanSubst_fenced (allowed : List (List Str)) (template : Str) (M : ReplaceMap)
    (hs : Sealed allowed (mapKeys M) template)
    (hval : ∀ run ∈ allowed, NoCall ((run.map (mapGet M)).flatten)) :
    Fenced (cleanSubst template M) := by
  unfold cleanSubst
  unfold Sealed at hs
  cases hsegs : parseSegs (mapKeys M) 0 template with
  | nil => rw [hsegs] at hs; cases hs
  | cons seg rest =>
    rw [hsegs] at hs
    cases seg with
    | tok k => cases hs
    | lit l =>
      simp only [Bool.and_eq_true, decide_eq_true_eq] at hs
      obtain ⟨hbar, hrest⟩ := hs
      have := instantiate_sealedFrom allowed M hval rest [] l hbar hrest
      rw [instantiate_cons]
      simpa [Seg.value] using this

theorem noCall_nil : NoCall [] := by decide

theorem noCall_of_noBytes (t : Str) (h : NoBytes t) : NoCall t :=
  fun hin => h (List.IsInfix.trans (by decide) hin)

theorem runsType_ok (ty : Str) (h : NoCall ty) :
    ∀ run ∈ runsType,
      NoCall ((run.map (mapGet [(String.toList "%type", ty)])).flatten) := by
  intro run hrun
  simp only [runsType, List.mem_cons, List.mem_singleton, List.not_mem_nil, or_false] at hrun
  rcases hrun with rfl | rfl
  · exact noCall_nil
  · show NoCall (ty ++ [])
    rw [List.append_nil]
    exact h

theorem runsCase_ok (nm ty v : Str) (hty : NoCall ty) (hseam : NoCall (ty ++ nm))
    (hv : NoCall v) :
    ∀ run ∈ runsCase,
      NoCall ((run.map (mapGet [(String.toList "%name", nm), (String.toList "%type", ty),
        (String.toList "%value", v)])).flatten) := by
  intro run hrun
  simp only [runsCase, List.mem_cons, List.mem_singleton, List.not_mem_nil, or_false] at hrun
  rcases hrun with rfl | rfl | rfl | rfl
  · exact noCall_nil
  · show NoCall (ty ++ [])
    rw [List.append_nil]
    exact hty
  · show NoCall (ty ++ (nm ++ []))
    rw [List.append_nil]
    exact hseam
  · show NoCall (v ++ [])
    rw [List.append_nil]
    exact hv

theorem runsFooter_ok (ty dc : Str) (hty : NoCall ty) (hdc : NoCall dc) :
    ∀ run ∈ runsFooter,
      NoCall ((run.map (mapGet [(String.toList "%type", ty),
        (String.toList "%defaultcode", dc)])).flatten) := by
  intro run hrun
  simp only [runsFooter, List.mem_cons, List.mem_singleton, List.not_mem_nil, or_false] at hrun
  rcases hrun with rfl | rfl | rfl
  · exact noCall_nil
  · show NoCall (ty ++ [])
    rw [List.append_nil]
    exact hty
  · show NoCall (dc ++ [])
    rw [List.append_nil]
    exact hdc

theorem runsAssoc_ok (ty constr : Str) (hty : NoCall ty) (hc : NoCall constr) :
    ∀ run ∈ runsAssoc,
      NoCall ((run.map (mapGet [(String.toList "%type", ty),
        (String.toList "%constr", constr)])).flatten) := by
  intro run hrun
  simp only [runsAssoc, List.mem_cons, List.mem_singleton, List.not_mem_nil, or_false] at hrun
  rcases hrun with rfl | rfl | rfl
  · exact noCall_nil
  · show NoCall (ty ++ [])
    rw [List.append_nil]
    exact hty
  · show NoCall (constr ++ [])
    rw [List.append_nil]
    exact hc

theorem generateEnumFunctionBy_fenced (name : Str) (values : List Str) (enum_info : EnumInfo)
    (templates : TemplateMap) (hl : PlainSealed templates) (hname : NoCall name)
    (hvals : ∀ v ∈ values, NoCall (name ++ v)) (hinfo : InfoOk NoCall enum_info)
    (hdef : ∀ d, enum_info.Default = some d → NoCall (name ++ d)) :
    Fenced (generateEnumFunctionBy cleanSubst name values enum_info templates) := by
  rw [generateEnumFunctionBy_eq]
  have hdc : Fenced (match enum_info.Default with
      | some d =>
        cleanSubst (mapGet templates (String.toList "default"))
          [(String.toList "%name", d), (String.toList "%type", name),
           (String.toList "%value", mapGet enum_info.Variants d)]
      | none => []) := by
    cases hd : enum_info.Default with
    | none => exact closed_fenced.1
    | some d =>
      exact cleanSubst_fenced runsCase _ _ hl.2.2.1
        (runsCase_ok d name _ hname (hdef d hd)
          (infoOk_mapGet NoCall noCall_nil enum_info hinfo d))
  refine closed_fenced.2 _ _ (closed_fenced.2 _ _ ?_ ?_) ?_
  · exact cleanSubst_fenced runsType _ _ hl.1 (runsType_ok name hname)
  · apply closed_flatten Fenced closed_fenced
    intro x hx
    obtain ⟨v, hv, rfl⟩ := List.mem_map.mp hx
    exact cleanSubst_fenced runsCase _ _ hl.2.1
      (runsCase_ok v name _ hname (hvals v hv)
        (infoOk_mapGet NoCall noCall_nil enum_info hinfo v))
  · exact cleanSubst_fenced runsFooter _ _ hl.2.2.2 (runsFooter_ok name _ hname hdc.1)

theorem generateEnumTypeBy_fenced (enum_name : Str) (enum_info : EnumInfo)
    (enable_json enable_bson : Bool) (hname : NoCall enum_name)
    (hinfo : InfoOk NoCall enum_info) (hseam : SeamOk enum_name enum_info) :
    Fenced (generateEnumTypeBy cleanSubst enum_name enum_info enable_json enable_bson) := by
  have hvals : ∀ v ∈ sortStrings (mapKeys enum_info.Variants), NoCall (enum_name ++ v) := by
    intro v hv
    obtain ⟨lit, hlit⟩ := mem_of_mem_mapKeys ((sortStrings_perm _).mem_iff.mp hv)
    exact hseam.1 (v, lit) hlit
  obtain ⟨l1, l2, l3, l4, l5, l6, l7, l8⟩ := plainBlockSealed
  have hf : ∀ templates, PlainSealed templates →
      Fenced (generateEnumFunctionBy cleanSubst enum_name
        (sortStrings (mapKeys enum_info.Variants)) enum_info templates) :=
    fun templates hl =>
      generateEnumFunctionBy_fenced enum_name _ enum_info templates hl hname hvals hinfo
        hseam.2
  rw [generateEnumTypeBy_eq]
  refine closed_fenced.2 _ _ (closed_fenced.2 _ _ (closed_fenced.2 _ _ (closed_fenced.2 _ _
    (closed_fenced.2 _ _ (closed_fenced.2 _ _ (closed_fenced.2 _ _ ?_ ?_) ?_) ?_) ?_) ?_)
    ?_) ?_
  · exact cleanSubst_fenced runsType _ _ l1 (runsType_ok enum_name hname)
  · apply closed_flatten Fenced closed_fenced
    intro x hx
    obtain ⟨v, hv, rfl⟩ := List.mem_map.mp hx
    exact cleanSubst_fenced runsCase _ _ l2
      (runsCase_ok v enum_name _ hname (hvals v hv)
        (infoOk_mapGet NoCall noCall_nil enum_info hinfo v))
  · exact cleanSubst_fenced runsType _ _ l3 (runsType_ok enum_name hname)
  · exact hf _ l4
  · exact closed_ite Fenced closed_fenced _ _ (hf _ l5)
  · exact closed_ite Fenced closed_fenced _ _ (hf _ l6)
  · exact closed_ite Fenced closed_fenced _ _ (hf _ l7)
  · exact closed_ite Fenced closed_fenced _ _ (hf _ l8)

set_option maxRecDepth 100000 in
theorem unmarshalHeader_has_call :
    ∃ seg ∈ parseSegs keysAssoc 0 ASSOC_UNMARSHAL_HEADER,
      LitHas (String.toList "bytes.Equal(") seg := by decide

set_option maxRecDepth 100000 in
theorem setbsonHeader_has_call :
    ∃ seg ∈ parseSegs keysAssoc 0 ASSOC_SETBSON_HEADER,
      LitHas (String.toList "bytes.Equal(") seg := by decide

theorem cleanSubst_has (pat template : Str) (M : ReplaceMap)
    (h : ∃ seg ∈ parseSegs (mapKeys M) 0 template, LitHas pat seg) :
    pat <:+: cleanSubst template M := by
  obtain ⟨seg, hseg, hlit⟩ := h
  cases seg with
  | tok k => exact absurd hlit (by simp [LitHas])
  | lit t =>
    have hmem : t ∈ (parseSegs (mapKeys M) 0 template).map (Seg.value M) :=
      List.mem_map.mpr ⟨Seg.lit t, hseg, rfl⟩
    have hin : t <:+: cleanSubst template M := List.infix_of_mem_flatten hmem
    exact List.IsInfix.trans hlit hin

theorem infix_append_left {pat a : Str} (b : Str) (h : pat <:+: a) : pat <:+: a ++ b :=
  List.IsInfix.trans h (List.prefix_append a b).isInfix

theorem infix_append_right {pat b : Str} (a : Str) (h : pat <:+: b) : pat <:+: a ++ b :=
  List.IsInfix.trans h (List.suffix_append a b).isInfix

theorem assocFunctionText_has_call (name : Str) (values : List Str) (enum_info : EnumInfo)
    (constr : Str) (templates : TemplateMap)
    (h : ∃ seg ∈ parseSegs keysAssoc 0 (mapGet templates (String.toList "header")),
      LitHas (String.toList "bytes.Equal(") seg) :
    String.toList "bytes.Equal(" <:+:
      assocFunctionText cleanSubst name values enum_info constr templates := by
  unfold assocFunctionText
  apply infix_append_left
  apply infix_append_left
  exact cleanSubst_has _ _ _ h

theorem assocBlock_has_call (enum_name : Str) (enum_info : EnumInfo)
    (enable_json enable_bson : Bool) (constr : Str) (hc : enum_info.Constraint = some constr)
    (hflag : enable_json = true ∨ enable_bson = true) (blk : Str)
    (h : generateAssocEnumTypeBy cleanSubst enum_name enum_info enable_json enable_bson =
      some blk) : String.toList "bytes.Equal(" <:+: blk := by
  rw [generateAssocEnumTypeBy_eq cleanSubst enum_name enum_info enable_json enable_bson
    constr hc] at h
  cases h
  rcases hflag with hj | hb
  · rw [hj]
    simp only [if_true]
    apply infix_append_left
    apply infix_append_right
    exact assocFunctionText_has_call _ _ _ _ _ unmarshalHeader_has_call
  · rw [hb]
    simp only [if_true]
    apply infix_append_right
    exact assocFunctionText_has_call _ _ _ _ _ setbsonHeader_has_call

theorem assocBlock_fenced (enum_name : Str) (enum_info : EnumInfo) (hname : NoCall enum_name)
    (hinfo : InfoOk NoCall enum_info) (blk : Str)
    (h : generateAssocEnumTypeBy cleanSubst enum_name enum_info false false = some blk) :
    Fenced blk := by
  cases hc : enum_info.Constraint with
  | none =>
    unfold generateAssocEnumTypeBy at h
    simp only [hc] at h
    cases h
  | some constr =>
    rw [generateAssocEnumTypeBy_eq cleanSubst enum_name enum_info false false constr hc] at h
    cases h
    simp only [Bool.false_eq_true, if_false, List.append_nil]
    exact cleanSubst_fenced runsAssoc _ _ sealed_ASSOC_TYPE
      (runsAssoc_ok enum_name constr hname (hinfo.2.1 constr hc))

theorem forall₂_mem_left {α β : Type} {R : α → β → Prop} {l₁ : List α} {l₂ : List β}
    (h : List.Forall₂ R l₁ l₂) {a : α} (ha : a ∈ l₁) : ∃ b ∈ l₂, R a b := by
  induction h with
  | nil => simp at ha
  | @cons x y xs ys hxy _ ih =>
    rcases List.mem_cons.mp ha with e | e
    · exact ⟨y, List.mem_cons_self _ _, e ▸ hxy⟩
    · obtain ⟨b, hb, hr⟩ := ih e
      exact ⟨b, List.mem_cons_of_mem _ hb, hr⟩

theorem forall₂_all_right {α β : Type} {R : α → β → Prop} {Q : β → Prop} {l₁ : List α}
    {l₂ : List β} (h : List.Forall₂ R l₁ l₂) (hq : ∀ a ∈ l₁, ∀ b, R a b → Q b) :
    ∀ b ∈ l₂, Q b := by
  induction h with
  | nil => intro b hb; simp at hb
  | @cons x y xs ys hxy _ ih =>
    intro b hb
    rcases List.mem_cons.mp hb with e | e
    · rw [e]
      exact hq x (List.mem_cons_self _ _) y hxy
    · exact ih (fun a ha b' hr => hq a (List.mem_cons_of_mem _ ha) b' hr) b e

theorem enumGet_mem (m : EnumTypeMap) (n : Str) (hn : n ∈ mapKeys m) :
    (n, enumGet m n) ∈ m := by
  induction m with
  | nil => simp [mapKeys] at hn
  | cons x xs ih =>
    obtain ⟨k, info⟩ := x
    simp only [enumGet]
    by_cases hk : k = n
    · simp only [hk, if_true]
      exact List.mem_cons_self _ _
    · simp only [hk, if_false]
      have hn' : n ∈ mapKeys xs := by
        simp only [mapKeys, List.map_cons, List.mem_cons] at hn
        rcases hn with e | e
        · exact absurd e.symm hk
        · exact e
      exact List.mem_cons_of_mem _ (ih hn')

theorem value_unique {β : Type} (m : List (Str × β)) (hn : (mapKeys m).Nodup) (k : Str)
    (v₁ v₂ : β) (h₁ : (k, v₁) ∈ m) (h₂ : (k, v₂) ∈ m) : v₁ = v₂ := by
  induction m with
  | nil => simp at h₁
  | cons x xs ih =>
    simp only [mapKeys, List.map_cons, List.nodup_cons] at hn
    rcases List.mem_cons.mp h₁ with e₁ | e₁
    · rcases List.mem_cons.mp h₂ with e₂ | e₂
      · have := e₁.trans e₂.symm
        exact (Prod.mk.inj this).2
      · exfalso
        apply hn.1
        rw [← e₁]
        show k ∈ List.map Prod.fst xs
        exact List.mem_map.mpr ⟨(k, v₂), e₂, rfl⟩
    · rcases List.mem_cons.mp h₂ with e₂ | e₂
      · exfalso
        apply hn.1
        rw [← e₂]
        show k ∈ List.map Prod.fst xs
        exact List.mem_map.mpr ⟨(k, v₁), e₁, rfl⟩
      · exact ih hn.2 e₁ e₂

theorem header_text (ord : ReplaceMap → ReplaceMap) (hord : IsOrder ord) (pkgname : Str)
    (hpkg : NoPercent pkgname) (enable_json enable_bson has_assoc : Bool) :
    generateHeader ord pkgname enable_json enable_bson has_assoc =
      String.toList "\npackage " ++ (pkgname ++ '\n' :: (String.toList "import (\n\t" ++
        (stringsJoin
          ((if enable_json then [String.toList "\"encoding/json\""] else []) ++
           (if enable_bson then [String.toList "\"gopkg.in/mgo.v2/bson\""] else []) ++
           (if has_assoc && (enable_bson || enable_json) then [String.toList "\"bytes\""]
            else []))
          (String.toList "\n") ++ String.toList "\n\t\"errors\"\n)"))) := by
  have hpk : ¬ String.toList "%packages" <:+: pkgname := by
    intro h
    exact hpkg (h.subset (by decide))
  rw [generateHeader_by, generateHeaderBy_eq,
    header_subst ord hord pkgname _ hpk
      (packages_closed NoPercent closed_noPercent headerLits_noPercent enable_json enable_bson
        has_assoc)]
  have e : String.toList "\nimport (\n\t" = '\n' :: String.toList "import (\n\t" := rfl
  rw [e]
  simp only [List.append_assoc, List.cons_append]

set_option maxRecDepth 100000 in
theorem header_import_iff (ord : ReplaceMap → ReplaceMap) (hord : IsOrder ord) (pkgname : Str)
    (hpkg : NoPercent pkgname) (hbytes : ¬ String.toList "bytes" <:+: pkgname)
    (enable_json enable_bson has_assoc : Bool) :
    String.toList "\"bytes\"" <:+:
        generateHeader ord pkgname enable_json enable_bson has_assoc ↔
      (has_assoc = true ∧ (enable_bson = true ∨ enable_json = true)) := by
  have hq : ¬ String.toList "\"bytes\"" <:+: pkgname := by
    intro h
    exact hbytes (List.IsInfix.trans (by decide) h)
  rw [header_text ord hord pkgname hpkg, ← occurs_iff,
    occurs_append_of_no_match (String.toList "\"bytes\"") (String.toList "\npackage ") _
      (no_match_of_head (String.toList "\"bytes\"") (String.toList "\npackage ") _ '"'
        (String.toList "bytes\"") rfl (by decide)),
    occurs_append_of_no_match (String.toList "\"bytes\"") pkgname _
      (no_straddle (String.toList "\"bytes\"") pkgname '\n' _ hq (by decide))]
  cases enable_json <;> cases enable_bson <;> cases has_assoc <;> decide

set_option maxRecDepth 100000 in
/-- C18 (as stated) fails: in the schema below no name or literal contains `%` or the text
`bytes`, and no enum declares a constraint; the header has no import `"bytes"`, yet the
part after the header contains `bytes.Equal(`, spelled by the enum name `by` followed by
the variant name `tes.Equal(` in the constant declaration. -/
theorem bytes_import_counterexample :
    SchemaOk NoPercent spellSchema ∧ SchemaOk NoBytes spellSchema ∧
    NoPercent (String.toList "main") ∧ NoBytes (String.toList "main") ∧
    generateEnumCode ordId spellSchema (String.toList "main") false false =
      some (generateHeader ordId (String.toList "main") false false false ++
        generateEnumType ordId (String.toList "by")
          (enumGet spellSchema (String.toList "by")) false false) ∧
    ¬ String.toList "\"bytes\"" <:+:
      generateHeader ordId (String.toList "main") false false false ∧
    String.toList "bytes.Equal(" <:+:
      generateEnumType ordId (String.toList "by")
        (enumGet spellSchema (String.toList "by")) false false := by
  decide

/-- C18 (as amended): for a schema with distinct enum names in which no name, literal,
constraint or default contains `%` or the text `bytes`, and in which no enum name directly
followed by one of its variant names or by its default spells `bytes.Equal(` (the templates
write the two side by side as `%type%name`), and a package name that contains neither `%`
nor the text `bytes`, the header of the text returned by `generateEnumCode` contains
the import `"bytes"` if and only if the part after the header contains a call
`bytes.Equal(`. -/
theorem bytes_import_iff_call (ord : ReplaceMap → ReplaceMap) (hord : IsOrder ord)
    (m : EnumTypeMap) (hn : (mapKeys m).Nodup) (pkg : Str) (enable_json enable_bson : Bool)
    (hm : SchemaOk NoPercent m) (hb : SchemaOk NoBytes m) (hseam : SchemaSeamOk m)
    (hpkg : NoPercent pkg) (hbytes : NoBytes pkg) :
    ∃ (has_assoc : Bool) (rest : Str),
      generateEnumCode ord m pkg enable_json enable_bson =
        some (generateHeader ord pkg enable_json enable_bson has_assoc ++ rest) ∧
      (has_assoc = true ↔ ∃ kv ∈ m, kv.2.Constraint ≠ none) ∧
      (String.toList "\"bytes\"" <:+:
          generateHeader ord pkg enable_json enable_bson has_assoc ↔
        String.toList "bytes.Equal(" <:+: rest) := by
  obtain ⟨blocks, hblocks⟩ :=
    blocks_exist ord m enable_json enable_bson (sortStrings (mapKeys m))
  have hgood := replacer_good ord hord
  have hany : m.any (fun kv => decide (kv.2.Constraint ≠ none)) = true ↔
      ∃ kv ∈ m, kv.2.Constraint ≠ none := by
    rw [List.any_eq_true]
    constructor
    · rintro ⟨kv, hin, h⟩
      exact ⟨kv, hin, of_decide_eq_true h⟩
    · rintro ⟨kv, hin, h⟩
      exact ⟨kv, hin, decide_eq_true h⟩
  refine ⟨m.any (fun kv => decide (kv.2.Constraint ≠ none)), blocks.flatten,
    generateEnumCode_eq ord m pkg enable_json enable_bson blocks hblocks, hany, ?_⟩
  rw [header_import_iff ord hord pkg hpkg hbytes]
  constructor
  · rintro ⟨hassoc, hflag⟩
    obtain ⟨kv, hkv, hc⟩ := hany.mp hassoc
    have hkey : kv.1 ∈ mapKeys m := List.mem_map_of_mem Prod.fst hkv
    have hget : enumGet m kv.1 = kv.2 :=
      value_unique m hn kv.1 _ _ (enumGet_mem m kv.1 hkey) hkv
    obtain ⟨blk, hblk, hr⟩ :=
      forall₂_mem_left hblocks ((sortStrings_perm _).mem_iff.mpr hkey)
    rw [hget] at hr
    simp only [hc, if_false] at hr
    obtain ⟨hname, hinfo⟩ := enumGet_ok NoPercent m hm kv.1 hkey
    rw [hget] at hinfo
    rw [generateAssocEnumType_by,
      generateAssocEnumTypeBy_good (replacer ord) hgood kv.1 kv.2 enable_json enable_bson
        hname hinfo] at hr
    obtain ⟨constr, hconstr⟩ := Option.ne_none_iff_exists'.mp hc
    have hcall := assocBlock_has_call kv.1 kv.2 enable_json enable_bson constr hconstr
      (by rcases hflag with h | h
          · exact Or.inr h
          · exact Or.inl h) blk hr
    exact List.IsInfix.trans hcall (List.infix_of_mem_flatten hblk)
  · intro hcall
    by_contra hnot
    have hfenced : Fenced blocks.flatten := ?_
    · exact hfenced.1 hcall
    apply closed_flatten Fenced closed_fenced
    refine @forall₂_all_right _ _ _ Fenced _ _ hblocks ?_
    intro n hnmem blk hr
    have hkey : n ∈ mapKeys m := (sortStrings_perm _).mem_iff.mp hnmem
    obtain ⟨hname, hinfo⟩ := enumGet_ok NoPercent m hm n hkey
    obtain ⟨hbname', hbinfo'⟩ := enumGet_ok NoBytes m hb n hkey
    have hbname : NoCall n := noCall_of_noBytes n hbname'
    have hbinfo : InfoOk NoCall (enumGet m n) :=
      infoOk_mono NoBytes NoCall noCall_of_noBytes _ hbinfo'
    have hs : SeamOk n (enumGet m n) := hseam (n, enumGet m n) (enumGet_mem m n hkey)
    by_cases hc : (enumGet m n).Constraint = none
    · simp only [hc, if_true] at hr
      rw [hr, generateEnumType_by,
        generateEnumTypeBy_good (replacer ord) hgood n _ enable_json enable_bson hname hinfo]
      exact generateEnumTypeBy_fenced n _ enable_json enable_bson hbname hbinfo hs
    · simp only [hc, if_false] at hr
      rw [generateAssocEnumType_by,
        generateAssocEnumTypeBy_good (replacer ord) hgood n _ enable_json enable_bson
          hname hinfo] at hr
      have hassoc : m.any (fun kv => decide (kv.2.Constraint ≠ none)) = true :=
        hany.mpr ⟨(n, enumGet m n), enumGet_mem m n hkey, hc⟩
      have hj : enable_json = false := by
        cases hjv : enable_json with
        | false => rfl
        | true => exact absurd ⟨hassoc, Or.inr hjv⟩ hnot
      have hbs : enable_bson = false := by
        cases hbv : enable_bson with
        | false => rfl
        | true => exact absurd ⟨hassoc, Or.inl hbv⟩ hnot
      rw [hj, hbs] at hr
      exact assocBlock_fenced n _ hbname hbinfo blk hr

set_option maxRecDepth 100000 in
/-- Witness of C18 (as amended) on a schema with a tagged union and a plain enum whose
literal is `v1.0`, both backends enabled. -/
theorem bytes_import_iff_call_witness :
    IsOrder ordRev ∧ (mapKeys versionSchema).Nodup ∧ SchemaOk NoPercent versionSchema ∧
    SchemaOk NoBytes versionSchema ∧ SchemaSeamOk versionSchema ∧
    NoPercent (String.toList "main") ∧ NoBytes (String.toList "main") ∧
    ∃ (has_assoc : Bool) (rest : Str),
      generateEnumCode ordRev versionSchema (String.toList "main") true true =
        some (generateHeader ordRev (String.toList "main") true true has_assoc ++ rest) ∧
      (has_assoc = true ↔ ∃ kv ∈ versionSchema, kv.2.Constraint ≠ none) ∧
      (String.toList "\"bytes\"" <:+:
          generateHeader ordRev (String.toList "main") true true has_assoc ↔
        String.toList "bytes.Equal(" <:+: rest) :=
  ⟨isOrder_ordRev, by decide, by decide, by decide, by decide, by decide, by decide,
    bytes_import_iff_call ordRev isOrder_ordRev versionSchema (by decide)
      (String.toList "main") true true (by decide) (by decide) (by decide) (by decide)
      (by decide)⟩

end EnumGenerator
